import Mathlib

/-! Calibration session orchestrator (camodocal examples).

Shallow embedding of the two drivers `src/examples/intrinsic_calib.cc` (mono)
and `src/examples/stereo_calib.cc` (stereo).

* `std::string` is a list of characters, `std::vector` a list.
* The file system, the corner detector and the clock are inputs (`World`).
* Everything the process does that an operator or the calibration engine can
  observe (lines on `std::cerr` / `std::cout`, the directory scan, engine
  calls) is appended, in program order, to a trace of `Event`s.
* An early `return` and an exception that leaves a loop are both an
  `Except.error` carrying the final `Outcome` of the process.

The GUI preview calls (`cv::imshow`, `cv::waitKey`, `cv::destroyWindow`,
`cv::putText`) and the construction of the calibration object have no effect on
control flow and are not traced; a `cv::Mat` obtained by `cv::imread (path)` is
identified with `path`. The calls into the collaborators (corner detector,
calibration engine, OpenCV) are taken to return; the calls of the drivers into
the standard library that can throw (`compare`, `at`, `fs::directory_iterator`,
`fs::absolute`) are modelled with their exception.
-/

namespace Camodocal

/-- A `std::string`. -/
abbrev Str := List Char

/-! ## `std::string` primitives -/

/-- Three-way comparison `a.compare (b)`: lexicographic on the characters, a
proper prefix comes first; negative, zero or positive. -/
def strCompare : Str → Str → Int
  | [], [] => 0
  | [], _ :: _ => -1
  | _ :: _, [] => 1
  | a :: as, b :: bs =>
    if a < b then -1 else if b < a then 1 else strCompare as bs

/-- The `size_t` difference `a - b` of two string lengths (both below `2 ^ 64`):
exact when `b ≤ a`, wrapped modulo `2 ^ 64` otherwise. -/
def sizeSub (a b : Nat) : Nat :=
  if b ≤ a then a - b else (a + 2 ^ 64 - b) % 2 ^ 64

/-- Call `s.compare (pos, len, str)`: `none` is `std::out_of_range`
(`pos > s.size ()`); otherwise the substring of at most `len` characters that
starts at `pos` is compared with `str`. -/
def compare3 (s : Str) (pos len : Nat) (str : Str) : Option Int :=
  if pos > s.length then none
  else some (strCompare ((s.drop pos).take len) str)

/-- Call `s.compare (pos1, n1, str, pos2, n2)`: `none` is `std::out_of_range`
(`pos1 > s.size ()` or `pos2 > str.size ()`). -/
def compare5 (s : Str) (pos1 n1 : Nat) (str : Str) (pos2 n2 : Nat) : Option Int :=
  if pos1 > s.length ∨ pos2 > str.length then none
  else some (strCompare ((s.drop pos1).take n1) ((str.drop pos2).take n2))

/-- The order `a < b || a == b` used by `std::sort` on strings. -/
def strLe (a b : Str) : Prop := strCompare a b ≤ 0

instance strLe.decidable : DecidableRel strLe := fun a b =>
  inferInstanceAs (Decidable (strCompare a b ≤ 0))

/-- Result of `std::sort (v.begin (), v.end ())` on a vector of strings: the
ascending arrangement of `v`. -/
def stdSort (v : List Str) : List Str := v.insertionSort strLe

/-! ## `std::filesystem` paths -/

/-- The path `dir / name` as a string (generic format, separator `/`). -/
def pathAppend (dir name : Str) : Str :=
  if dir = [] ∨ dir.getLast? = some '/' then dir ++ name else dir ++ '/' :: name

/-- Member `fs::path (p).filename ()`: what follows the last separator. -/
def pathFilename (p : Str) : Str :=
  (p.reverse.takeWhile (fun c => c != '/')).reverse

/-! ## World, events, outcomes -/

/-- One entry produced by `fs::directory_iterator`. -/
structure DirEntry where
  name : Str
  isRegularFile : Bool
deriving DecidableEq, Repr

/-- What the file system holds at the input path. -/
inductive DirState where
  | missing
  | notDirectory
  | directory (entries : List DirEntry)
deriving DecidableEq, Repr

/-- Function `fs::exists`. -/
def DirState.exists : DirState → Bool
  | .missing => false
  | _ => true

/-- Function `fs::is_directory`. -/
def DirState.is_directory : DirState → Bool
  | .directory _ => true
  | _ => false

/-- The environment of one run. -/
structure World where
  /-- state of the input directory; the entries are in enumeration order -/
  input : DirState
  /-- outcome of `findCorners` + `cornersFound ()` on the image read from a path -/
  cornersFound : Str → Bool
  /-- text of the elapsed time printed after calibration -/
  elapsed : Str
  /-- function `fs::absolute (p).string ()`; `none` when `fs::absolute` throws
  `filesystem_error` (an empty path, a current directory that is gone) -/
  absolute : Str → Option Str

/-- Enumeration `camodocal::Camera::ModelType`. -/
inductive ModelType where
  | KANNALA_BRANDT
  | MEI
  | PINHOLE
deriving DecidableEq, Repr

/-- Exceptions that can leave `main`. -/
inductive Exn where
  | out_of_range
  | filesystem_error
deriving DecidableEq, Repr

/-- The failure taxonomy of the session; each is one `return 1` of a driver. -/
inductive Failure where
  | InputDirectoryNotFound
  | UnknownCameraModel
  | NoImagesFound
  | PairCountMismatch
  | StereoPairMismatch
  | InsufficientSamples
deriving DecidableEq, Repr

/-- How the process ends. -/
inductive Termination where
  /-- the final `return 0` -/
  | success
  /-- the `return 0` after `parser.printMessage ()` -/
  | helpRequested
  /-- the `return -1` after `parser.printErrors ()` -/
  | invalidArguments
  /-- one of the `return 1` -/
  | failure (f : Failure)
  /-- an exception nobody catches -/
  | uncaught (e : Exn)
deriving DecidableEq, Repr

/-- Exit code of the process, when it returns from `main`. -/
def Termination.exitCode : Termination → Option Int
  | .success => some 0
  | .helpRequested => some 0
  | .invalidArguments => some (-1)
  | .failure _ => some 1
  | .uncaught _ => none

/-- Observable actions. -/
inductive Event where
  | stderr (text : Str)
  | stdout (text : Str)
  /-- the parser prints its usage or its errors -/
  | parserOutput
  /-- construction of `fs::directory_iterator (dir)`: the scan starts -/
  | directory_iterator (dir : Str)
  /-- call `calibration.addChessboardData` with the corners of the named image(s) -/
  | addChessboardData (image : Str) (imageR : Option Str)
  | calibrate
  | writeParams (destination : Str)
  | writeChessboardData (destination : Str)
  | drawResults (images : List Str) (imagesR : Option (List Str))
deriving DecidableEq, Repr

/-- Final result of a run. -/
structure Outcome where
  term : Termination
  trace : List Event
deriving DecidableEq, Repr

/-- Modelled from the spec: `sampleCount ()` of the calibration engine
(`CameraCalibration` / `StereoCameraCalibration`, whose code is not part of the
drivers): `add_sample` increases the sample count by exactly one, so the count
is the number of `addChessboardData` calls made so far. -/
def sampleCount (trace : List Event) : Nat :=
  (trace.filter fun e => match e with
    | .addChessboardData _ _ => true
    | _ => false).length

/-- The samples handed to the engine so far, in order. -/
def samplesOf : List Event → List (Str × Option Str)
  | [] => []
  | .addChessboardData a b :: t => (a, b) :: samplesOf t
  | _ :: t => samplesOf t

/-- The image lists handed to `drawResults` so far. -/
def reviewsOf : List Event → List (List Str × Option (List Str))
  | [] => []
  | .drawResults a b :: t => (a, b) :: reviewsOf t
  | _ :: t => reviewsOf t

/-- A diagnostic prefixed as an error. -/
def isErrorLine : Event → Bool
  | .stderr text => "# ERROR:".toList.isPrefixOf text
  | _ => false

/-- One of the `# INFO: Adding` lines of the resolver. -/
def isAddingLine : Event → Bool
  | .stderr text => "# INFO: Adding ".toList.isPrefixOf text
  | _ => false

/-! ## Loops -/

/-- A range-based `for` over a sequence, threading the state; the body may
leave the loop with a final outcome. -/
def forEach {α σ ε : Type} (body : α → σ → Except ε σ) : List α → σ → Except ε σ
  | [], s => .ok s
  | a :: as, s =>
    match body a s with
    | .error e => .error e
    | .ok s1 => forEach body as s1

/-- The loop `for (size_t i = start; i < start + count; ++i) body`. -/
def forLoop {σ ε : Type} (body : Nat → σ → Except ε σ) : Nat → Nat → σ → Except ε σ
  | 0, _, s => .ok s
  | count + 1, i, s =>
    match body i s with
    | .error e => .error e
    | .ok s1 => forLoop body count (i + 1) s1

/-- Selection of the camera model (both drivers, the same chain of
`cameraModel.compare (...) == 0`). -/
def selectModel (cameraModel : Str) : Option ModelType :=
  if strCompare cameraModel "kannala-brandt".toList = 0 then some .KANNALA_BRANDT
  else if strCompare cameraModel "mei".toList = 0 then some .MEI
  else if strCompare cameraModel "pinhole".toList = 0 then some .PINHOLE
  else none

/-- The `switch (modelType)` that reports the model on `std::cout`. -/
def modelInfo : ModelType → Event
  | .KANNALA_BRANDT => .stdout "# INFO: Camera model: Kannala-Brandt".toList
  | .MEI => .stdout "# INFO: Camera model: Mei".toList
  | .PINHOLE => .stdout "# INFO: Camera model: Pinhole".toList

/-- A line printed only `if (verbose)`. -/
def whenVerbose (verbose : Bool) (e : Event) : List Event :=
  if verbose then [e] else []

/-- Decimal text of a `size_t` sent to a stream. -/
def showNat (n : Nat) : Str := (Nat.repr n).toList

/-- The test `filename.compare (filename.length () - fileExtension.length (),
fileExtension.length (), fileExtension)` of both drivers. -/
def extensionCompare (filename fileExtension : Str) : Option Int :=
  compare3 filename (sizeSub filename.length fileExtension.length)
    fileExtension.length fileExtension

/-! ## Mono driver: `intrinsic_calib.cc` -/

/-- Values read from the command line by the mono driver. -/
structure Request where
  boardWidth : Int
  boardHeight : Int
  inputDir : Str
  prefixM : Str
  fileExtension : Str
  cameraModel : Str
  cameraName : Str
  useOpenCV : Bool
  viewResults : Bool
  verbose : Bool
deriving DecidableEq, Repr

/-- Local variables of the mono `main`. -/
structure MonoState where
  trace : List Event
  imageFilenames : List Str
  chessboardFound : List Bool
  cbImages : List Str
  cbImageFilenames : List Str
deriving DecidableEq, Repr

/-- Lines 129-140: extension check, `push_back`, verbose line. -/
def monoExtensionStep (r : Request) (e : DirEntry) (s : MonoState) :
    Except Outcome MonoState :=
  match extensionCompare e.name r.fileExtension with
  | none => .error ⟨.uncaught .out_of_range, s.trace⟩
  | some c =>
    if c ≠ 0 then .ok s
    else
      let path := pathAppend r.inputDir e.name
      .ok { s with
        imageFilenames := s.imageFilenames ++ [path]
        trace := s.trace ++
          whenVerbose r.verbose (.stderr ("# INFO: Adding ".toList ++ path)) }

/-- Lines 113-140: body of the image discovery loop. -/
def monoScanBody (r : Request) (e : DirEntry) (s : MonoState) :
    Except Outcome MonoState :=
  if !e.isRegularFile then .ok s
  else if !r.prefixM.isEmpty then
    match compare3 e.name 0 r.prefixM.length r.prefixM with
    | none => .error ⟨.uncaught .out_of_range, s.trace⟩
    | some c => if c ≠ 0 then .ok s else monoExtensionStep r e s
  else monoExtensionStep r e s

/-- Lines 71-141: directory check, model selection, image discovery. -/
def monoDiscovery (w : World) (r : Request) : Except Outcome MonoState :=
  if !w.input.exists && !w.input.is_directory then
    .error ⟨.failure .InputDirectoryNotFound,
      [.stderr ("# ERROR: Cannot find input directory ".toList ++ r.inputDir ++ ".".toList)]⟩
  else
    match selectModel r.cameraModel with
    | none =>
      .error ⟨.failure .UnknownCameraModel,
        [.stderr ("# ERROR: Unknown camera model: ".toList ++ r.cameraModel)]⟩
    | some m =>
      match w.input with
      | .directory entries =>
        forEach (monoScanBody r) entries
          ⟨[modelInfo m, .directory_iterator r.inputDir], [], [], [], []⟩
      | _ => .error ⟨.uncaught .filesystem_error, [modelInfo m]⟩

/-- Lines 163-188: body of the detection loop. -/
def monoDetectBody (w : World) (r : Request) (i : Nat) (s : MonoState) :
    Except Outcome MonoState :=
  match s.imageFilenames[i]? with
  | none => .error ⟨.uncaught .out_of_range, s.trace⟩
  | some path =>
    let found := w.cornersFound path
    let t :=
      if found then
        s.trace ++
          whenVerbose r.verbose
            (.stderr ("# INFO: Detected chessboard in image ".toList ++ showNat (i + 1))) ++
          [.addChessboardData path none]
      else
        s.trace ++
          whenVerbose r.verbose
            (.stderr ("# INFO: Did not detect chessboard in image ".toList ++ showNat (i + 1)))
    if i < s.chessboardFound.length then
      .ok { s with trace := t, chessboardFound := s.chessboardFound.set i found }
    else .error ⟨.uncaught .out_of_range, t⟩

/-- Lines 143-189: the empty-list gate and the detection loop. -/
def monoDetection (w : World) (r : Request) (s : MonoState) : Except Outcome MonoState :=
  if s.imageFilenames.isEmpty then
    .error ⟨.failure .NoImagesFound,
      s.trace ++ [.stderr "# ERROR: No chessboard images found.".toList]⟩
  else
    forLoop (monoDetectBody w r) s.imageFilenames.length 0
      { s with
        trace := s.trace ++
          whenVerbose r.verbose
            (.stderr ("# INFO: # images: ".toList ++ showNat s.imageFilenames.length))
        chessboardFound := List.replicate s.imageFilenames.length false }

/-- Lines 71-189: everything up to the end of the detection loop. -/
def monoFront (w : World) (r : Request) : Except Outcome MonoState :=
  match monoDiscovery w r with
  | .error o => .error o
  | .ok s => monoDetection w r s

/-- Lines 227-233: body of the review selection loop. -/
def monoReviewBody (i : Nat) (s : MonoState) : Except Outcome MonoState :=
  match s.chessboardFound[i]? with
  | none => .error ⟨.uncaught .out_of_range, s.trace⟩
  | some false => .ok s
  | some true =>
    match s.imageFilenames[i]? with
    | none => .error ⟨.uncaught .out_of_range, s.trace⟩
    | some path =>
      .ok { s with
        cbImages := s.cbImages ++ [path]
        cbImageFilenames := s.cbImageFilenames ++ [path] }

/-- Lines 191-249: sufficiency gate, calibration, persistence, review. -/
def monoBack (w : World) (r : Request) (s : MonoState) : Outcome :=
  if sampleCount s.trace < 10 then
    ⟨.failure .InsufficientSamples,
      s.trace ++ [.stderr "# ERROR: Insufficient number of detected chessboards.".toList]⟩
  else
    let t := s.trace ++
      whenVerbose r.verbose (.stderr "# INFO: Calibrating...".toList) ++
      [.calibrate,
       .writeParams (r.cameraName ++ "_camera_calib.yaml".toList),
       .writeChessboardData (r.cameraName ++ "_chessboard_data.dat".toList)] ++
      whenVerbose r.verbose
        (.stdout ("# INFO: Calibration took a total time of ".toList ++ w.elapsed ++
          " sec.\n".toList)) ++
      whenVerbose r.verbose
        (.stderr ("# INFO: Wrote calibration file to ".toList ++ r.cameraName ++
          "_camera_calib.yaml".toList))
    if r.viewResults then
      match forLoop monoReviewBody s.imageFilenames.length 0
          { s with trace := t, cbImages := [], cbImageFilenames := [] } with
      | .error o => o
      | .ok s1 => ⟨.success, s1.trace ++ [.drawResults s1.cbImages none]⟩
    else ⟨.success, t⟩

/-- The mono session: `main` of `intrinsic_calib.cc` from line 71 on, for a
parsed request. -/
def intrinsicSession (w : World) (r : Request) : Outcome :=
  match monoFront w r with
  | .error o => o
  | .ok s => monoBack w r s

/-- The mono `main`: `help` is `parser.has ("help")`, `check` is
`parser.check ()`. -/
def intrinsicMain (w : World) (help check : Bool) (r : Request) : Outcome :=
  if help then ⟨.helpRequested, [.parserOutput]⟩
  else if !check then ⟨.invalidArguments, [.parserOutput]⟩
  else intrinsicSession w r

/-! ## Stereo driver: `stereo_calib.cc` -/

/-- Values read from the command line by the stereo driver. -/
structure StereoRequest where
  boardWidth : Int
  boardHeight : Int
  inputDir : Str
  outputDir : Str
  prefixL : Str
  prefixR : Str
  fileExtension : Str
  cameraModel : Str
  cameraNameL : Str
  cameraNameR : Str
  useOpenCV : Bool
  viewResults : Bool
  verbose : Bool
deriving DecidableEq, Repr

/-- Local variables of the stereo `main`. -/
structure StereoState where
  trace : List Event
  imageFilenamesL : List Str
  imageFilenamesR : List Str
  matchImages : Bool
  chessboardFoundL : List Bool
  chessboardFoundR : List Bool
  cbImagesL : List Str
  cbImagesR : List Str
  cbImageFilenamesL : List Str
  cbImageFilenamesR : List Str
deriving DecidableEq, Repr

/-- The condition `pre.empty () || (!pre.empty () && (filename.compare (0,
pre.length (), pre) == 0))` of lines 136 and 145; `none` is `std::out_of_range`. -/
def prefixTest (pre filename : Str) : Option Bool :=
  if pre.isEmpty then some true
  else
    match compare3 filename 0 pre.length pre with
    | none => none
    | some c => some (!pre.isEmpty && c == 0)

/-- Lines 136-144: the left `push_back` and its verbose line. -/
def pushLeft (r : StereoRequest) (path : Str) (s : StereoState) : StereoState :=
  { s with
    imageFilenamesL := s.imageFilenamesL ++ [path]
    trace := s.trace ++ whenVerbose r.verbose (.stderr ("# INFO: Adding ".toList ++ path)) }

/-- Lines 145-153: the right `push_back` and its verbose line. -/
def pushRight (r : StereoRequest) (path : Str) (s : StereoState) : StereoState :=
  { s with
    imageFilenamesR := s.imageFilenamesR ++ [path]
    trace := s.trace ++ whenVerbose r.verbose (.stderr ("# INFO: Adding ".toList ++ path)) }

/-- Lines 122-153: body of the left/right image discovery loop. -/
def stereoScanBody (r : StereoRequest) (e : DirEntry) (s : StereoState) :
    Except Outcome StereoState :=
  if !e.isRegularFile then .ok s
  else
    match extensionCompare e.name r.fileExtension with
    | none => .error ⟨.uncaught .out_of_range, s.trace⟩
    | some c =>
      if c ≠ 0 then .ok s
      else
        let path := pathAppend r.inputDir e.name
        match prefixTest r.prefixL e.name with
        | none => .error ⟨.uncaught .out_of_range, s.trace⟩
        | some inL =>
          let s1 := if inL then pushLeft r path s else s
          match prefixTest r.prefixR e.name with
          | none => .error ⟨.uncaught .out_of_range, s1.trace⟩
          | some inR => .ok (if inR then pushRight r path s1 else s1)

/-- Lines 80-154: directory check, model selection, image discovery. -/
def stereoDiscovery (w : World) (r : StereoRequest) : Except Outcome StereoState :=
  if !w.input.exists && !w.input.is_directory then
    .error ⟨.failure .InputDirectoryNotFound,
      [.stderr ("# ERROR: Cannot find input directory ".toList ++ r.inputDir ++ ".".toList)]⟩
  else
    match selectModel r.cameraModel with
    | none =>
      .error ⟨.failure .UnknownCameraModel,
        [.stderr ("# ERROR: Unknown camera model: ".toList ++ r.cameraModel)]⟩
    | some m =>
      match w.input with
      | .directory entries =>
        forEach (stereoScanBody r) entries
          ⟨[modelInfo m, .directory_iterator r.inputDir], [], [], true, [], [], [], [], [], []⟩
      | _ => .error ⟨.uncaught .filesystem_error, [modelInfo m]⟩

/-- Lines 174-190: body of the tail comparison loop. -/
def stereoMatchBody (r : StereoRequest) (i : Nat) (s : StereoState) :
    Except Outcome StereoState :=
  match s.imageFilenamesL[i]? with
  | none => .error ⟨.uncaught .out_of_range, s.trace⟩
  | some pathL =>
    match s.imageFilenamesR[i]? with
    | none => .error ⟨.uncaught .out_of_range, s.trace⟩
    | some pathR =>
      let filenameL := pathFilename pathL
      let filenameR := pathFilename pathR
      match compare5 filenameL r.prefixL.length (sizeSub filenameL.length r.prefixL.length)
          filenameR r.prefixR.length (sizeSub filenameR.length r.prefixR.length) with
      | none => .error ⟨.uncaught .out_of_range, s.trace⟩
      | some c =>
        if c ≠ 0 then
          .ok { s with
            matchImages := false
            trace := s.trace ++
              whenVerbose r.verbose
                (.stderr ("# ERROR: Filenames do not match: ".toList ++ pathL ++
                  " ".toList ++ pathR)) }
        else .ok s

/-- Lines 156-201: the two gates on the resolved lists, the two sorts, the
tail comparison loop and the gate on its verdict. -/
def stereoPairing (r : StereoRequest) (s : StereoState) : Except Outcome StereoState :=
  if s.imageFilenamesL.isEmpty || s.imageFilenamesR.isEmpty then
    .error ⟨.failure .NoImagesFound,
      s.trace ++ [.stderr "# ERROR: No chessboard images found.".toList]⟩
  else if s.imageFilenamesL.length ≠ s.imageFilenamesR.length then
    .error ⟨.failure .PairCountMismatch,
      s.trace ++ [.stderr
        "# ERROR: # chessboard images from left and right cameras do not match.".toList]⟩
  else
    match forLoop (stereoMatchBody r) s.imageFilenamesL.length 0
        { s with
          matchImages := true
          imageFilenamesL := stdSort s.imageFilenamesL
          imageFilenamesR := stdSort s.imageFilenamesR } with
    | .error o => .error o
    | .ok s1 =>
      if !s1.matchImages then .error ⟨.failure .StereoPairMismatch, s1.trace⟩
      else
        .ok { s1 with
          trace := s1.trace ++
            whenVerbose r.verbose
              (.stderr ("# INFO: # images: ".toList ++ showNat s1.imageFilenamesL.length)) }

/-- Lines 214-251: body of the stereo detection loop. -/
def stereoDetectBody (w : World) (r : StereoRequest) (i : Nat) (s : StereoState) :
    Except Outcome StereoState :=
  match s.imageFilenamesL[i]? with
  | none => .error ⟨.uncaught .out_of_range, s.trace⟩
  | some pathL =>
    match s.imageFilenamesR[i]? with
    | none => .error ⟨.uncaught .out_of_range, s.trace⟩
    | some pathR =>
      let foundL := w.cornersFound pathL
      let foundR := w.cornersFound pathR
      let t :=
        if foundL && foundR then
          s.trace ++
            whenVerbose r.verbose
              (.stderr ("# INFO: Detected chessboard in image ".toList ++ showNat (i + 1))) ++
            [.addChessboardData pathL (some pathR)]
        else
          s.trace ++
            whenVerbose r.verbose
              (.stderr ("# INFO: Did not detect chessboard in image ".toList ++
                showNat (i + 1)))
      if i < s.chessboardFoundL.length then
        if i < s.chessboardFoundR.length then
          .ok { s with
            trace := t
            chessboardFoundL := s.chessboardFoundL.set i foundL
            chessboardFoundR := s.chessboardFoundR.set i foundR }
        else .error ⟨.uncaught .out_of_range, t⟩
      else .error ⟨.uncaught .out_of_range, t⟩

/-- Lines 210-252: the found-flag vectors and the detection loop. -/
def stereoDetection (w : World) (r : StereoRequest) (s : StereoState) :
    Except Outcome StereoState :=
  forLoop (stereoDetectBody w r) s.imageFilenamesL.length 0
    { s with
      chessboardFoundL := List.replicate s.imageFilenamesL.length false
      chessboardFoundR := List.replicate s.imageFilenamesR.length false }

/-- Lines 80-252: everything up to the end of the detection loop. -/
def stereoFront (w : World) (r : StereoRequest) : Except Outcome StereoState :=
  match stereoDiscovery w r with
  | .error o => .error o
  | .ok s =>
    match stereoPairing r s with
    | .error o => .error o
    | .ok s1 => stereoDetection w r s1

/-- Lines 290-299: body of the review selection loop. -/
def stereoReviewBody (i : Nat) (s : StereoState) : Except Outcome StereoState :=
  match s.chessboardFoundL[i]? with
  | none => .error ⟨.uncaught .out_of_range, s.trace⟩
  | some fL =>
    if !fL then .ok s
    else
      match s.chessboardFoundR[i]? with
      | none => .error ⟨.uncaught .out_of_range, s.trace⟩
      | some fR =>
        if !fR then .ok s
        else
          match s.imageFilenamesL[i]? with
          | none => .error ⟨.uncaught .out_of_range, s.trace⟩
          | some pathL =>
            match s.imageFilenamesR[i]? with
            | none => .error ⟨.uncaught .out_of_range, s.trace⟩
            | some pathR =>
              .ok { s with
                cbImagesL := s.cbImagesL ++ [pathL]
                cbImageFilenamesL := s.cbImageFilenamesL ++ [pathL]
                cbImagesR := s.cbImagesR ++ [pathR]
                cbImageFilenamesR := s.cbImageFilenamesR ++ [pathR] }

/-- Lines 277-280: the verbose line that names the absolute output directory.
In `std::cerr << "# INFO: Wrote calibration files to " << fs::absolute
(outputDir).string () << std::endl` the left operand of each `<<` is evaluated
first, so the leading text has been sent when `fs::absolute` throws. -/
def stereoWroteLine (w : World) (r : StereoRequest) (t : List Event) :
    Except Outcome (List Event) :=
  if r.verbose then
    match w.absolute r.outputDir with
    | none =>
      .error ⟨.uncaught .filesystem_error,
        t ++ [.stderr "# INFO: Wrote calibration files to ".toList]⟩
    | some path => .ok (t ++ [.stderr ("# INFO: Wrote calibration files to ".toList ++ path)])
  else .ok t

/-- Lines 254-319: sufficiency gate, calibration, persistence, review. -/
def stereoBack (w : World) (r : StereoRequest) (s : StereoState) : Outcome :=
  if sampleCount s.trace < 10 then
    ⟨.failure .InsufficientSamples,
      s.trace ++ [.stderr "# ERROR: Insufficient number of detected chessboards.".toList]⟩
  else
    match stereoWroteLine w r
        (s.trace ++
          whenVerbose r.verbose (.stderr "# INFO: Calibrating...".toList) ++
          [.calibrate, .writeParams r.outputDir] ++
          whenVerbose r.verbose
            (.stdout ("# INFO: Calibration took a total time of ".toList ++ w.elapsed ++
              " sec.\n".toList))) with
    | .error o => o
    | .ok t =>
      if r.viewResults then
        match forLoop stereoReviewBody s.imageFilenamesL.length 0
            { s with
              trace := t
              cbImagesL := []
              cbImagesR := []
              cbImageFilenamesL := []
              cbImageFilenamesR := [] } with
        | .error o => o
        | .ok s1 => ⟨.success, s1.trace ++ [.drawResults s1.cbImagesL (some s1.cbImagesR)]⟩
      else ⟨.success, t⟩

/-- The stereo session: `main` of `stereo_calib.cc` from line 80 on, for a
parsed request. -/
def stereoSession (w : World) (r : StereoRequest) : Outcome :=
  match stereoFront w r with
  | .error o => o
  | .ok s => stereoBack w r s

/-- The stereo `main`: `help` is `parser.has ("help")`, `check` is
`parser.check ()`. -/
def stereoMain (w : World) (help check : Bool) (r : StereoRequest) : Outcome :=
  if help then ⟨.helpRequested, [.parserOutput]⟩
  else if !check then ⟨.invalidArguments, [.parserOutput]⟩
  else stereoSession w r

/-! ## Specification-side definitions, loop invariants and example inputs -/

/-- The leading part that `dir / name` puts in front of `name`. -/
def dirPart (dir : Str) : Str :=
  if dir = [] ∨ dir.getLast? = some '/' then dir else dir ++ ['/']

/-- Diagnostics and the directory scan: events that involve neither the
calibration engine nor the review. -/
def isDiag : Event → Bool
  | .stderr _ => true
  | .stdout _ => true
  | .directory_iterator _ => true
  | _ => false

/-- Events that can occur before the sufficiency gate. -/
def isEarly : Event → Bool
  | .stderr _ => true
  | .stdout _ => true
  | .directory_iterator _ => true
  | .addChessboardData _ _ => true
  | _ => false

/-- Specification of the resolver: the regular files whose name starts with the
prefix and ends with the extension, in enumeration order. -/
def matchingEntries (pre ext : Str) (entries : List DirEntry) : List DirEntry :=
  entries.filter fun e =>
    e.isRegularFile && decide (pre <+: e.name) && decide (ext <:+ e.name)

/-- Paths of the matching entries. -/
def matchingPaths (dir pre ext : Str) (entries : List DirEntry) : List Str :=
  (matchingEntries pre ext entries).map fun e => pathAppend dir e.name

/-- The verbose line of the resolver for one accepted path. -/
def addingLine (path : Str) : Event := .stderr ("# INFO: Adding ".toList ++ path)

/-- The lines the resolver prints for a list of accepted paths. -/
def addingLines (verbose : Bool) (paths : List Str) : List Event :=
  if verbose then paths.map addingLine else []

/-- One iteration of the mono scan, when it does not throw. -/
def monoStep (r : Request) (s : MonoState) (e : DirEntry) : MonoState :=
  if e.isRegularFile && decide (r.prefixM <+: e.name) && decide (r.fileExtension <:+ e.name) then
    { s with
      imageFilenames := s.imageFilenames ++ [pathAppend r.inputDir e.name]
      trace := s.trace ++ whenVerbose r.verbose (addingLine (pathAppend r.inputDir e.name)) }
  else s

/-- The lines the stereo resolver prints: per entry, the left line then the
right line, each when the entry is accepted for that camera. -/
def stereoAddingLines (r : StereoRequest) (entries : List DirEntry) : List Event :=
  entries.flatMap fun e =>
    addingLines r.verbose (matchingPaths r.inputDir r.prefixL r.fileExtension [e]) ++
      addingLines r.verbose (matchingPaths r.inputDir r.prefixR r.fileExtension [e])

/-- One iteration of the stereo scan, when it does not throw. -/
def stereoStep (r : StereoRequest) (s : StereoState) (e : DirEntry) : StereoState :=
  { s with
    imageFilenamesL := s.imageFilenamesL ++
      matchingPaths r.inputDir r.prefixL r.fileExtension [e]
    imageFilenamesR := s.imageFilenamesR ++
      matchingPaths r.inputDir r.prefixR r.fileExtension [e]
    trace := s.trace ++ stereoAddingLines r [e] }

/-- A directory listing: two mono images, a sub-directory, a foreign file. -/
def exEntries : List DirEntry :=
  [⟨"image_2.bmp".toList, true⟩, ⟨"image_old".toList, false⟩, ⟨"notes.txt".toList, true⟩,
   ⟨"image_1.bmp".toList, true⟩, ⟨"left_1.bmp".toList, true⟩, ⟨"right_1.bmp".toList, true⟩]

/-- A world whose input directory holds `exEntries`; every board is detected. -/
def exWorld : World :=
  ⟨.directory exEntries, fun _ => true, "0.100".toList, fun p => some ('/' :: p)⟩

/-- The mono request with the default options, verbose. -/
def exRequest : Request :=
  ⟨9, 6, "images".toList, "image".toList, ".bmp".toList, "mei".toList, "camera".toList,
    false, false, true⟩

/-- The stereo request with the default options, verbose. -/
def exStereoRequest : StereoRequest :=
  ⟨9, 6, "images".toList, ".".toList, "left".toList, "right".toList, ".bmp".toList,
    "mei".toList, "camera_left".toList, "camera_right".toList, false, false, true⟩

/-- The file name of a path with its first `|pre|` characters removed. -/
def tailOf (pre path : Str) : Str := (pathFilename path).drop pre.length

/-- The diagnostic of a mismatching pair. -/
def mismatchLine (pathL pathR : Str) : Event :=
  .stderr ("# ERROR: Filenames do not match: ".toList ++ pathL ++ " ".toList ++ pathR)

/-- The tails agree at every index below `j`. -/
def tailsAgree (pL pR : Str) (L R : List Str) (j : Nat) : Prop :=
  ∀ i, i < j → (L[i]?).map (tailOf pL) = (R[i]?).map (tailOf pR)

/-- Invariant of the tail comparison loop. -/
def MatchInv (r : StereoRequest) (s0 : StereoState) (j : Nat) (s : StereoState) : Prop :=
  s.imageFilenamesL = s0.imageFilenamesL ∧ s.imageFilenamesR = s0.imageFilenamesR ∧
  (s.matchImages = true ↔ tailsAgree r.prefixL r.prefixR s0.imageFilenamesL s0.imageFilenamesR j) ∧
  (s.matchImages = true → s.trace = s0.trace) ∧
  ((∀ e ∈ s0.trace, isDiag e = true) → ∀ e ∈ s.trace, isDiag e = true) ∧
  (r.verbose = true → s.matchImages = false → ∃ e ∈ s.trace, isErrorLine e = true) ∧
  (r.verbose = false → s.trace = s0.trace)

/-- The line that reports the number of images. -/
def imagesLine (n : Nat) : Event := .stderr ("# INFO: # images: ".toList ++ showNat n)

/-- The state on which the tail comparison loop starts: both lists sorted. -/
def sortedState (s : StereoState) : StereoState :=
  { s with
    matchImages := true
    imageFilenamesL := stdSort s.imageFilenamesL
    imageFilenamesR := stdSort s.imageFilenamesR }

/-- What one iteration of the mono detection loop appends to the trace. -/
def monoDetectEvents (w : World) (r : Request) (i : Nat) (path : Str) : List Event :=
  if w.cornersFound path then
    whenVerbose r.verbose
        (.stderr ("# INFO: Detected chessboard in image ".toList ++ showNat (i + 1))) ++
      [.addChessboardData path none]
  else
    whenVerbose r.verbose
      (.stderr ("# INFO: Did not detect chessboard in image ".toList ++ showNat (i + 1)))

/-- Invariant of the mono detection loop. -/
def MonoDetectInv (w : World) (s0 : MonoState) (j : Nat) (s : MonoState) : Prop :=
  s.imageFilenames = s0.imageFilenames ∧
  s.chessboardFound.length = s0.imageFilenames.length ∧
  (∀ k, k < j → s.chessboardFound[k]? = (s0.imageFilenames[k]?).map w.cornersFound) ∧
  samplesOf s.trace = samplesOf s0.trace ++
    ((s0.imageFilenames.take j).filter w.cornersFound).map (fun p => (p, none)) ∧
  ((∀ e ∈ s0.trace, isEarly e = true) → ∀ e ∈ s.trace, isEarly e = true)

/-- What the mono driver appends to the trace between the gate and the review. -/
def monoCalibEvents (w : World) (r : Request) : List Event :=
  whenVerbose r.verbose (.stderr "# INFO: Calibrating...".toList) ++
    [.calibrate,
     .writeParams (r.cameraName ++ "_camera_calib.yaml".toList),
     .writeChessboardData (r.cameraName ++ "_chessboard_data.dat".toList)] ++
    whenVerbose r.verbose
      (.stdout ("# INFO: Calibration took a total time of ".toList ++ w.elapsed ++
        " sec.\n".toList)) ++
    whenVerbose r.verbose
      (.stderr ("# INFO: Wrote calibration file to ".toList ++ r.cameraName ++
        "_camera_calib.yaml".toList))

/-- Both boards of a pair were detected. -/
def bothFound (w : World) (p : Str × Str) : Bool :=
  w.cornersFound p.1 && w.cornersFound p.2

/-- What one iteration of the stereo detection loop appends to the trace. -/
def stereoDetectEvents (w : World) (r : StereoRequest) (i : Nat) (pathL pathR : Str) :
    List Event :=
  if w.cornersFound pathL && w.cornersFound pathR then
    whenVerbose r.verbose
        (.stderr ("# INFO: Detected chessboard in image ".toList ++ showNat (i + 1))) ++
      [.addChessboardData pathL (some pathR)]
  else
    whenVerbose r.verbose
      (.stderr ("# INFO: Did not detect chessboard in image ".toList ++ showNat (i + 1)))

/-- Invariant of the stereo detection loop. -/
def StereoDetectInv (w : World) (s0 : StereoState) (j : Nat) (s : StereoState) : Prop :=
  s.imageFilenamesL = s0.imageFilenamesL ∧ s.imageFilenamesR = s0.imageFilenamesR ∧
  s.chessboardFoundL.length = s0.imageFilenamesL.length ∧
  s.chessboardFoundR.length = s0.imageFilenamesL.length ∧
  (∀ k, k < j → s.chessboardFoundL[k]? = (s0.imageFilenamesL[k]?).map w.cornersFound) ∧
  (∀ k, k < j → s.chessboardFoundR[k]? = (s0.imageFilenamesR[k]?).map w.cornersFound) ∧
  samplesOf s.trace = samplesOf s0.trace ++
    (((s0.imageFilenamesL.zip s0.imageFilenamesR).take j).filter (bothFound w)).map
      (fun p => (p.1, some p.2)) ∧
  ((∀ e ∈ s0.trace, isEarly e = true) → ∀ e ∈ s.trace, isEarly e = true)

/-- The verbose line on the absolute output directory cannot be completed:
`fs::absolute` throws. -/
def absoluteThrows (w : World) (r : StereoRequest) : Bool :=
  r.verbose && (w.absolute r.outputDir).isNone

/-- What the stereo driver appends to the trace between the gate and the
review, or until `fs::absolute` throws. -/
def stereoCalibEvents (w : World) (r : StereoRequest) : List Event :=
  whenVerbose r.verbose (.stderr "# INFO: Calibrating...".toList) ++
    [.calibrate, .writeParams r.outputDir] ++
    whenVerbose r.verbose
      (.stdout ("# INFO: Calibration took a total time of ".toList ++ w.elapsed ++
        " sec.\n".toList)) ++
    whenVerbose r.verbose
      (.stderr ("# INFO: Wrote calibration files to ".toList ++
        (w.absolute r.outputDir).getD []))

/-- The state of the stereo driver after discovery on the example inputs. -/
def exStereoState : StereoState :=
  ⟨[modelInfo .MEI, .directory_iterator "images".toList,
      addingLine "images/left_1.bmp".toList, addingLine "images/right_1.bmp".toList],
    ["images/left_1.bmp".toList], ["images/right_1.bmp".toList], true, [], [], [], [], [], []⟩

/-- A state of the mono driver with two candidates and an empty trace. -/
def exMonoState : MonoState :=
  ⟨[], ["images/image_2.bmp".toList, "images/image_1.bmp".toList], [], [], []⟩

/-- A world in which only the left image of the example pair is detected. -/
def exLeftOnlyWorld : World :=
  ⟨.directory exEntries, fun p => p == "images/left_1.bmp".toList, "0.100".toList, fun p => some p⟩

/-- The state of the mono driver after the Detection Loop on the example
inputs. -/
def exMonoFrontState : MonoState :=
  ⟨[modelInfo .MEI, .directory_iterator "images".toList,
      addingLine "images/image_2.bmp".toList, addingLine "images/image_1.bmp".toList,
      .stderr "# INFO: # images: 2".toList,
      .stderr "# INFO: Detected chessboard in image 1".toList,
      .addChessboardData "images/image_2.bmp".toList none,
      .stderr "# INFO: Detected chessboard in image 2".toList,
      .addChessboardData "images/image_1.bmp".toList none],
    ["images/image_2.bmp".toList, "images/image_1.bmp".toList], [true, true], [], []⟩

/-- Regular files with the given names. -/
def regularFiles (names : List String) : List DirEntry :=
  names.map fun n => ⟨n.toList, true⟩

/-- A left and a right image whose tails differ. -/
def exMismatchWorld : World :=
  ⟨.directory (regularFiles ["left_1.bmp", "right_2.bmp"]),
    fun _ => true, "0.100".toList, fun p => some p⟩

/-- The stereo request with the default options, not verbose. -/
def exQuietStereoRequest : StereoRequest :=
  ⟨9, 6, "images".toList, ".".toList, "left".toList, "right".toList, ".bmp".toList,
    "mei".toList, "camera_left".toList, "camera_right".toList, false, false, false⟩

/-- A world without the input directory. -/
def exMissingWorld : World :=
  ⟨.missing, fun _ => true, "0.100".toList, fun p => some p⟩

/-- The mono request with the default options and the model `fisheye`. -/
def exFisheyeRequest : Request :=
  ⟨9, 6, "images".toList, "image".toList, ".bmp".toList, "fisheye".toList, "camera".toList,
    false, false, false⟩

/-- The stereo request with the default options and the model `fisheye`. -/
def exFisheyeStereoRequest : StereoRequest :=
  ⟨9, 6, "images".toList, ".".toList, "left".toList, "right".toList, ".bmp".toList,
    "fisheye".toList, "camera_left".toList, "camera_right".toList, false, false, false⟩

/-- Ten mono images, on all of which the board is detected. -/
def exTenWorld : World :=
  ⟨.directory (regularFiles
      ["image_01.bmp", "image_02.bmp", "image_03.bmp", "image_04.bmp", "image_05.bmp",
       "image_06.bmp", "image_07.bmp", "image_08.bmp", "image_09.bmp", "image_10.bmp"]),
    fun _ => true, "0.100".toList, fun p => some p⟩

/-- Ten mono images, on nine of which the board is detected. -/
def exNineWorld : World :=
  ⟨.directory (regularFiles
      ["image_01.bmp", "image_02.bmp", "image_03.bmp", "image_04.bmp", "image_05.bmp",
       "image_06.bmp", "image_07.bmp", "image_08.bmp", "image_09.bmp", "image_10.bmp"]),
    fun p => p != "images/image_10.bmp".toList, "0.100".toList, fun p => some p⟩

/-- The mono request with the default options and `view-results`. -/
def exReviewRequest : Request :=
  ⟨9, 6, "images".toList, "image".toList, ".bmp".toList, "mei".toList, "camera".toList,
    false, true, false⟩

/-- The tails of the matching entries: names without the prefix. -/
def tailsOf (pre ext : Str) (entries : List DirEntry) : List Str :=
  (matchingEntries pre ext entries).map fun e => e.name.drop pre.length

/-! ## Facts on strings -/

theorem strCompare_self (a : Str) : strCompare a a = 0 := by
  induction a with
  | nil => rfl
  | cons x xs ih => simp [strCompare, ih]

theorem strCompare_eq_zero_iff (a b : Str) : strCompare a b = 0 ↔ a = b := by
  constructor
  · intro h
    induction a generalizing b with
    | nil =>
      cases b with
      | nil => rfl
      | cons y ys => simp [strCompare] at h
    | cons x xs ih =>
      cases b with
      | nil => simp [strCompare] at h
      | cons y ys =>
        simp only [strCompare] at h
        split_ifs at h with h1 h2
        · exact absurd h (by decide)
        · have hxy : x = y := le_antisymm (not_lt.mp h2) (not_lt.mp h1)
          rw [hxy, ih ys h]
  · rintro rfl
    exact strCompare_self a

theorem strCompare_append_left (p a b : Str) :
    strCompare (p ++ a) (p ++ b) = strCompare a b := by
  induction p with
  | nil => rfl
  | cons x xs ih => simp [strCompare, ih]

theorem strLe_nil (b : Str) : strLe [] b := by
  cases b <;> simp [strLe, strCompare]

theorem not_strLe_cons_nil (x : Char) (xs : Str) : ¬ strLe (x :: xs) [] := by
  simp [strLe, strCompare]

theorem strLe_cons_cons (x y : Char) (xs ys : Str) :
    strLe (x :: xs) (y :: ys) ↔ x < y ∨ (x = y ∧ strLe xs ys) := by
  unfold strLe
  simp only [strCompare]
  split_ifs with h1 h2
  · simp [h1]
  · have : x ≠ y := fun h => h1 (h ▸ h2)
    simp [h1, this]
  · have hxy : x = y := le_antisymm (not_lt.mp h2) (not_lt.mp h1)
    simp [hxy]

theorem strLe_total (a b : Str) : strLe a b ∨ strLe b a := by
  induction a generalizing b with
  | nil => exact Or.inl (strLe_nil b)
  | cons x xs ih =>
    cases b with
    | nil => exact Or.inr (strLe_nil _)
    | cons y ys =>
      rw [strLe_cons_cons, strLe_cons_cons]
      rcases lt_trichotomy x y with h | h | h
      · exact Or.inl (Or.inl h)
      · subst h
        rcases ih ys with h | h
        · exact Or.inl (Or.inr ⟨rfl, h⟩)
        · exact Or.inr (Or.inr ⟨rfl, h⟩)
      · exact Or.inr (Or.inl h)

theorem strLe_trans (a b c : Str) : strLe a b → strLe b c → strLe a c := by
  induction a generalizing b c with
  | nil => intro _ _; exact strLe_nil c
  | cons x xs ih =>
    cases b with
    | nil => intro h; exact absurd h (not_strLe_cons_nil x xs)
    | cons y ys =>
      cases c with
      | nil => intro _ h; exact absurd h (not_strLe_cons_nil y ys)
      | cons z zs =>
        rw [strLe_cons_cons, strLe_cons_cons, strLe_cons_cons]
        rintro (h1 | ⟨rfl, h1⟩) (h2 | ⟨rfl, h2⟩)
        · exact Or.inl (lt_trans h1 h2)
        · exact Or.inl h1
        · exact Or.inl h2
        · exact Or.inr ⟨rfl, ih ys zs h1 h2⟩

theorem strLe_antisymm (a b : Str) : strLe a b → strLe b a → a = b := by
  induction a generalizing b with
  | nil =>
    cases b with
    | nil => intro _ _; rfl
    | cons y ys => intro _ h; exact absurd h (not_strLe_cons_nil y ys)
  | cons x xs ih =>
    cases b with
    | nil => intro h; exact absurd h (not_strLe_cons_nil x xs)
    | cons y ys =>
      rw [strLe_cons_cons, strLe_cons_cons]
      rintro (h1 | ⟨rfl, h1⟩) (h2 | ⟨h2, h3⟩)
      · exact absurd h2 (lt_asymm h1)
      · subst h2; exact absurd h1 (lt_irrefl _)
      · exact absurd h2 (lt_irrefl _)
      · rw [ih ys h1 h3]

theorem strLe_append_left (p a b : Str) : strLe (p ++ a) (p ++ b) ↔ strLe a b := by
  unfold strLe
  rw [strCompare_append_left]

instance strLe.isTotal : IsTotal Str strLe := ⟨strLe_total⟩

instance strLe.isTrans : IsTrans Str strLe := ⟨strLe_trans⟩

instance strLe.isAntisymm : IsAntisymm Str strLe := ⟨strLe_antisymm⟩

theorem stdSort_perm (v : List Str) : (stdSort v).Perm v :=
  List.perm_insertionSort strLe v

theorem stdSort_sorted (v : List Str) : (stdSort v).Sorted strLe :=
  List.sorted_insertionSort strLe v

theorem stdSort_length (v : List Str) : (stdSort v).length = v.length :=
  (stdSort_perm v).length_eq

theorem stdSort_eq_of_perm {u v : List Str} (h : u.Perm v) : stdSort u = stdSort v :=
  List.eq_of_perm_of_sorted ((stdSort_perm u).trans (h.trans (stdSort_perm v).symm))
    (stdSort_sorted u) (stdSort_sorted v)

theorem sorted_map_append (p : Str) (v : List Str) :
    (v.map (fun a => p ++ a)).Sorted strLe ↔ v.Sorted strLe := by
  unfold List.Sorted
  rw [List.pairwise_map]
  simp only [strLe_append_left]

/-- Sorting strings that share a leading part sorts what follows it. -/
theorem stdSort_map_append (p : Str) (v : List Str) :
    stdSort (v.map (fun a => p ++ a)) = (stdSort v).map (fun a => p ++ a) := by
  apply List.eq_of_perm_of_sorted (r := strLe)
  · exact (stdSort_perm _).trans ((stdSort_perm v).map _).symm
  · exact stdSort_sorted _
  · exact (sorted_map_append p _).mpr (stdSort_sorted v)

/-! ## Facts on the string tests -/

theorem sizeSub_of_le {a b : Nat} (h : b ≤ a) : sizeSub a b = a - b := by
  simp [sizeSub, h]

/-- Within the range of `size_t` the difference is the one modulo `2 ^ 64`. -/
theorem sizeSub_eq_mod {a b : Nat} (ha : a < 2 ^ 64) (hb : b < 2 ^ 64) :
    sizeSub a b = (a + 2 ^ 64 - b) % 2 ^ 64 := by
  unfold sizeSub
  split_ifs with h
  · have : a + 2 ^ 64 - b = (a - b) + 2 ^ 64 := by omega
    rw [this, Nat.add_mod_right, Nat.mod_eq_of_lt (by omega)]
  · rfl

/-- The prefix test at offset 0 never throws and is zero exactly on a prefix. -/
theorem compare3_prefix (filename pre : Str) :
    ∃ c, compare3 filename 0 pre.length pre = some c ∧ (c = 0 ↔ pre <+: filename) := by
  refine ⟨strCompare (filename.take pre.length) pre, ?_, ?_⟩
  · simp [compare3]
  · rw [strCompare_eq_zero_iff, List.prefix_iff_eq_take]
    exact eq_comm

/-- When the extension test returns, it is zero exactly on a suffix. -/
theorem extensionCompare_some {filename ext : Str} {c : Int}
    (h : extensionCompare filename ext = some c) : c = 0 ↔ ext <:+ filename := by
  unfold extensionCompare compare3 at h
  split_ifs at h with hpos
  simp only [Option.some.injEq] at h
  subst h
  rw [strCompare_eq_zero_iff]
  by_cases hle : ext.length ≤ filename.length
  · rw [sizeSub_of_le hle, List.suffix_iff_eq_drop]
    have hlen : (filename.drop (filename.length - ext.length)).length = ext.length := by
      rw [List.length_drop]; omega
    rw [List.take_of_length_le (le_of_eq hlen)]
    exact eq_comm
  · constructor
    · intro h
      have h1 := congrArg List.length h
      rw [List.length_take, List.length_drop] at h1
      omega
    · intro h
      exact absurd h.length_le hle

/-- Under the extension precondition the extension test does not throw. -/
theorem extensionCompare_of_le {filename ext : Str} (hle : ext.length ≤ filename.length) :
    ∃ c, extensionCompare filename ext = some c := by
  unfold extensionCompare compare3
  rw [sizeSub_of_le hle, if_neg (by omega)]
  exact ⟨_, rfl⟩

/-- A name shorter than the extension makes the extension test throw. -/
theorem extensionCompare_short {filename ext : Str} (h1 : filename.length < ext.length)
    (h2 : ext.length < 2 ^ 64) : extensionCompare filename ext = none := by
  have hs : sizeSub filename.length ext.length = filename.length + 2 ^ 64 - ext.length := by
    unfold sizeSub
    rw [if_neg (by omega), Nat.mod_eq_of_lt (by omega)]
  unfold extensionCompare compare3
  rw [hs, if_pos (by omega)]

theorem prefixTest_eq (pre filename : Str) :
    prefixTest pre filename = some (decide (pre <+: filename)) := by
  unfold prefixTest
  cases pre with
  | nil => simp
  | cons x xs =>
    obtain ⟨c, hc, hiff⟩ := compare3_prefix filename (x :: xs)
    rw [hc]
    simp only [List.isEmpty_cons, Bool.not_false, Bool.true_and, Bool.false_eq_true, if_false]
    congr 1
    by_cases h : c = 0
    · simp [h, hiff.mp h]
    · have : ¬ (x :: xs) <+: filename := fun hp => h (hiff.mpr hp)
      simp [h, this]

/-- The tail comparison of the Pair Matcher on names that carry their prefix:
it does not throw and is zero exactly when the tails are equal. -/
theorem compare5_tails {fL fR pL pR : Str} (hL : pL.length ≤ fL.length)
    (hR : pR.length ≤ fR.length) :
    ∃ c, compare5 fL pL.length (sizeSub fL.length pL.length) fR pR.length
        (sizeSub fR.length pR.length) = some c ∧
      (c = 0 ↔ fL.drop pL.length = fR.drop pR.length) := by
  refine ⟨strCompare (fL.drop pL.length) (fR.drop pR.length), ?_, strCompare_eq_zero_iff _ _⟩
  unfold compare5
  rw [if_neg (by omega), sizeSub_of_le hL, sizeSub_of_le hR,
    List.take_of_length_le (by rw [List.length_drop]),
    List.take_of_length_le (by rw [List.length_drop])]

/-! ## Facts on paths -/

theorem pathAppend_eq (dir name : Str) : pathAppend dir name = dirPart dir ++ name := by
  unfold pathAppend dirPart
  split_ifs <;> simp

theorem dirPart_getLast (dir : Str) : dirPart dir = [] ∨ (dirPart dir).getLast? = some '/' := by
  unfold dirPart
  split_ifs with h
  · exact h
  · right; simp

theorem pathFilename_append {d name : Str} (hd : d = [] ∨ d.getLast? = some '/')
    (hname : '/' ∉ name) : pathFilename (d ++ name) = name := by
  unfold pathFilename
  rw [List.reverse_append]
  have hall : ∀ c ∈ name.reverse, (c != '/') = true := by
    intro c hc
    have : c ≠ '/' := fun h => hname (h ▸ List.mem_reverse.mp hc)
    simpa using this
  rcases hd with rfl | hd
  · simp only [List.reverse_nil, List.append_nil]
    rw [List.takeWhile_eq_self_iff.mpr hall, List.reverse_reverse]
  · obtain ⟨d', rfl⟩ : ∃ d', d = d' ++ ['/'] := by
      rcases List.eq_nil_or_concat d with rfl | ⟨d', c, rfl⟩
      · simp at hd
      · simp at hd
        exact ⟨d', by rw [hd, List.concat_eq_append]⟩
    rw [List.reverse_append, List.reverse_singleton, List.singleton_append,
      List.takeWhile_append_of_pos hall]
    simp

/-- The file name of a directory entry is recovered from its path. -/
theorem pathFilename_pathAppend (dir : Str) {name : Str} (hname : '/' ∉ name) :
    pathFilename (pathAppend dir name) = name := by
  rw [pathAppend_eq]
  exact pathFilename_append (dirPart_getLast dir) hname

/-! ## Facts on loops -/

/-- Invariant rule for `forEach`: `P` holds of the state after every normal
exit, `Q` of every abnormal one. -/
theorem forEach_rule {α σ ε : Type} (body : α → σ → Except ε σ) (P : σ → Prop)
    (Q : ε → Prop) (l : List α)
    (hok : ∀ a ∈ l, ∀ s s1, P s → body a s = .ok s1 → P s1)
    (herr : ∀ a ∈ l, ∀ s e, P s → body a s = .error e → Q e) :
    ∀ s, P s → (∀ s1, forEach body l s = .ok s1 → P s1) ∧
      (∀ e, forEach body l s = .error e → Q e) := by
  induction l with
  | nil =>
    intro s hs
    refine ⟨fun s1 h => ?_, fun e h => ?_⟩
    · simp only [forEach, Except.ok.injEq] at h
      exact h ▸ hs
    · simp [forEach] at h
  | cons a as ih =>
    intro s hs
    have iha := ih (fun b hb => hok b (List.mem_cons_of_mem a hb))
      (fun b hb => herr b (List.mem_cons_of_mem a hb))
    cases hb : body a s with
    | error e =>
      refine ⟨fun s1 h => ?_, fun e1 h => ?_⟩
      · simp [forEach, hb] at h
      · simp only [forEach, hb, Except.error.injEq] at h
        exact h ▸ herr a (List.mem_cons_self a as) s e hs hb
    | ok s2 =>
      have h2 := iha s2 (hok a (List.mem_cons_self a as) s s2 hs hb)
      simpa [forEach, hb] using h2

/-- When every body run is a normal step `f`, the loop is the fold of `f`. -/
theorem forEach_eq_foldl {α σ ε : Type} (body : α → σ → Except ε σ) (f : σ → α → σ)
    (l : List α) (h : ∀ a ∈ l, ∀ s, body a s = .ok (f s a)) :
    ∀ s, forEach body l s = (.ok (l.foldl f s) : Except ε σ) := by
  induction l with
  | nil => intro s; rfl
  | cons a as ih =>
    intro s
    simp only [forEach, h a (List.mem_cons_self a as) s, List.foldl_cons]
    exact ih (fun b hb => h b (List.mem_cons_of_mem a hb)) (f s a)

/-- When every body run that returns is a normal step `f`, a loop that returns
is the fold of `f`. -/
theorem forEach_ok_foldl {α σ ε : Type} (body : α → σ → Except ε σ) (f : σ → α → σ)
    (l : List α) (h : ∀ a ∈ l, ∀ s s1, body a s = .ok s1 → s1 = f s a) :
    ∀ s s1, forEach body l s = (.ok s1 : Except ε σ) → s1 = l.foldl f s := by
  induction l with
  | nil =>
    intro s s1 hs
    simp only [forEach, Except.ok.injEq] at hs
    exact hs ▸ rfl
  | cons a as ih =>
    intro s s1 hs
    cases hb : body a s with
    | error e => simp [forEach, hb] at hs
    | ok s2 =>
      simp only [forEach, hb] at hs
      rw [List.foldl_cons, ← h a (List.mem_cons_self a as) s s2 hb]
      exact ih (fun b hb => h b (List.mem_cons_of_mem a hb)) s2 s1 hs

/-- Invariant rule for `forLoop`: `P i` holds of the state before iteration
`i`, `Q` of every abnormal exit. -/
theorem forLoop_rule {σ ε : Type} (body : Nat → σ → Except ε σ) (P : Nat → σ → Prop)
    (Q : ε → Prop) :
    ∀ (n i : Nat) (s : σ),
      (∀ j s s1, i ≤ j → j < i + n → P j s → body j s = .ok s1 → P (j + 1) s1) →
      (∀ j s e, i ≤ j → j < i + n → P j s → body j s = .error e → Q e) →
      P i s →
      (∀ s1, forLoop body n i s = .ok s1 → P (i + n) s1) ∧
        (∀ e, forLoop body n i s = .error e → Q e) := by
  intro n
  induction n with
  | zero =>
    intro i s _ _ hs
    refine ⟨fun s1 h => ?_, fun e h => ?_⟩
    · simp only [forLoop, Except.ok.injEq] at h
      exact h ▸ hs
    · simp [forLoop] at h
  | succ n ih =>
    intro i s hok herr hs
    cases hb : body i s with
    | error e =>
      refine ⟨fun s1 h => ?_, fun e1 h => ?_⟩
      · simp [forLoop, hb] at h
      · simp only [forLoop, hb, Except.error.injEq] at h
        exact h ▸ herr i s e (le_refl i) (by omega) hs hb
    | ok s2 =>
      have h2 := ih (i + 1) s2
        (fun j t t1 h1 h2 => hok j t t1 (by omega) (by omega))
        (fun j t e h1 h2 => herr j t e (by omega) (by omega))
        (hok i s s2 (le_refl i) (by omega) hs hb)
      have hidx : i + 1 + n = i + (n + 1) := by omega
      rw [hidx] at h2
      simpa [forLoop, hb] using h2

/-- A loop whose body cannot leave abnormally under the invariant returns. -/
theorem forLoop_returns {σ ε : Type} (body : Nat → σ → Except ε σ) (P : Nat → σ → Prop)
    (n : Nat) (s : σ)
    (hok : ∀ j s s1, j < n → P j s → body j s = .ok s1 → P (j + 1) s1)
    (herr : ∀ j s e, j < n → P j s → body j s ≠ .error e)
    (hs : P 0 s) : ∃ s1, forLoop body n 0 s = .ok s1 ∧ P n s1 := by
  have h := forLoop_rule body P (fun _ => False) n 0 s
    (fun j t t1 _ h2 => hok j t t1 (by omega))
    (fun j t e _ h2 hp hb => herr j t e (by omega) hp hb) hs
  cases hr : forLoop body n 0 s with
  | error e => exact (h.2 e hr).elim
  | ok s1 => exact ⟨s1, rfl, by simpa using h.1 s1 hr⟩

/-! ## Facts on traces -/

theorem samplesOf_append (a b : List Event) : samplesOf (a ++ b) = samplesOf a ++ samplesOf b := by
  induction a with
  | nil => rfl
  | cons e t ih => cases e <;> simp [samplesOf, ih]

theorem reviewsOf_append (a b : List Event) : reviewsOf (a ++ b) = reviewsOf a ++ reviewsOf b := by
  induction a with
  | nil => rfl
  | cons e t ih => cases e <;> simp [reviewsOf, ih]

theorem sampleCount_eq (t : List Event) : sampleCount t = (samplesOf t).length := by
  induction t with
  | nil => rfl
  | cons e t ih =>
    unfold sampleCount at ih ⊢
    cases e <;> simp [samplesOf, List.filter_cons, ih]

theorem sampleCount_append (a b : List Event) :
    sampleCount (a ++ b) = sampleCount a + sampleCount b := by
  simp [sampleCount]

theorem isEarly_of_isDiag {e : Event} (h : isDiag e = true) : isEarly e = true := by
  cases e <;> simp_all [isDiag, isEarly]

theorem samplesOf_of_diag {t : List Event} (h : ∀ e ∈ t, isDiag e = true) : samplesOf t = [] := by
  induction t with
  | nil => rfl
  | cons e t ih =>
    have he := h e (List.mem_cons_self e t)
    have ht := ih (fun x hx => h x (List.mem_cons_of_mem e hx))
    cases e <;> simp_all [samplesOf, isDiag]

theorem reviewsOf_of_early {t : List Event} (h : ∀ e ∈ t, isEarly e = true) :
    reviewsOf t = [] := by
  induction t with
  | nil => rfl
  | cons e t ih =>
    have he := h e (List.mem_cons_self e t)
    have ht := ih (fun x hx => h x (List.mem_cons_of_mem e hx))
    cases e <;> simp_all [reviewsOf, isEarly]

theorem mem_whenVerbose {v : Bool} {e x : Event} (h : x ∈ whenVerbose v e) : x = e := by
  unfold whenVerbose at h
  split_ifs at h <;> simp_all

theorem samplesOf_whenVerbose_stderr (v : Bool) (text : Str) :
    samplesOf (whenVerbose v (.stderr text)) = [] := by
  cases v <;> rfl

theorem diag_append_whenVerbose_stderr {t : List Event} (v : Bool) (text : Str)
    (h : ∀ e ∈ t, isDiag e = true) :
    ∀ e ∈ t ++ whenVerbose v (.stderr text), isDiag e = true := by
  intro e he
  rcases List.mem_append.mp he with h1 | h1
  · exact h e h1
  · rw [mem_whenVerbose h1]; rfl

theorem early_append_whenVerbose_stderr {t : List Event} (v : Bool) (text : Str)
    (h : ∀ e ∈ t, isEarly e = true) :
    ∀ e ∈ t ++ whenVerbose v (.stderr text), isEarly e = true := by
  intro e he
  rcases List.mem_append.mp he with h1 | h1
  · exact h e h1
  · rw [mem_whenVerbose h1]; rfl

/-! ## The Image Set Resolver -/

theorem isAddingLine_addingLine (path : Str) : isAddingLine (addingLine path) = true := by
  simp [isAddingLine, addingLine, List.isPrefixOf]

theorem addingLines_length (paths : List Str) : (addingLines true paths).length = paths.length := by
  simp [addingLines]

theorem addingLines_append (v : Bool) (a b : List Str) :
    addingLines v (a ++ b) = addingLines v a ++ addingLines v b := by
  cases v <;> simp [addingLines]

theorem addingLines_singleton (v : Bool) (p : Str) :
    addingLines v [p] = whenVerbose v (addingLine p) := by
  cases v <;> rfl

theorem addingLines_diag (v : Bool) (paths : List Str) :
    ∀ e ∈ addingLines v paths, isDiag e = true := by
  intro e he
  cases v
  · simp [addingLines] at he
  · simp only [addingLines, if_true, List.mem_map] at he
    obtain ⟨p, _, rfl⟩ := he
    rfl

theorem monoExtensionStep_cases (r : Request) (e : DirEntry) (s : MonoState) :
    (extensionCompare e.name r.fileExtension = none ∧
      monoExtensionStep r e s = .error ⟨.uncaught .out_of_range, s.trace⟩) ∨
    ((∃ c, extensionCompare e.name r.fileExtension = some c) ∧
      monoExtensionStep r e s = .ok
        (if r.fileExtension <:+ e.name then
          { s with
            imageFilenames := s.imageFilenames ++ [pathAppend r.inputDir e.name]
            trace := s.trace ++
              whenVerbose r.verbose (addingLine (pathAppend r.inputDir e.name)) }
        else s)) := by
  unfold monoExtensionStep
  cases hc : extensionCompare e.name r.fileExtension with
  | none => exact Or.inl ⟨rfl, rfl⟩
  | some c =>
    refine Or.inr ⟨⟨c, rfl⟩, ?_⟩
    have hiff := extensionCompare_some hc
    by_cases h0 : c = 0
    · simp [h0, hiff.mp h0, addingLine]
    · have : ¬ r.fileExtension <:+ e.name := fun h => h0 (hiff.mpr h)
      simp [h0, this]

/-- The mono scan body either throws `std::out_of_range` from the extension test
of a regular file that passed the prefix test, or performs `monoStep`. -/
theorem monoScanBody_cases (r : Request) (e : DirEntry) (s : MonoState) :
    (e.isRegularFile = true ∧ r.prefixM <+: e.name ∧
      extensionCompare e.name r.fileExtension = none ∧
      monoScanBody r e s = .error ⟨.uncaught .out_of_range, s.trace⟩) ∨
    monoScanBody r e s = .ok (monoStep r s e) := by
  unfold monoScanBody monoStep
  cases hreg : e.isRegularFile with
  | false => right; simp
  | true =>
    have hpre : ∀ (hp : r.prefixM <+: e.name),
        (True ∧ r.prefixM <+: e.name ∧
          extensionCompare e.name r.fileExtension = none ∧
          monoExtensionStep r e s = .error ⟨.uncaught .out_of_range, s.trace⟩) ∨
        monoExtensionStep r e s = .ok
          (if (true && decide (r.prefixM <+: e.name) &&
              decide (r.fileExtension <:+ e.name)) = true then
            { s with
              imageFilenames := s.imageFilenames ++ [pathAppend r.inputDir e.name]
              trace := s.trace ++
                whenVerbose r.verbose (addingLine (pathAppend r.inputDir e.name)) }
          else s) := by
      intro hp
      rcases monoExtensionStep_cases r e s with ⟨h1, h2⟩ | ⟨_, h2⟩
      · exact Or.inl ⟨trivial, hp, h1, h2⟩
      · right
        rw [h2]
        by_cases hs : r.fileExtension <:+ e.name <;> simp [hp, hs]
    by_cases hemp : r.prefixM.isEmpty = true
    · have hnil : r.prefixM = [] := List.isEmpty_iff.mp hemp
      have hp : r.prefixM <+: e.name := by rw [hnil]; exact List.nil_prefix
      simp only [Bool.not_true, Bool.false_eq_true, if_false, hemp]
      exact hpre hp
    · simp only [Bool.not_true, Bool.false_eq_true, if_false, hemp, Bool.not_false, if_true]
      obtain ⟨c, hc, hiff⟩ := compare3_prefix e.name r.prefixM
      rw [hc]
      by_cases h0 : c = 0
      · simp only [h0, ne_eq, not_true_eq_false, if_false]
        exact hpre (hiff.mp h0)
      · have : ¬ r.prefixM <+: e.name := fun h => h0 (hiff.mpr h)
        right
        simp [h0, this]

theorem monoStep_foldl (r : Request) (entries : List DirEntry) :
    ∀ s : MonoState, entries.foldl (monoStep r) s =
      { s with
        imageFilenames := s.imageFilenames ++
          matchingPaths r.inputDir r.prefixM r.fileExtension entries
        trace := s.trace ++
          addingLines r.verbose (matchingPaths r.inputDir r.prefixM r.fileExtension entries) } := by
  induction entries with
  | nil => intro s; simp [matchingPaths, matchingEntries, addingLines]
  | cons e es ih =>
    intro s
    rw [List.foldl_cons, ih]
    unfold monoStep
    by_cases h : (e.isRegularFile && decide (r.prefixM <+: e.name) &&
        decide (r.fileExtension <:+ e.name)) = true
    · simp only [h, if_true, matchingPaths, matchingEntries, List.filter_cons, List.map_cons]
      rw [← List.singleton_append (l := List.map _ _), addingLines_append, addingLines_singleton]
      simp
    · simp only [h, if_false, matchingPaths, matchingEntries, List.filter_cons]
      simp

/-- A mono scan that returns has collected exactly the matching paths. -/
theorem monoScan_ok (r : Request) (entries : List DirEntry) (s s1 : MonoState)
    (h : forEach (monoScanBody r) entries s = .ok s1) :
    s1 = { s with
      imageFilenames := s.imageFilenames ++
        matchingPaths r.inputDir r.prefixM r.fileExtension entries
      trace := s.trace ++
        addingLines r.verbose (matchingPaths r.inputDir r.prefixM r.fileExtension entries) } := by
  rw [← monoStep_foldl]
  refine forEach_ok_foldl (monoScanBody r) (monoStep r) entries ?_ s s1 h
  intro e _ t t1 ht
  rcases monoScanBody_cases r e t with ⟨_, _, _, h2⟩ | h2
  · rw [h2] at ht; simp at ht
  · rw [h2] at ht
    simp only [Except.ok.injEq] at ht
    exact ht.symm

/-- Under the extension precondition the mono scan returns. -/
theorem monoScan_returns (r : Request) (entries : List DirEntry) (s : MonoState)
    (hext : ∀ e ∈ entries, e.isRegularFile = true → r.fileExtension.length ≤ e.name.length) :
    forEach (monoScanBody r) entries s = .ok (entries.foldl (monoStep r) s) := by
  refine forEach_eq_foldl (monoScanBody r) (monoStep r) entries ?_ s
  intro e he t
  rcases monoScanBody_cases r e t with ⟨hreg, _, hnone, _⟩ | h2
  · obtain ⟨c, hc⟩ := extensionCompare_of_le (hext e he hreg)
    rw [hc] at hnone
    simp at hnone
  · exact h2

theorem matchingPaths_cons (dir pre ext : Str) (e : DirEntry) (es : List DirEntry) :
    matchingPaths dir pre ext (e :: es) =
      matchingPaths dir pre ext [e] ++ matchingPaths dir pre ext es := by
  unfold matchingPaths matchingEntries
  rw [← List.map_append, ← List.filter_append]
  rfl

theorem matchingPaths_single (dir pre ext : Str) (e : DirEntry) :
    matchingPaths dir pre ext [e] =
      if e.isRegularFile = true ∧ pre <+: e.name ∧ ext <:+ e.name then [pathAppend dir e.name]
      else [] := by
  unfold matchingPaths matchingEntries
  by_cases h : e.isRegularFile = true ∧ pre <+: e.name ∧ ext <:+ e.name
  · rw [if_pos h]
    obtain ⟨h1, h2, h3⟩ := h
    simp [List.filter_cons, h1, h2, h3]
  · rw [if_neg h]
    have : (e.isRegularFile && decide (pre <+: e.name) && decide (ext <:+ e.name)) = false := by
      rw [Bool.eq_false_iff]
      intro hc
      simp only [Bool.and_eq_true, decide_eq_true_eq] at hc
      exact h ⟨hc.1.1, hc.1.2, hc.2⟩
    simp [List.filter_cons, this]

/-- The stereo scan body either throws `std::out_of_range` from the extension
test of a regular file, or performs `stereoStep`. -/
theorem stereoScanBody_cases (r : StereoRequest) (e : DirEntry) (s : StereoState) :
    (e.isRegularFile = true ∧ extensionCompare e.name r.fileExtension = none ∧
      stereoScanBody r e s = .error ⟨.uncaught .out_of_range, s.trace⟩) ∨
    stereoScanBody r e s = .ok (stereoStep r s e) := by
  unfold stereoScanBody stereoStep stereoAddingLines
  simp only [List.flatMap_cons, List.flatMap_nil, List.append_nil, matchingPaths_single]
  cases hreg : e.isRegularFile with
  | false => right; simp [addingLines]
  | true =>
    cases hc : extensionCompare e.name r.fileExtension with
    | none => exact Or.inl ⟨rfl, rfl, by simp⟩
    | some c =>
      right
      have hiff := extensionCompare_some hc
      by_cases h0 : c = 0
      · have hs := hiff.mp h0
        simp only [Bool.not_true, Bool.false_eq_true, if_false, h0, ne_eq, not_true_eq_false,
          prefixTest_eq, hs, and_true, true_and]
        by_cases hL : r.prefixL <+: e.name <;> by_cases hR : r.prefixR <+: e.name <;>
          simp [hL, hR, pushLeft, pushRight, addingLines, addingLine, whenVerbose]
      · have : ¬ r.fileExtension <:+ e.name := fun h => h0 (hiff.mpr h)
        simp [h0, this, addingLines]

theorem stereoStep_foldl (r : StereoRequest) (entries : List DirEntry) :
    ∀ s : StereoState, entries.foldl (stereoStep r) s =
      { s with
        imageFilenamesL := s.imageFilenamesL ++
          matchingPaths r.inputDir r.prefixL r.fileExtension entries
        imageFilenamesR := s.imageFilenamesR ++
          matchingPaths r.inputDir r.prefixR r.fileExtension entries
        trace := s.trace ++ stereoAddingLines r entries } := by
  induction entries with
  | nil => intro s; simp [matchingPaths, matchingEntries, stereoAddingLines]
  | cons e es ih =>
    intro s
    rw [List.foldl_cons, ih, matchingPaths_cons r.inputDir r.prefixL,
      matchingPaths_cons r.inputDir r.prefixR]
    simp [stereoStep, stereoAddingLines]

/-- A stereo scan that returns has collected exactly the matching paths. -/
theorem stereoScan_ok (r : StereoRequest) (entries : List DirEntry) (s s1 : StereoState)
    (h : forEach (stereoScanBody r) entries s = .ok s1) :
    s1 = { s with
      imageFilenamesL := s.imageFilenamesL ++
        matchingPaths r.inputDir r.prefixL r.fileExtension entries
      imageFilenamesR := s.imageFilenamesR ++
        matchingPaths r.inputDir r.prefixR r.fileExtension entries
      trace := s.trace ++ stereoAddingLines r entries } := by
  rw [← stereoStep_foldl]
  refine forEach_ok_foldl (stereoScanBody r) (stereoStep r) entries ?_ s s1 h
  intro e _ t t1 ht
  rcases stereoScanBody_cases r e t with ⟨_, _, h2⟩ | h2
  · rw [h2] at ht; simp at ht
  · rw [h2] at ht
    simp only [Except.ok.injEq] at ht
    exact ht.symm

/-- Under the extension precondition the stereo scan returns. -/
theorem stereoScan_returns (r : StereoRequest) (entries : List DirEntry) (s : StereoState)
    (hext : ∀ e ∈ entries, e.isRegularFile = true → r.fileExtension.length ≤ e.name.length) :
    forEach (stereoScanBody r) entries s = .ok (entries.foldl (stereoStep r) s) := by
  refine forEach_eq_foldl (stereoScanBody r) (stereoStep r) entries ?_ s
  intro e he t
  rcases stereoScanBody_cases r e t with ⟨hreg, hnone, _⟩ | h2
  · obtain ⟨c, hc⟩ := extensionCompare_of_le (hext e he hreg)
    rw [hc] at hnone
    simp at hnone
  · exact h2

theorem stereoAddingLines_length (r : StereoRequest) (entries : List DirEntry) :
    (stereoAddingLines r entries).length =
      if r.verbose then
        (matchingPaths r.inputDir r.prefixL r.fileExtension entries).length +
          (matchingPaths r.inputDir r.prefixR r.fileExtension entries).length
      else 0 := by
  induction entries with
  | nil => simp [stereoAddingLines, matchingPaths, matchingEntries]
  | cons e es ih =>
    have hc : stereoAddingLines r (e :: es) =
        stereoAddingLines r [e] ++ stereoAddingLines r es := by
      simp [stereoAddingLines]
    rw [hc, List.length_append, ih, matchingPaths_cons r.inputDir r.prefixL,
      matchingPaths_cons r.inputDir r.prefixR]
    cases hv : r.verbose
    · simp [stereoAddingLines, addingLines, hv]
    · simp only [stereoAddingLines, addingLines, hv, if_true, List.flatMap_cons,
        List.flatMap_nil, List.append_nil, List.length_append, List.length_map]
      omega

theorem stereoAddingLines_adding (r : StereoRequest) (entries : List DirEntry) :
    ∀ e ∈ stereoAddingLines r entries, isAddingLine e = true := by
  intro e he
  simp only [stereoAddingLines, List.mem_flatMap, List.mem_append] at he
  obtain ⟨d, _, h | h⟩ := he <;>
  · cases hv : r.verbose
    · simp [addingLines, hv] at h
    · simp only [addingLines, hv, if_true, List.mem_map] at h
      obtain ⟨p, _, rfl⟩ := h
      exact isAddingLine_addingLine p

theorem isDiag_of_isAddingLine {e : Event} (h : isAddingLine e = true) : isDiag e = true := by
  cases e <;> simp_all [isAddingLine, isDiag]

/-! ## Discovery: lines 71-141 (mono) and 80-154 (stereo) -/

theorem monoDiscovery_missing (w : World) (r : Request) (h : w.input = .missing) :
    monoDiscovery w r = .error ⟨.failure .InputDirectoryNotFound,
      [.stderr ("# ERROR: Cannot find input directory ".toList ++ r.inputDir ++ ".".toList)]⟩ := by
  simp [monoDiscovery, h, DirState.exists, DirState.is_directory]

theorem monoDiscovery_unknown (w : World) (r : Request) (h : w.input ≠ .missing)
    (hm : selectModel r.cameraModel = none) :
    monoDiscovery w r = .error ⟨.failure .UnknownCameraModel,
      [.stderr ("# ERROR: Unknown camera model: ".toList ++ r.cameraModel)]⟩ := by
  unfold monoDiscovery
  cases hi : w.input with
  | missing => exact absurd hi h
  | notDirectory => simp [DirState.exists, hm]
  | directory entries => simp [DirState.exists, hm]

theorem monoDiscovery_notDirectory (w : World) (r : Request) (m : ModelType)
    (h : w.input = .notDirectory) (hm : selectModel r.cameraModel = some m) :
    monoDiscovery w r = .error ⟨.uncaught .filesystem_error, [modelInfo m]⟩ := by
  simp [monoDiscovery, h, DirState.exists, hm]

theorem monoDiscovery_directory (w : World) (r : Request) (m : ModelType)
    (entries : List DirEntry) (h : w.input = .directory entries)
    (hm : selectModel r.cameraModel = some m) :
    monoDiscovery w r = forEach (monoScanBody r) entries
      ⟨[modelInfo m, .directory_iterator r.inputDir], [], [], [], []⟩ := by
  simp [monoDiscovery, h, DirState.exists, hm]

theorem stereoDiscovery_missing (w : World) (r : StereoRequest) (h : w.input = .missing) :
    stereoDiscovery w r = .error ⟨.failure .InputDirectoryNotFound,
      [.stderr ("# ERROR: Cannot find input directory ".toList ++ r.inputDir ++ ".".toList)]⟩ := by
  simp [stereoDiscovery, h, DirState.exists, DirState.is_directory]

theorem stereoDiscovery_unknown (w : World) (r : StereoRequest) (h : w.input ≠ .missing)
    (hm : selectModel r.cameraModel = none) :
    stereoDiscovery w r = .error ⟨.failure .UnknownCameraModel,
      [.stderr ("# ERROR: Unknown camera model: ".toList ++ r.cameraModel)]⟩ := by
  unfold stereoDiscovery
  cases hi : w.input with
  | missing => exact absurd hi h
  | notDirectory => simp [DirState.exists, hm]
  | directory entries => simp [DirState.exists, hm]

theorem stereoDiscovery_notDirectory (w : World) (r : StereoRequest) (m : ModelType)
    (h : w.input = .notDirectory) (hm : selectModel r.cameraModel = some m) :
    stereoDiscovery w r = .error ⟨.uncaught .filesystem_error, [modelInfo m]⟩ := by
  simp [stereoDiscovery, h, DirState.exists, hm]

theorem stereoDiscovery_directory (w : World) (r : StereoRequest) (m : ModelType)
    (entries : List DirEntry) (h : w.input = .directory entries)
    (hm : selectModel r.cameraModel = some m) :
    stereoDiscovery w r = forEach (stereoScanBody r) entries
      ⟨[modelInfo m, .directory_iterator r.inputDir], [], [], true, [], [], [], [], [], []⟩ := by
  simp [stereoDiscovery, h, DirState.exists, hm]

/-- A mono discovery that returns: the directory was scanned and the state
holds the matching paths and nothing else. -/
theorem monoDiscovery_ok {w : World} {r : Request} {s : MonoState}
    (h : monoDiscovery w r = .ok s) :
    ∃ entries m, w.input = .directory entries ∧ selectModel r.cameraModel = some m ∧
      s = ⟨[modelInfo m, .directory_iterator r.inputDir] ++
          addingLines r.verbose (matchingPaths r.inputDir r.prefixM r.fileExtension entries),
        matchingPaths r.inputDir r.prefixM r.fileExtension entries, [], [], []⟩ := by
  cases hi : w.input with
  | missing => rw [monoDiscovery_missing w r hi] at h; simp at h
  | notDirectory =>
    cases hm : selectModel r.cameraModel with
    | none => rw [monoDiscovery_unknown w r (by simp [hi]) hm] at h; simp at h
    | some m => rw [monoDiscovery_notDirectory w r m hi hm] at h; simp at h
  | directory entries =>
    cases hm : selectModel r.cameraModel with
    | none => rw [monoDiscovery_unknown w r (by simp [hi]) hm] at h; simp at h
    | some m =>
      rw [monoDiscovery_directory w r m entries hi hm] at h
      refine ⟨entries, m, rfl, rfl, ?_⟩
      rw [monoScan_ok r entries _ s h]
      simp

/-- A stereo discovery that returns: the directory was scanned and the state
holds the matching paths of each camera and nothing else. -/
theorem stereoDiscovery_ok {w : World} {r : StereoRequest} {s : StereoState}
    (h : stereoDiscovery w r = .ok s) :
    ∃ entries m, w.input = .directory entries ∧ selectModel r.cameraModel = some m ∧
      s = ⟨[modelInfo m, .directory_iterator r.inputDir] ++ stereoAddingLines r entries,
        matchingPaths r.inputDir r.prefixL r.fileExtension entries,
        matchingPaths r.inputDir r.prefixR r.fileExtension entries,
        true, [], [], [], [], [], []⟩ := by
  cases hi : w.input with
  | missing => rw [stereoDiscovery_missing w r hi] at h; simp at h
  | notDirectory =>
    cases hm : selectModel r.cameraModel with
    | none => rw [stereoDiscovery_unknown w r (by simp [hi]) hm] at h; simp at h
    | some m => rw [stereoDiscovery_notDirectory w r m hi hm] at h; simp at h
  | directory entries =>
    cases hm : selectModel r.cameraModel with
    | none => rw [stereoDiscovery_unknown w r (by simp [hi]) hm] at h; simp at h
    | some m =>
      rw [stereoDiscovery_directory w r m entries hi hm] at h
      refine ⟨entries, m, rfl, rfl, ?_⟩
      rw [stereoScan_ok r entries _ s h]
      simp

theorem isAddingLine_modelInfo (m : ModelType) : isAddingLine (modelInfo m) = false := by
  cases m <;> rfl

theorem filter_adding_addingLines (paths : List Str) :
    (addingLines true paths).filter isAddingLine = addingLines true paths := by
  rw [List.filter_eq_self]
  intro e he
  simp only [addingLines, if_true, List.mem_map] at he
  obtain ⟨p, _, rfl⟩ := he
  exact isAddingLine_addingLine p

/-! ## C1 -/

theorem filter_adding_head (m : ModelType) (dir : Str) :
    [modelInfo m, Event.directory_iterator dir].filter isAddingLine = [] := by
  cases m <;> rfl

/-- C1. Image Set Resolver. When every regular file of the listing has a name at
least as long as the extension, the discovery of the mono driver returns with
the candidate list equal to the paths of the regular files whose name starts
with the prefix and ends with the extension, in enumeration order, and the
discovery of the stereo driver returns with that list for each camera's prefix;
in verbose mode the trace holds exactly one `Adding` line per accepted path
(in the stereo driver, per accepted path of either list), so `K` matching files
give `K` paths and `K` lines. -/
theorem C1_resolver_collects_matching (w : World) (entries : List DirEntry) (m : ModelType)
    (ext : Str) (hin : w.input = .directory entries)
    (hext : ∀ e ∈ entries, e.isRegularFile = true → ext.length ≤ e.name.length) :
    (∀ r : Request, r.fileExtension = ext → selectModel r.cameraModel = some m →
      ∃ s, monoDiscovery w r = .ok s ∧
        s.imageFilenames = (matchingEntries r.prefixM ext entries).map
          (fun e => pathAppend r.inputDir e.name) ∧
        s.trace = [modelInfo m, .directory_iterator r.inputDir] ++
          addingLines r.verbose s.imageFilenames ∧
        s.imageFilenames.length = (matchingEntries r.prefixM ext entries).length ∧
        (r.verbose = true → (s.trace.filter isAddingLine).length =
          (matchingEntries r.prefixM ext entries).length)) ∧
    (∀ r : StereoRequest, r.fileExtension = ext → selectModel r.cameraModel = some m →
      ∃ s, stereoDiscovery w r = .ok s ∧
        s.imageFilenamesL = (matchingEntries r.prefixL ext entries).map
          (fun e => pathAppend r.inputDir e.name) ∧
        s.imageFilenamesR = (matchingEntries r.prefixR ext entries).map
          (fun e => pathAppend r.inputDir e.name) ∧
        s.trace = [modelInfo m, .directory_iterator r.inputDir] ++
          entries.flatMap (fun e =>
            addingLines r.verbose (matchingPaths r.inputDir r.prefixL ext [e]) ++
              addingLines r.verbose (matchingPaths r.inputDir r.prefixR ext [e])) ∧
        (r.verbose = true → (s.trace.filter isAddingLine).length =
          (matchingEntries r.prefixL ext entries).length +
            (matchingEntries r.prefixR ext entries).length)) := by
  constructor
  · intro r hr hm
    subst hr
    have hret := monoScan_returns r entries
      ⟨[modelInfo m, .directory_iterator r.inputDir], [], [], [], []⟩ hext
    rw [← monoDiscovery_directory w r m entries hin hm] at hret
    obtain ⟨entries1, m1, hin1, hm1, hs⟩ := monoDiscovery_ok hret
    rw [hin] at hin1
    rw [hm] at hm1
    cases hin1
    cases hm1
    refine ⟨_, hret, ?_⟩
    rw [hs]
    refine ⟨rfl, rfl, by simp [matchingPaths], ?_⟩
    intro hv
    simp only [hv, List.filter_append, filter_adding_addingLines, filter_adding_head]
    simp [addingLines, matchingPaths]
  · intro r hr hm
    subst hr
    have hret := stereoScan_returns r entries
      ⟨[modelInfo m, .directory_iterator r.inputDir], [], [], true, [], [], [], [], [], []⟩ hext
    rw [← stereoDiscovery_directory w r m entries hin hm] at hret
    obtain ⟨entries1, m1, hin1, hm1, hs⟩ := stereoDiscovery_ok hret
    rw [hin] at hin1
    rw [hm] at hm1
    cases hin1
    cases hm1
    refine ⟨_, hret, ?_⟩
    rw [hs]
    refine ⟨rfl, rfl, rfl, ?_⟩
    intro hv
    have hall : (stereoAddingLines r entries).filter isAddingLine = stereoAddingLines r entries :=
      List.filter_eq_self.mpr (stereoAddingLines_adding r entries)
    simp only [List.filter_append, hall, List.length_append, stereoAddingLines_length, hv, if_true,
      filter_adding_head]
    simp [matchingPaths]

/-- Witness of C1 on the example listing. -/
theorem C1_resolver_collects_matching_witness :
    (exWorld.input = .directory exEntries ∧
      ∀ e ∈ exEntries, e.isRegularFile = true → ".bmp".toList.length ≤ e.name.length) ∧
    (∃ s, monoDiscovery exWorld exRequest = .ok s ∧
      s.imageFilenames = ["images/image_2.bmp".toList, "images/image_1.bmp".toList] ∧
      (s.trace.filter isAddingLine).length = 2) ∧
    (∃ s, stereoDiscovery exWorld exStereoRequest = .ok s ∧
      s.imageFilenamesL = ["images/left_1.bmp".toList] ∧
      s.imageFilenamesR = ["images/right_1.bmp".toList] ∧
      (s.trace.filter isAddingLine).length = 2) := by
  have hext : ∀ e ∈ exEntries, e.isRegularFile = true → ".bmp".toList.length ≤ e.name.length := by
    decide
  refine ⟨⟨rfl, hext⟩, ?_, ?_⟩
  · obtain ⟨s, h1, h2, _, _, h5⟩ :=
      (C1_resolver_collects_matching exWorld exEntries .MEI ".bmp".toList rfl hext).1
        exRequest rfl (by decide)
    refine ⟨s, h1, ?_, ?_⟩
    · rw [h2]; decide
    · rw [h5 rfl]; decide
  · obtain ⟨s, h1, h2, h3, _, h5⟩ :=
      (C1_resolver_collects_matching exWorld exEntries .MEI ".bmp".toList rfl hext).2
        exStereoRequest rfl (by decide)
    refine ⟨s, h1, ?_, ?_, ?_⟩
    · rw [h2]; decide
    · rw [h3]; decide
    · rw [h5 rfl]; decide

/-! ## The Pair Matcher -/

theorem isErrorLine_mismatchLine (pathL pathR : Str) :
    isErrorLine (mismatchLine pathL pathR) = true := by
  simp [isErrorLine, mismatchLine, List.isPrefixOf]

/-- When the tail comparison returns, both offsets are in range and the result
is zero exactly when the tails are equal. -/
theorem compare5_some {fL fR pL pR : Str} {c : Int}
    (h : compare5 fL pL.length (sizeSub fL.length pL.length) fR pR.length
      (sizeSub fR.length pR.length) = some c) :
    pL.length ≤ fL.length ∧ pR.length ≤ fR.length ∧
      (c = 0 ↔ fL.drop pL.length = fR.drop pR.length) := by
  have hr : pL.length ≤ fL.length ∧ pR.length ≤ fR.length := by
    unfold compare5 at h
    split_ifs at h with hc
    omega
  obtain ⟨c1, h1, h2⟩ := compare5_tails hr.1 hr.2
  rw [h1] at h
  simp only [Option.some.injEq] at h
  exact ⟨hr.1, hr.2, h ▸ h2⟩

theorem stereoMatchBody_ok {r : StereoRequest} {i : Nat} {s s1 : StereoState}
    (h : stereoMatchBody r i s = .ok s1) :
    ∃ pathL pathR, s.imageFilenamesL[i]? = some pathL ∧ s.imageFilenamesR[i]? = some pathR ∧
      ((tailOf r.prefixL pathL = tailOf r.prefixR pathR ∧ s1 = s) ∨
        (tailOf r.prefixL pathL ≠ tailOf r.prefixR pathR ∧
          s1 = { s with
            matchImages := false
            trace := s.trace ++ whenVerbose r.verbose (mismatchLine pathL pathR) })) := by
  unfold stereoMatchBody at h
  cases hL : s.imageFilenamesL[i]? with
  | none => simp [hL] at h
  | some pathL =>
    cases hR : s.imageFilenamesR[i]? with
    | none => simp [hL, hR] at h
    | some pathR =>
      simp only [hL, hR] at h
      refine ⟨pathL, pathR, rfl, rfl, ?_⟩
      cases hc : compare5 (pathFilename pathL) r.prefixL.length
          (sizeSub (pathFilename pathL).length r.prefixL.length) (pathFilename pathR)
          r.prefixR.length (sizeSub (pathFilename pathR).length r.prefixR.length) with
      | none => simp [hc] at h
      | some c =>
        obtain ⟨_, _, hiff⟩ := compare5_some hc
        simp only [hc] at h
        by_cases h0 : c = 0
        · left
          simp only [h0, ne_eq, not_true_eq_false, if_false, Except.ok.injEq] at h
          exact ⟨hiff.mp h0, h.symm⟩
        · right
          simp only [h0, ne_eq, not_false_eq_true, if_true, Except.ok.injEq] at h
          exact ⟨fun ht => h0 (hiff.mpr ht), h.symm⟩

theorem stereoMatchBody_error {r : StereoRequest} {i : Nat} {s : StereoState} {o : Outcome}
    (h : stereoMatchBody r i s = .error o) : o = ⟨.uncaught .out_of_range, s.trace⟩ := by
  unfold stereoMatchBody at h
  cases hL : s.imageFilenamesL[i]? with
  | none =>
    simp only [hL, Except.error.injEq] at h
    exact h.symm
  | some pathL =>
    cases hR : s.imageFilenamesR[i]? with
    | none =>
      simp only [hL, hR, Except.error.injEq] at h
      exact h.symm
    | some pathR =>
      simp only [hL, hR] at h
      cases hc : compare5 (pathFilename pathL) r.prefixL.length
          (sizeSub (pathFilename pathL).length r.prefixL.length) (pathFilename pathR)
          r.prefixR.length (sizeSub (pathFilename pathR).length r.prefixR.length) with
      | none =>
        simp only [hc, Except.error.injEq] at h
        exact h.symm
      | some c =>
        simp only [hc] at h
        split_ifs at h

theorem stereoMatchBody_returns {r : StereoRequest} {i : Nat} {s : StereoState}
    {pathL pathR : Str} (hL : s.imageFilenamesL[i]? = some pathL)
    (hR : s.imageFilenamesR[i]? = some pathR)
    (hlenL : r.prefixL.length ≤ (pathFilename pathL).length)
    (hlenR : r.prefixR.length ≤ (pathFilename pathR).length) (o : Outcome) :
    stereoMatchBody r i s ≠ .error o := by
  obtain ⟨c, hc, _⟩ := compare5_tails hlenL hlenR
  unfold stereoMatchBody
  simp only [hL, hR, hc]
  split_ifs <;> simp

theorem tailsAgree_succ (pL pR : Str) (L R : List Str) (j : Nat) :
    tailsAgree pL pR L R (j + 1) ↔
      tailsAgree pL pR L R j ∧ (L[j]?).map (tailOf pL) = (R[j]?).map (tailOf pR) := by
  unfold tailsAgree
  constructor
  · intro h
    exact ⟨fun i hi => h i (by omega), h j (by omega)⟩
  · rintro ⟨h1, h2⟩ i hi
    rcases Nat.lt_succ_iff_lt_or_eq.mp hi with h | h
    · exact h1 i h
    · rw [h]; exact h2

theorem matchInv_step (r : StereoRequest) (s0 : StereoState) (j : Nat) (s s1 : StereoState)
    (hP : MatchInv r s0 j s) (hb : stereoMatchBody r j s = .ok s1) :
    MatchInv r s0 (j + 1) s1 := by
  obtain ⟨hL, hR, hm, ht, hd, hv, hq⟩ := hP
  obtain ⟨pathL, pathR, hpL, hpR, hcase⟩ := stereoMatchBody_ok hb
  rw [hL] at hpL
  rw [hR] at hpR
  rcases hcase with ⟨heq, rfl⟩ | ⟨hne, rfl⟩
  · refine ⟨hL, hR, ?_, ht, hd, hv, hq⟩
    rw [tailsAgree_succ, hpL, hpR, hm]
    simp [heq]
  · refine ⟨hL, hR, ?_, ?_, ?_, ?_, ?_⟩
    · rw [tailsAgree_succ, hpL, hpR]
      simp [hne]
    · intro h; simp at h
    · intro h0 e he
      rcases List.mem_append.mp he with h1 | h1
      · exact hd h0 e h1
      · rw [mem_whenVerbose h1]; rfl
    · intro hverb _
      refine ⟨mismatchLine pathL pathR, ?_, isErrorLine_mismatchLine _ _⟩
      simp [hverb, whenVerbose]
    · intro hverb
      simp [hverb, whenVerbose, hq hverb]

/-- The tail comparison loop from a state with `matchImages = true`. -/
theorem matchLoop_rule (r : StereoRequest) (s0 : StereoState) (n : Nat)
    (h0 : s0.matchImages = true) :
    (∀ s1, forLoop (stereoMatchBody r) n 0 s0 = .ok s1 → MatchInv r s0 n s1) ∧
    (∀ o, forLoop (stereoMatchBody r) n 0 s0 = .error o →
      (o.term = .uncaught .out_of_range ∧
        ((∀ e ∈ s0.trace, isDiag e = true) → ∀ e ∈ o.trace, isDiag e = true))) := by
  have h := forLoop_rule (stereoMatchBody r) (MatchInv r s0)
    (fun o => o.term = .uncaught .out_of_range ∧
        ((∀ e ∈ s0.trace, isDiag e = true) → ∀ e ∈ o.trace, isDiag e = true)) n 0 s0
    (fun j s s1 _ _ hP hb => matchInv_step r s0 j s s1 hP hb)
    (fun j s o _ _ hP hb => by
      rw [stereoMatchBody_error hb]
      exact ⟨rfl, hP.2.2.2.2.1⟩)
    ⟨rfl, rfl, by simp [h0, tailsAgree], fun _ => rfl, fun h => h, by simp [h0], fun _ => rfl⟩
  simpa using h

/-- The tail comparison loop returns when the lists have the same length and
every file name is at least as long as its camera's prefix. -/
theorem matchLoop_returns (r : StereoRequest) (s0 : StereoState)
    (hlen : s0.imageFilenamesL.length = s0.imageFilenamesR.length)
    (hL : ∀ p ∈ s0.imageFilenamesL, r.prefixL.length ≤ (pathFilename p).length)
    (hR : ∀ p ∈ s0.imageFilenamesR, r.prefixR.length ≤ (pathFilename p).length) :
    ∃ s1, forLoop (stereoMatchBody r) s0.imageFilenamesL.length 0 s0 = .ok s1 := by
  obtain ⟨s1, h1, _⟩ := forLoop_returns (stereoMatchBody r)
    (fun _ s => s.imageFilenamesL = s0.imageFilenamesL ∧
      s.imageFilenamesR = s0.imageFilenamesR) s0.imageFilenamesL.length s0
    (fun j s s1 _ hP hb => by
      obtain ⟨_, _, _, _, hcase⟩ := stereoMatchBody_ok hb
      rcases hcase with ⟨_, rfl⟩ | ⟨_, rfl⟩
      · exact hP
      · exact hP)
    (fun j s o hj hP hb => by
      have hjL : j < s.imageFilenamesL.length := by rw [hP.1]; exact hj
      have hjR : j < s.imageFilenamesR.length := by rw [hP.2, ← hlen]; exact hj
      have h1 : s.imageFilenamesL[j]? = some s.imageFilenamesL[j] := List.getElem?_eq_getElem hjL
      have h2 : s.imageFilenamesR[j]? = some s.imageFilenamesR[j] := List.getElem?_eq_getElem hjR
      refine stereoMatchBody_returns h1 h2 (hL _ ?_) (hR _ ?_) o hb
      · rw [← hP.1]; exact List.getElem_mem hjL
      · rw [← hP.2]; exact List.getElem_mem hjR)
    ⟨rfl, rfl⟩
  exact ⟨s1, h1⟩

theorem stereoPairing_ok {r : StereoRequest} {s s1 : StereoState}
    (h : stereoPairing r s = .ok s1) :
    s.imageFilenamesL ≠ [] ∧ s.imageFilenamesR ≠ [] ∧
      s.imageFilenamesL.length = s.imageFilenamesR.length ∧
      s1.imageFilenamesL = stdSort s.imageFilenamesL ∧
      s1.imageFilenamesR = stdSort s.imageFilenamesR ∧
      tailsAgree r.prefixL r.prefixR (stdSort s.imageFilenamesL) (stdSort s.imageFilenamesR)
        s.imageFilenamesL.length ∧
      s1.trace = s.trace ++ whenVerbose r.verbose (imagesLine s.imageFilenamesL.length) := by
  unfold stereoPairing at h
  split_ifs at h with h1 h2
  have hne : s.imageFilenamesL ≠ [] ∧ s.imageFilenamesR ≠ [] := by
    simp only [Bool.or_eq_true, List.isEmpty_iff, not_or] at h1
    exact h1
  have hlen : s.imageFilenamesL.length = s.imageFilenamesR.length := not_not.mp h2
  change (match forLoop (stereoMatchBody r) s.imageFilenamesL.length 0 (sortedState s) with
    | .error o => .error o
    | .ok s1 =>
      if (!s1.matchImages) = true then .error ⟨.failure .StereoPairMismatch, s1.trace⟩
      else
        .ok { s1 with
          trace := s1.trace ++
            whenVerbose r.verbose
              (.stderr ("# INFO: # images: ".toList ++ showNat s1.imageFilenamesL.length)) }) =
    Except.ok s1 at h
  cases hloop : forLoop (stereoMatchBody r) s.imageFilenamesL.length 0 (sortedState s) with
  | error o => simp [hloop] at h
  | ok s2 =>
    obtain ⟨hL, hR, hm, ht, _, _, _⟩ := (matchLoop_rule r (sortedState s) _ rfl).1 s2 hloop
    simp only [hloop] at h
    split_ifs at h with hmi
    simp only [Except.ok.injEq] at h
    have hmt : s2.matchImages = true := by simpa using hmi
    subst h
    refine ⟨hne.1, hne.2, hlen, hL, hR, hm.mp hmt, ?_⟩
    simp only [ht hmt, hL, imagesLine]
    simp [sortedState, stdSort_length]

theorem stereoPairing_error {r : StereoRequest} {s : StereoState} {o : Outcome}
    (h : stereoPairing r s = .error o) :
    ((s.imageFilenamesL = [] ∨ s.imageFilenamesR = []) ∧
      o = ⟨.failure .NoImagesFound,
        s.trace ++ [.stderr "# ERROR: No chessboard images found.".toList]⟩) ∨
    (s.imageFilenamesL ≠ [] ∧ s.imageFilenamesR ≠ [] ∧
      s.imageFilenamesL.length ≠ s.imageFilenamesR.length ∧
      o = ⟨.failure .PairCountMismatch,
        s.trace ++ [.stderr
          "# ERROR: # chessboard images from left and right cameras do not match.".toList]⟩) ∨
    (s.imageFilenamesL ≠ [] ∧ s.imageFilenamesR ≠ [] ∧
      s.imageFilenamesL.length = s.imageFilenamesR.length ∧
      ((o.term = .failure .StereoPairMismatch ∧
          ¬ tailsAgree r.prefixL r.prefixR (stdSort s.imageFilenamesL)
            (stdSort s.imageFilenamesR) s.imageFilenamesL.length ∧
          (r.verbose = true → ∃ e ∈ o.trace, isErrorLine e = true) ∧
          (r.verbose = false → o.trace = s.trace)) ∨
        (o.term = .uncaught .out_of_range ∧
          forLoop (stereoMatchBody r) s.imageFilenamesL.length 0 (sortedState s) = .error o)) ∧
      ((∀ e ∈ s.trace, isDiag e = true) → ∀ e ∈ o.trace, isDiag e = true)) := by
  unfold stereoPairing at h
  split_ifs at h with h1 h2
  · left
    simp only [Bool.or_eq_true, List.isEmpty_iff] at h1
    simp only [Except.error.injEq] at h
    exact ⟨h1, h.symm⟩
  · right; left
    simp only [Bool.or_eq_true, List.isEmpty_iff, not_or] at h1
    simp only [Except.error.injEq] at h
    exact ⟨h1.1, h1.2, h2, h.symm⟩
  · right; right
    have hne : s.imageFilenamesL ≠ [] ∧ s.imageFilenamesR ≠ [] := by
      simp only [Bool.or_eq_true, List.isEmpty_iff, not_or] at h1
      exact h1
    have hlen : s.imageFilenamesL.length = s.imageFilenamesR.length := not_not.mp h2
    refine ⟨hne.1, hne.2, hlen, ?_⟩
    change (match forLoop (stereoMatchBody r) s.imageFilenamesL.length 0 (sortedState s) with
      | .error o => .error o
      | .ok s1 =>
        if (!s1.matchImages) = true then .error ⟨.failure .StereoPairMismatch, s1.trace⟩
        else
          .ok { s1 with
            trace := s1.trace ++
              whenVerbose r.verbose
                (.stderr ("# INFO: # images: ".toList ++ showNat s1.imageFilenamesL.length)) }) =
      Except.error o at h
    cases hloop : forLoop (stereoMatchBody r) s.imageFilenamesL.length 0 (sortedState s) with
    | error o1 =>
      simp only [hloop, Except.error.injEq] at h
      subst h
      obtain ⟨ht, hd⟩ := (matchLoop_rule r (sortedState s) _ rfl).2 o1 hloop
      exact ⟨Or.inr ⟨ht, rfl⟩, hd⟩
    | ok s2 =>
      obtain ⟨_, _, hm, _, hd, hv, hq⟩ := (matchLoop_rule r (sortedState s) _ rfl).1 s2 hloop
      simp only [hloop] at h
      split_ifs at h with hmi
      simp only [Except.error.injEq] at h
      have hmf : s2.matchImages = false := by simpa using hmi
      subst h
      refine ⟨Or.inl ⟨rfl, ?_, fun hverb => hv hverb hmf, fun hverb => hq hverb⟩, hd⟩
      intro hag
      rw [hm.mpr hag] at hmf
      simp at hmf

/-! ## The Detection Loop (mono) -/

theorem samplesOf_monoDetectEvents (w : World) (r : Request) (i : Nat) (path : Str) :
    samplesOf (monoDetectEvents w r i path) =
      ([path].filter w.cornersFound).map (fun p => (p, none)) := by
  unfold monoDetectEvents
  cases hf : w.cornersFound path <;>
    simp [samplesOf_append, samplesOf_whenVerbose_stderr, samplesOf, hf]

theorem early_monoDetectEvents (w : World) (r : Request) (i : Nat) (path : Str) :
    ∀ e ∈ monoDetectEvents w r i path, isEarly e = true := by
  intro e he
  unfold monoDetectEvents at he
  split_ifs at he
  · rcases List.mem_append.mp he with h | h
    · rw [mem_whenVerbose h]; rfl
    · simp only [List.mem_singleton] at h
      rw [h]; rfl
  · rw [mem_whenVerbose he]; rfl

theorem monoDetectBody_eq (w : World) (r : Request) (i : Nat) (s : MonoState) (path : Str)
    (hp : s.imageFilenames[i]? = some path) (hi : i < s.chessboardFound.length) :
    monoDetectBody w r i s = .ok
      { s with
        trace := s.trace ++ monoDetectEvents w r i path
        chessboardFound := s.chessboardFound.set i (w.cornersFound path) } := by
  unfold monoDetectBody monoDetectEvents
  simp only [hp, hi, if_true]
  cases hf : w.cornersFound path <;> simp

theorem monoDetectInv_step (w : World) (r : Request) (s0 : MonoState) (j : Nat)
    (s : MonoState) (hj : j < s0.imageFilenames.length) (hP : MonoDetectInv w s0 j s) :
    ∃ s1, monoDetectBody w r j s = .ok s1 ∧ MonoDetectInv w s0 (j + 1) s1 := by
  obtain ⟨hL, hlen, hflags, hsamples, hearly⟩ := hP
  have hp : s.imageFilenames[j]? = some s0.imageFilenames[j] := by
    rw [hL]; exact List.getElem?_eq_getElem hj
  have hp0 : s0.imageFilenames[j]? = some s0.imageFilenames[j] := List.getElem?_eq_getElem hj
  refine ⟨_, monoDetectBody_eq w r j s _ hp (by omega), hL, ?_, ?_, ?_, ?_⟩
  · simp [hlen]
  · intro k hk
    rcases Nat.lt_succ_iff_lt_or_eq.mp hk with h | h
    · have hne : j ≠ k := by omega
      simp only [List.getElem?_set_ne hne]
      exact hflags k h
    · subst h
      rw [hp0, Option.map_some', List.getElem?_set_self (by omega)]
  · simp only [samplesOf_append, hsamples, samplesOf_monoDetectEvents, List.take_succ, hp0,
      Option.toList_some, List.filter_append, List.map_append, List.append_assoc]
  · intro h0 e he
    rcases List.mem_append.mp he with h | h
    · exact hearly h0 e h
    · exact early_monoDetectEvents w r j _ e h

/-- The mono detection loop returns; afterwards the flag vector records the
detector outcome of every candidate and the engine has received one sample per
candidate on which detection succeeded, in order. -/
theorem monoDetectLoop_spec (w : World) (r : Request) (s0 : MonoState)
    (hlen : s0.chessboardFound.length = s0.imageFilenames.length) :
    ∃ s1, forLoop (monoDetectBody w r) s0.imageFilenames.length 0 s0 = .ok s1 ∧
      s1.imageFilenames = s0.imageFilenames ∧
      s1.chessboardFound = s0.imageFilenames.map w.cornersFound ∧
      samplesOf s1.trace = samplesOf s0.trace ++
        (s0.imageFilenames.filter w.cornersFound).map (fun p => (p, none)) ∧
      ((∀ e ∈ s0.trace, isEarly e = true) → ∀ e ∈ s1.trace, isEarly e = true) := by
  obtain ⟨s1, h1, hL, hl, hflags, hsamples, hearly⟩ := forLoop_returns (monoDetectBody w r)
    (MonoDetectInv w s0) s0.imageFilenames.length s0
    (fun j s s1 hj hP hb => by
      obtain ⟨s2, h2, hinv⟩ := monoDetectInv_step w r s0 j s hj hP
      rw [h2] at hb
      simp only [Except.ok.injEq] at hb
      exact hb ▸ hinv)
    (fun j s e hj hP hb => by
      obtain ⟨s2, h2, _⟩ := monoDetectInv_step w r s0 j s hj hP
      rw [h2] at hb
      simp at hb)
    ⟨rfl, hlen, fun k hk => absurd hk (Nat.not_lt_zero k), by simp, fun h => h⟩
  refine ⟨s1, h1, hL, ?_, ?_, hearly⟩
  · apply List.ext_getElem?
    intro k
    by_cases hk : k < s0.imageFilenames.length
    · rw [hflags k hk, List.getElem?_map]
    · rw [List.getElem?_eq_none (by omega), List.getElem?_eq_none (by simp; omega)]
  · rw [hsamples, List.take_length]

theorem monoDetection_empty (w : World) (r : Request) (s : MonoState)
    (h : s.imageFilenames = []) :
    monoDetection w r s = .error ⟨.failure .NoImagesFound,
      s.trace ++ [.stderr "# ERROR: No chessboard images found.".toList]⟩ := by
  simp [monoDetection, h]

/-- The detection stage of the mono driver on a non-empty candidate list. -/
theorem monoDetection_spec (w : World) (r : Request) (s : MonoState)
    (h : s.imageFilenames ≠ []) :
    ∃ s1, monoDetection w r s = .ok s1 ∧
      s1.imageFilenames = s.imageFilenames ∧
      s1.chessboardFound = s.imageFilenames.map w.cornersFound ∧
      samplesOf s1.trace = samplesOf s.trace ++
        (s.imageFilenames.filter w.cornersFound).map (fun p => (p, none)) ∧
      ((∀ e ∈ s.trace, isEarly e = true) → ∀ e ∈ s1.trace, isEarly e = true) := by
  obtain ⟨s1, h1, h2, h3, h4, h5⟩ := monoDetectLoop_spec w r
    { s with
      trace := s.trace ++
        whenVerbose r.verbose
          (.stderr ("# INFO: # images: ".toList ++ showNat s.imageFilenames.length))
      chessboardFound := List.replicate s.imageFilenames.length false } (by simp)
  refine ⟨s1, ?_, h2, h3, ?_, ?_⟩
  · unfold monoDetection
    rw [if_neg (by simpa using h)]
    exact h1
  · rw [h4]
    simp [samplesOf_append, samplesOf_whenVerbose_stderr]
  · intro h0
    exact h5 (early_append_whenVerbose_stderr _ _ h0)

/-! ## The Review Renderer (mono) -/

theorem monoReviewBody_eq (w : World) (i : Nat) (s : MonoState) (path : Str)
    (hp : s.imageFilenames[i]? = some path)
    (hf : s.chessboardFound = s.imageFilenames.map w.cornersFound) :
    monoReviewBody i s = .ok
      { s with
        cbImages := s.cbImages ++ [path].filter w.cornersFound
        cbImageFilenames := s.cbImageFilenames ++ [path].filter w.cornersFound } := by
  unfold monoReviewBody
  have hflag : s.chessboardFound[i]? = some (w.cornersFound path) := by
    rw [hf, List.getElem?_map, hp]; rfl
  rw [hflag]
  cases hc : w.cornersFound path <;> simp [hp, hc]

/-- The review selection loop of the mono driver returns with the candidates on
which detection succeeded, in order, and leaves the trace alone. -/
theorem monoReviewLoop_spec (w : World) (s0 : MonoState)
    (hf : s0.chessboardFound = s0.imageFilenames.map w.cornersFound) :
    ∃ s1, forLoop monoReviewBody s0.imageFilenames.length 0 s0 = .ok s1 ∧
      s1.trace = s0.trace ∧
      s1.cbImages = s0.cbImages ++ s0.imageFilenames.filter w.cornersFound ∧
      s1.cbImageFilenames = s0.cbImageFilenames ++ s0.imageFilenames.filter w.cornersFound := by
  have hstep : ∀ j s, j < s0.imageFilenames.length →
      (s.imageFilenames = s0.imageFilenames ∧ s.chessboardFound = s0.chessboardFound ∧
        s.trace = s0.trace ∧
        s.cbImages = s0.cbImages ++ (s0.imageFilenames.take j).filter w.cornersFound ∧
        s.cbImageFilenames = s0.cbImageFilenames ++
          (s0.imageFilenames.take j).filter w.cornersFound) →
      ∃ s1, monoReviewBody j s = .ok s1 ∧
        (s1.imageFilenames = s0.imageFilenames ∧ s1.chessboardFound = s0.chessboardFound ∧
          s1.trace = s0.trace ∧
          s1.cbImages = s0.cbImages ++ (s0.imageFilenames.take (j + 1)).filter w.cornersFound ∧
          s1.cbImageFilenames = s0.cbImageFilenames ++
            (s0.imageFilenames.take (j + 1)).filter w.cornersFound) := by
    intro j s hj ⟨hL, hF, hT, hI, hN⟩
    have hp0 : s0.imageFilenames[j]? = some s0.imageFilenames[j] := List.getElem?_eq_getElem hj
    have hp : s.imageFilenames[j]? = some s0.imageFilenames[j] := by rw [hL]; exact hp0
    refine ⟨_, monoReviewBody_eq w j s _ hp (by rw [hF, hL, hf]), hL, hF, hT, ?_, ?_⟩
    · simp only [hI, List.take_succ, hp0, Option.toList_some, List.filter_append,
        List.append_assoc]
    · simp only [hN, List.take_succ, hp0, Option.toList_some, List.filter_append,
        List.append_assoc]
  obtain ⟨s1, h1, _, _, hT, hI, hN⟩ := forLoop_returns monoReviewBody
    (fun j s => s.imageFilenames = s0.imageFilenames ∧ s.chessboardFound = s0.chessboardFound ∧
        s.trace = s0.trace ∧
        s.cbImages = s0.cbImages ++ (s0.imageFilenames.take j).filter w.cornersFound ∧
        s.cbImageFilenames = s0.cbImageFilenames ++
          (s0.imageFilenames.take j).filter w.cornersFound)
    s0.imageFilenames.length s0
    (fun j s s1 hj hP hb => by
      obtain ⟨s2, h2, hinv⟩ := hstep j s hj hP
      rw [h2] at hb
      simp only [Except.ok.injEq] at hb
      exact hb ▸ hinv)
    (fun j s e hj hP hb => by
      obtain ⟨s2, h2, _⟩ := hstep j s hj hP
      rw [h2] at hb
      simp at hb)
    ⟨rfl, rfl, rfl, by simp, by simp⟩
  rw [List.take_length] at hI hN
  exact ⟨s1, h1, hT, hI, hN⟩

/-! ## Gate, calibration, persistence, review (mono) -/

theorem monoBack_insufficient (w : World) (r : Request) (s : MonoState)
    (h : sampleCount s.trace < 10) :
    monoBack w r s = ⟨.failure .InsufficientSamples,
      s.trace ++ [.stderr "# ERROR: Insufficient number of detected chessboards.".toList]⟩ := by
  simp [monoBack, h]

theorem monoBack_sufficient (w : World) (r : Request) (s : MonoState)
    (h : ¬ sampleCount s.trace < 10)
    (hf : s.chessboardFound = s.imageFilenames.map w.cornersFound) :
    monoBack w r s = ⟨.success,
      s.trace ++ monoCalibEvents w r ++
        (if r.viewResults then [.drawResults (s.imageFilenames.filter w.cornersFound) none]
          else [])⟩ := by
  unfold monoBack
  rw [if_neg h]
  cases hv : r.viewResults
  · simp [monoCalibEvents]
  · obtain ⟨s1, h1, h2, h3, _⟩ := monoReviewLoop_spec w
      { s with
        trace := s.trace ++ monoCalibEvents w r
        cbImages := []
        cbImageFilenames := [] } hf
    simp only [monoCalibEvents, List.append_assoc] at h1 h2
    simp only [if_true, List.append_assoc, h1, h2, h3, monoCalibEvents]
    simp

/-! ## The front of the mono session -/

theorem isDiag_modelInfo (m : ModelType) : isDiag (modelInfo m) = true := by
  cases m <;> rfl

theorem diag_head (m : ModelType) (dir : Str) :
    ∀ e ∈ [modelInfo m, Event.directory_iterator dir], isDiag e = true := by
  intro e he
  simp only [List.mem_cons, List.mem_singleton, List.not_mem_nil, or_false] at he
  rcases he with rfl | rfl
  · exact isDiag_modelInfo m
  · rfl

theorem diag_append {a b : List Event} (ha : ∀ e ∈ a, isDiag e = true)
    (hb : ∀ e ∈ b, isDiag e = true) : ∀ e ∈ a ++ b, isDiag e = true := by
  intro e he
  rcases List.mem_append.mp he with h | h
  · exact ha e h
  · exact hb e h

theorem early_of_diag {t : List Event} (h : ∀ e ∈ t, isDiag e = true) :
    ∀ e ∈ t, isEarly e = true := fun e he => isEarly_of_isDiag (h e he)

/-- A mono scan that throws: `std::out_of_range`, with diagnostics only. -/
theorem monoScan_error (r : Request) (entries : List DirEntry) (s : MonoState) (o : Outcome)
    (hd : ∀ e ∈ s.trace, isDiag e = true)
    (h : forEach (monoScanBody r) entries s = .error o) :
    o.term = .uncaught .out_of_range ∧ (∀ e ∈ o.trace, isDiag e = true) ∧
      ∃ e ∈ entries, e.isRegularFile = true ∧ extensionCompare e.name r.fileExtension = none := by
  have hrule := forEach_rule (monoScanBody r) (fun s => ∀ e ∈ s.trace, isDiag e = true)
    (fun o => o.term = .uncaught .out_of_range ∧ (∀ e ∈ o.trace, isDiag e = true) ∧
      ∃ e ∈ entries, e.isRegularFile = true ∧ extensionCompare e.name r.fileExtension = none)
    entries
    (fun a _ t t1 hP hb => by
      rcases monoScanBody_cases r a t with ⟨_, _, _, h2⟩ | h2
      · rw [h2] at hb; simp at hb
      · rw [h2] at hb
        simp only [Except.ok.injEq] at hb
        subst hb
        unfold monoStep
        split_ifs
        · exact diag_append hP (fun e he => by rw [mem_whenVerbose he]; rfl)
        · exact hP)
    (fun a ha t e hP hb => by
      rcases monoScanBody_cases r a t with ⟨h1, _, h3, h2⟩ | h2
      · rw [h2] at hb
        simp only [Except.error.injEq] at hb
        subst hb
        exact ⟨rfl, hP, a, ha, h1, h3⟩
      · rw [h2] at hb; simp at hb)
    s hd
  exact hrule.2 o h

/-- How the mono discovery can fail. -/
theorem monoDiscovery_error {w : World} {r : Request} {o : Outcome}
    (h : monoDiscovery w r = .error o) :
    (w.input = .missing ∧ o = ⟨.failure .InputDirectoryNotFound,
      [.stderr ("# ERROR: Cannot find input directory ".toList ++ r.inputDir ++ ".".toList)]⟩) ∨
    (w.input ≠ .missing ∧ selectModel r.cameraModel = none ∧
      o = ⟨.failure .UnknownCameraModel,
        [.stderr ("# ERROR: Unknown camera model: ".toList ++ r.cameraModel)]⟩) ∨
    (∃ m, w.input = .notDirectory ∧ selectModel r.cameraModel = some m ∧
      o = ⟨.uncaught .filesystem_error, [modelInfo m]⟩) ∨
    (∃ m entries, w.input = .directory entries ∧ selectModel r.cameraModel = some m ∧
      o.term = .uncaught .out_of_range ∧ (∀ e ∈ o.trace, isDiag e = true) ∧
      ∃ e ∈ entries, e.isRegularFile = true ∧ extensionCompare e.name r.fileExtension = none) := by
  cases hi : w.input with
  | missing =>
    rw [monoDiscovery_missing w r hi] at h
    simp only [Except.error.injEq] at h
    exact Or.inl ⟨rfl, h.symm⟩
  | notDirectory =>
    cases hm : selectModel r.cameraModel with
    | none =>
      rw [monoDiscovery_unknown w r (by simp [hi]) hm] at h
      simp only [Except.error.injEq] at h
      exact Or.inr (Or.inl ⟨by simp, rfl, h.symm⟩)
    | some m =>
      rw [monoDiscovery_notDirectory w r m hi hm] at h
      simp only [Except.error.injEq] at h
      exact Or.inr (Or.inr (Or.inl ⟨m, rfl, rfl, h.symm⟩))
  | directory entries =>
    cases hm : selectModel r.cameraModel with
    | none =>
      rw [monoDiscovery_unknown w r (by simp [hi]) hm] at h
      simp only [Except.error.injEq] at h
      exact Or.inr (Or.inl ⟨by simp, rfl, h.symm⟩)
    | some m =>
      rw [monoDiscovery_directory w r m entries hi hm] at h
      obtain ⟨h1, h2, h3⟩ := monoScan_error r entries _ o (diag_head m r.inputDir) h
      exact Or.inr (Or.inr (Or.inr ⟨m, entries, rfl, rfl, h1, h2, h3⟩))

/-- The state of a mono session that completes the Detection Loop. -/
theorem monoFront_ok {w : World} {r : Request} {s : MonoState} (h : monoFront w r = .ok s) :
    ∃ entries m, w.input = .directory entries ∧ selectModel r.cameraModel = some m ∧
      s.imageFilenames = matchingPaths r.inputDir r.prefixM r.fileExtension entries ∧
      s.imageFilenames ≠ [] ∧
      s.chessboardFound = s.imageFilenames.map w.cornersFound ∧
      samplesOf s.trace = (s.imageFilenames.filter w.cornersFound).map (fun p => (p, none)) ∧
      (∀ e ∈ s.trace, isEarly e = true) := by
  unfold monoFront at h
  cases hd : monoDiscovery w r with
  | error o => simp [hd] at h
  | ok s0 =>
    simp only [hd] at h
    obtain ⟨entries, m, hin, hm, hs0⟩ := monoDiscovery_ok hd
    have hdiag : ∀ e ∈ s0.trace, isDiag e = true := by
      rw [hs0]
      exact diag_append (diag_head m r.inputDir) (addingLines_diag _ _)
    have hL0 : s0.imageFilenames = matchingPaths r.inputDir r.prefixM r.fileExtension entries := by
      rw [hs0]
    by_cases hne : s0.imageFilenames = []
    · rw [monoDetection_empty w r s0 hne] at h
      simp at h
    · obtain ⟨s1, h1, h2, h3, h4, h5⟩ := monoDetection_spec w r s0 hne
      rw [h1] at h
      simp only [Except.ok.injEq] at h
      subst h
      refine ⟨entries, m, hin, hm, by rw [h2, hL0], by rw [h2]; exact hne, by rw [h3, h2], ?_,
        h5 (early_of_diag hdiag)⟩
      rw [h4, samplesOf_of_diag hdiag, h2]
      rfl

/-- How a mono session can fail before the sufficiency gate: by an uncaught
exception, or by one of the first three failures with an error line as the last
event; only diagnostics were produced. -/
theorem monoFront_error {w : World} {r : Request} {o : Outcome}
    (h : monoFront w r = .error o) :
    (∀ e ∈ o.trace, isDiag e = true) ∧
    ((∃ x, o.term = .uncaught x) ∨
      ((o.term = .failure .InputDirectoryNotFound ∨ o.term = .failure .UnknownCameraModel ∨
          o.term = .failure .NoImagesFound) ∧
        ∃ e ∈ o.trace, isErrorLine e = true)) := by
  unfold monoFront at h
  cases hd : monoDiscovery w r with
  | error o1 =>
    simp only [hd, Except.error.injEq] at h
    subst h
    rcases monoDiscovery_error hd with ⟨_, rfl⟩ | ⟨_, _, rfl⟩ | ⟨m, _, _, rfl⟩ |
      ⟨m, entries, _, _, h1, h2, _⟩
    · refine ⟨?_, Or.inr ⟨Or.inl rfl, ?_⟩⟩
      · intro e he
        simp only [List.mem_singleton] at he
        rw [he]; rfl
      · exact ⟨_, List.mem_singleton_self _, by simp [isErrorLine, List.isPrefixOf]⟩
    · refine ⟨?_, Or.inr ⟨Or.inr (Or.inl rfl), ?_⟩⟩
      · intro e he
        simp only [List.mem_singleton] at he
        rw [he]; rfl
      · exact ⟨_, List.mem_singleton_self _, by simp [isErrorLine, List.isPrefixOf]⟩
    · refine ⟨?_, Or.inl ⟨_, rfl⟩⟩
      intro e he
      simp only [List.mem_singleton] at he
      rw [he]; exact isDiag_modelInfo m
    · exact ⟨h2, Or.inl ⟨_, h1⟩⟩
  | ok s0 =>
    simp only [hd] at h
    obtain ⟨entries, m, hin, hm, hs0⟩ := monoDiscovery_ok hd
    have hdiag : ∀ e ∈ s0.trace, isDiag e = true := by
      rw [hs0]
      exact diag_append (diag_head m r.inputDir) (addingLines_diag _ _)
    by_cases hne : s0.imageFilenames = []
    · rw [monoDetection_empty w r s0 hne] at h
      simp only [Except.error.injEq] at h
      subst h
      refine ⟨?_, Or.inr ⟨Or.inr (Or.inr rfl), ?_⟩⟩
      · refine diag_append hdiag ?_
        intro e he
        simp only [List.mem_singleton] at he
        rw [he]; rfl
      · exact ⟨_, List.mem_append_right _ (List.mem_singleton_self _),
          by simp [isErrorLine, List.isPrefixOf]⟩
    · obtain ⟨s1, h1, _⟩ := monoDetection_spec w r s0 hne
      rw [h1] at h
      simp at h

/-! ## The Detection Loop (stereo) -/

theorem samplesOf_stereoDetectEvents (w : World) (r : StereoRequest) (i : Nat)
    (pathL pathR : Str) :
    samplesOf (stereoDetectEvents w r i pathL pathR) =
      ([(pathL, pathR)].filter (bothFound w)).map (fun p => (p.1, some p.2)) := by
  unfold stereoDetectEvents
  cases hf : (w.cornersFound pathL && w.cornersFound pathR) <;>
    simp [samplesOf_append, samplesOf_whenVerbose_stderr, samplesOf, hf, bothFound]

theorem early_stereoDetectEvents (w : World) (r : StereoRequest) (i : Nat)
    (pathL pathR : Str) :
    ∀ e ∈ stereoDetectEvents w r i pathL pathR, isEarly e = true := by
  intro e he
  unfold stereoDetectEvents at he
  split_ifs at he
  · rcases List.mem_append.mp he with h | h
    · rw [mem_whenVerbose h]; rfl
    · simp only [List.mem_singleton] at h
      rw [h]; rfl
  · rw [mem_whenVerbose he]; rfl

theorem stereoDetectBody_eq (w : World) (r : StereoRequest) (i : Nat) (s : StereoState)
    (pathL pathR : Str) (hL : s.imageFilenamesL[i]? = some pathL)
    (hR : s.imageFilenamesR[i]? = some pathR) (hiL : i < s.chessboardFoundL.length)
    (hiR : i < s.chessboardFoundR.length) :
    stereoDetectBody w r i s = .ok
      { s with
        trace := s.trace ++ stereoDetectEvents w r i pathL pathR
        chessboardFoundL := s.chessboardFoundL.set i (w.cornersFound pathL)
        chessboardFoundR := s.chessboardFoundR.set i (w.cornersFound pathR) } := by
  unfold stereoDetectBody stereoDetectEvents
  simp only [hL, hR, hiL, hiR, if_true]
  cases hf : (w.cornersFound pathL && w.cornersFound pathR) <;> simp

theorem getElem?_zip_of_lt {L R : List Str} {j : Nat} (hL : j < L.length) (hR : j < R.length) :
    (L.zip R)[j]? = some (L[j], R[j]) := by
  rw [List.getElem?_zip_eq_some]
  exact ⟨List.getElem?_eq_getElem hL, List.getElem?_eq_getElem hR⟩

theorem stereoDetectInv_step (w : World) (r : StereoRequest) (s0 : StereoState) (j : Nat)
    (s : StereoState) (hlen : s0.imageFilenamesL.length = s0.imageFilenamesR.length)
    (hj : j < s0.imageFilenamesL.length) (hP : StereoDetectInv w s0 j s) :
    ∃ s1, stereoDetectBody w r j s = .ok s1 ∧ StereoDetectInv w s0 (j + 1) s1 := by
  obtain ⟨hL, hR, hlenL, hlenR, hfL, hfR, hsamples, hearly⟩ := hP
  have hjR : j < s0.imageFilenamesR.length := by omega
  have hpL0 : s0.imageFilenamesL[j]? = some s0.imageFilenamesL[j] := List.getElem?_eq_getElem hj
  have hpR0 : s0.imageFilenamesR[j]? = some s0.imageFilenamesR[j] := List.getElem?_eq_getElem hjR
  have hpL : s.imageFilenamesL[j]? = some s0.imageFilenamesL[j] := by rw [hL]; exact hpL0
  have hpR : s.imageFilenamesR[j]? = some s0.imageFilenamesR[j] := by rw [hR]; exact hpR0
  refine ⟨_, stereoDetectBody_eq w r j s _ _ hpL hpR (by omega) (by omega), hL, hR, ?_, ?_, ?_, ?_,
    ?_, ?_⟩
  · simp [hlenL]
  · simp [hlenR]
  · intro k hk
    rcases Nat.lt_succ_iff_lt_or_eq.mp hk with h | h
    · have hne : j ≠ k := by omega
      simp only [List.getElem?_set_ne hne]
      exact hfL k h
    · subst h
      rw [hpL0, Option.map_some', List.getElem?_set_self (by omega)]
  · intro k hk
    rcases Nat.lt_succ_iff_lt_or_eq.mp hk with h | h
    · have hne : j ≠ k := by omega
      simp only [List.getElem?_set_ne hne]
      exact hfR k h
    · subst h
      rw [hpR0, Option.map_some', List.getElem?_set_self (by omega)]
  · simp only [samplesOf_append, hsamples, samplesOf_stereoDetectEvents, List.take_succ,
      getElem?_zip_of_lt hj hjR, Option.toList_some, List.filter_append, List.map_append,
      List.append_assoc]
  · intro h0 e he
    rcases List.mem_append.mp he with h | h
    · exact hearly h0 e h
    · exact early_stereoDetectEvents w r j _ _ e h

/-- The stereo detection loop on lists of the same length returns; afterwards
each flag vector records the detector outcome of every image of its camera, and
the engine has received one sample per index at which detection succeeded on
both images, in order. -/
theorem stereoDetection_spec (w : World) (r : StereoRequest) (s : StereoState)
    (hlen : s.imageFilenamesL.length = s.imageFilenamesR.length) :
    ∃ s1, stereoDetection w r s = .ok s1 ∧
      s1.imageFilenamesL = s.imageFilenamesL ∧ s1.imageFilenamesR = s.imageFilenamesR ∧
      s1.chessboardFoundL = s.imageFilenamesL.map w.cornersFound ∧
      s1.chessboardFoundR = s.imageFilenamesR.map w.cornersFound ∧
      samplesOf s1.trace = samplesOf s.trace ++
        ((s.imageFilenamesL.zip s.imageFilenamesR).filter (bothFound w)).map
          (fun p => (p.1, some p.2)) ∧
      ((∀ e ∈ s.trace, isEarly e = true) → ∀ e ∈ s1.trace, isEarly e = true) := by
  obtain ⟨s1, h1, hL, hR, hlL, hlR, hfL, hfR, hsamples, hearly⟩ :=
    forLoop_returns (stereoDetectBody w r)
      (StereoDetectInv w
        { s with
          chessboardFoundL := List.replicate s.imageFilenamesL.length false
          chessboardFoundR := List.replicate s.imageFilenamesR.length false })
      s.imageFilenamesL.length
      { s with
        chessboardFoundL := List.replicate s.imageFilenamesL.length false
        chessboardFoundR := List.replicate s.imageFilenamesR.length false }
      (fun j t t1 hj hP hb => by
        obtain ⟨s2, h2, hinv⟩ := stereoDetectInv_step w r _ j t hlen hj hP
        rw [h2] at hb
        simp only [Except.ok.injEq] at hb
        exact hb ▸ hinv)
      (fun j t e hj hP hb => by
        obtain ⟨s2, h2, _⟩ := stereoDetectInv_step w r _ j t hlen hj hP
        rw [h2] at hb
        simp at hb)
      ⟨rfl, rfl, by simp, by simp [hlen], fun k hk => absurd hk (Nat.not_lt_zero k),
        fun k hk => absurd hk (Nat.not_lt_zero k), by simp, fun h => h⟩
  simp only at hL hR hlL hlR hfL hfR hsamples hearly
  refine ⟨s1, h1, hL, hR, ?_, ?_, ?_, hearly⟩
  · apply List.ext_getElem?
    intro k
    by_cases hk : k < s.imageFilenamesL.length
    · rw [hfL k hk, List.getElem?_map]
    · rw [List.getElem?_eq_none (by omega), List.getElem?_eq_none (by simp; omega)]
  · apply List.ext_getElem?
    intro k
    by_cases hk : k < s.imageFilenamesL.length
    · rw [hfR k hk, List.getElem?_map]
    · rw [List.getElem?_eq_none (by omega), List.getElem?_eq_none (by simp; omega)]
  · rw [hsamples, List.take_of_length_le (by simp [hlen])]

/-! ## The Review Renderer (stereo) -/

theorem stereoReviewBody_eq (w : World) (i : Nat) (s : StereoState) (pathL pathR : Str)
    (hL : s.imageFilenamesL[i]? = some pathL) (hR : s.imageFilenamesR[i]? = some pathR)
    (hfL : s.chessboardFoundL = s.imageFilenamesL.map w.cornersFound)
    (hfR : s.chessboardFoundR = s.imageFilenamesR.map w.cornersFound) :
    stereoReviewBody i s = .ok
      { s with
        cbImagesL := s.cbImagesL ++ ([(pathL, pathR)].filter (bothFound w)).map Prod.fst
        cbImageFilenamesL := s.cbImageFilenamesL ++
          ([(pathL, pathR)].filter (bothFound w)).map Prod.fst
        cbImagesR := s.cbImagesR ++ ([(pathL, pathR)].filter (bothFound w)).map Prod.snd
        cbImageFilenamesR := s.cbImageFilenamesR ++
          ([(pathL, pathR)].filter (bothFound w)).map Prod.snd } := by
  unfold stereoReviewBody
  have hflagL : s.chessboardFoundL[i]? = some (w.cornersFound pathL) := by
    rw [hfL, List.getElem?_map, hL]; rfl
  have hflagR : s.chessboardFoundR[i]? = some (w.cornersFound pathR) := by
    rw [hfR, List.getElem?_map, hR]; rfl
  rw [hflagL]
  cases hcL : w.cornersFound pathL
  · simp [bothFound, hcL]
  · simp only [Bool.not_true, Bool.false_eq_true, if_false, hflagR]
    cases hcR : w.cornersFound pathR <;> simp [bothFound, hcL, hcR, hL, hR]

/-- The review selection loop of the stereo driver returns with the pairs on
which detection succeeded on both images, in order, and leaves the trace
alone. -/
theorem stereoReviewLoop_spec (w : World) (s0 : StereoState)
    (hlen : s0.imageFilenamesL.length = s0.imageFilenamesR.length)
    (hfL : s0.chessboardFoundL = s0.imageFilenamesL.map w.cornersFound)
    (hfR : s0.chessboardFoundR = s0.imageFilenamesR.map w.cornersFound)
    (hcb : s0.cbImagesL = [] ∧ s0.cbImagesR = [] ∧ s0.cbImageFilenamesL = [] ∧
      s0.cbImageFilenamesR = []) :
    ∃ s1, forLoop stereoReviewBody s0.imageFilenamesL.length 0 s0 = .ok s1 ∧
      s1.trace = s0.trace ∧
      s1.cbImagesL =
        ((s0.imageFilenamesL.zip s0.imageFilenamesR).filter (bothFound w)).map Prod.fst ∧
      s1.cbImagesR =
        ((s0.imageFilenamesL.zip s0.imageFilenamesR).filter (bothFound w)).map Prod.snd ∧
      s1.cbImageFilenamesL = s1.cbImagesL ∧ s1.cbImageFilenamesR = s1.cbImagesR := by
  have hstep : ∀ j s, j < s0.imageFilenamesL.length →
      (s.imageFilenamesL = s0.imageFilenamesL ∧ s.imageFilenamesR = s0.imageFilenamesR ∧
        s.chessboardFoundL = s0.chessboardFoundL ∧ s.chessboardFoundR = s0.chessboardFoundR ∧
        s.trace = s0.trace ∧
        s.cbImagesL = (((s0.imageFilenamesL.zip s0.imageFilenamesR).take j).filter
          (bothFound w)).map Prod.fst ∧
        s.cbImagesR = (((s0.imageFilenamesL.zip s0.imageFilenamesR).take j).filter
          (bothFound w)).map Prod.snd ∧
        s.cbImageFilenamesL = s.cbImagesL ∧ s.cbImageFilenamesR = s.cbImagesR) →
      ∃ s1, stereoReviewBody j s = .ok s1 ∧
        (s1.imageFilenamesL = s0.imageFilenamesL ∧ s1.imageFilenamesR = s0.imageFilenamesR ∧
          s1.chessboardFoundL = s0.chessboardFoundL ∧
          s1.chessboardFoundR = s0.chessboardFoundR ∧
          s1.trace = s0.trace ∧
          s1.cbImagesL = (((s0.imageFilenamesL.zip s0.imageFilenamesR).take (j + 1)).filter
            (bothFound w)).map Prod.fst ∧
          s1.cbImagesR = (((s0.imageFilenamesL.zip s0.imageFilenamesR).take (j + 1)).filter
            (bothFound w)).map Prod.snd ∧
          s1.cbImageFilenamesL = s1.cbImagesL ∧ s1.cbImageFilenamesR = s1.cbImagesR) := by
    intro j s hj ⟨hL, hR, hFL, hFR, hT, hIL, hIR, hNL, hNR⟩
    have hjR : j < s0.imageFilenamesR.length := by omega
    have hpL : s.imageFilenamesL[j]? = some s0.imageFilenamesL[j] := by
      rw [hL]; exact List.getElem?_eq_getElem hj
    have hpR : s.imageFilenamesR[j]? = some s0.imageFilenamesR[j] := by
      rw [hR]; exact List.getElem?_eq_getElem hjR
    refine ⟨_, stereoReviewBody_eq w j s _ _ hpL hpR (by rw [hFL, hL, hfL])
      (by rw [hFR, hR, hfR]), hL, hR, hFL, hFR, hT, ?_, ?_, ?_, ?_⟩
    · simp only [hIL, List.take_succ, getElem?_zip_of_lt hj hjR, Option.toList_some,
        List.filter_append, List.map_append]
    · simp only [hIR, List.take_succ, getElem?_zip_of_lt hj hjR, Option.toList_some,
        List.filter_append, List.map_append]
    · simp only [hNL]
    · simp only [hNR]
  obtain ⟨s1, h1, _, _, _, _, hT, hIL, hIR, hNL, hNR⟩ := forLoop_returns stereoReviewBody
    (fun j s => s.imageFilenamesL = s0.imageFilenamesL ∧
        s.imageFilenamesR = s0.imageFilenamesR ∧
        s.chessboardFoundL = s0.chessboardFoundL ∧ s.chessboardFoundR = s0.chessboardFoundR ∧
        s.trace = s0.trace ∧
        s.cbImagesL = (((s0.imageFilenamesL.zip s0.imageFilenamesR).take j).filter
          (bothFound w)).map Prod.fst ∧
        s.cbImagesR = (((s0.imageFilenamesL.zip s0.imageFilenamesR).take j).filter
          (bothFound w)).map Prod.snd ∧
        s.cbImageFilenamesL = s.cbImagesL ∧ s.cbImageFilenamesR = s.cbImagesR)
    s0.imageFilenamesL.length s0
    (fun j s s1 hj hP hb => by
      obtain ⟨s2, h2, hinv⟩ := hstep j s hj hP
      rw [h2] at hb
      simp only [Except.ok.injEq] at hb
      exact hb ▸ hinv)
    (fun j s e hj hP hb => by
      obtain ⟨s2, h2, _⟩ := hstep j s hj hP
      rw [h2] at hb
      simp at hb)
    ⟨rfl, rfl, rfl, rfl, rfl, by simp [hcb.1], by simp [hcb.2.1], by rw [hcb.2.2.1, hcb.1],
      by rw [hcb.2.2.2, hcb.2.1]⟩
  rw [List.take_of_length_le (by simp [hlen])] at hIL hIR
  exact ⟨s1, h1, hT, hIL, hIR, hNL, hNR⟩

/-! ## Gate, calibration, persistence, review (stereo) -/

theorem stereoBack_insufficient (w : World) (r : StereoRequest) (s : StereoState)
    (h : sampleCount s.trace < 10) :
    stereoBack w r s = ⟨.failure .InsufficientSamples,
      s.trace ++ [.stderr "# ERROR: Insufficient number of detected chessboards.".toList]⟩ := by
  simp [stereoBack, h]

theorem stereoWroteLine_eq (w : World) (r : StereoRequest) (t : List Event) :
    stereoWroteLine w r t =
      if absoluteThrows w r then
        .error ⟨.uncaught .filesystem_error,
          t ++ whenVerbose r.verbose
            (.stderr ("# INFO: Wrote calibration files to ".toList ++
              (w.absolute r.outputDir).getD []))⟩
      else
        .ok (t ++ whenVerbose r.verbose
          (.stderr ("# INFO: Wrote calibration files to ".toList ++
            (w.absolute r.outputDir).getD []))) := by
  unfold stereoWroteLine absoluteThrows
  cases hv : r.verbose
  · simp [whenVerbose]
  · cases ha : w.absolute r.outputDir <;> simp [whenVerbose]

/-- After the gate, when `fs::absolute` throws in verbose mode: the session
ends with that exception, after `calibrate` and `writeParams`. -/
theorem stereoBack_throws (w : World) (r : StereoRequest) (s : StereoState)
    (h : ¬ sampleCount s.trace < 10) (ha : absoluteThrows w r = true) :
    stereoBack w r s = ⟨.uncaught .filesystem_error, s.trace ++ stereoCalibEvents w r⟩ := by
  unfold stereoBack
  rw [if_neg h, stereoWroteLine_eq, if_pos ha]
  simp [stereoCalibEvents]

theorem stereoBack_sufficient (w : World) (r : StereoRequest) (s : StereoState)
    (h : ¬ sampleCount s.trace < 10) (ha : absoluteThrows w r = false)
    (hlen : s.imageFilenamesL.length = s.imageFilenamesR.length)
    (hfL : s.chessboardFoundL = s.imageFilenamesL.map w.cornersFound)
    (hfR : s.chessboardFoundR = s.imageFilenamesR.map w.cornersFound) :
    stereoBack w r s = ⟨.success,
      s.trace ++ stereoCalibEvents w r ++
        (if r.viewResults then
          [.drawResults
            (((s.imageFilenamesL.zip s.imageFilenamesR).filter (bothFound w)).map Prod.fst)
            (some (((s.imageFilenamesL.zip s.imageFilenamesR).filter (bothFound w)).map
              Prod.snd))]
          else [])⟩ := by
  unfold stereoBack
  rw [if_neg h, stereoWroteLine_eq, if_neg (by simp [ha])]
  cases hv : r.viewResults
  · simp [stereoCalibEvents]
  · obtain ⟨s1, h1, h2, h3, h4, _⟩ := stereoReviewLoop_spec w
      { s with
        trace := s.trace ++ stereoCalibEvents w r
        cbImagesL := []
        cbImagesR := []
        cbImageFilenamesL := []
        cbImageFilenamesR := [] } hlen hfL hfR ⟨rfl, rfl, rfl, rfl⟩
    simp only [stereoCalibEvents, List.append_assoc] at h1 h2
    simp only [if_true, List.append_assoc, h1, h2, h3, h4, stereoCalibEvents]

/-! ## The front of the stereo session -/

/-- A stereo scan that throws: `std::out_of_range`, with diagnostics only. -/
theorem stereoScan_error (r : StereoRequest) (entries : List DirEntry) (s : StereoState)
    (o : Outcome) (hd : ∀ e ∈ s.trace, isDiag e = true)
    (h : forEach (stereoScanBody r) entries s = .error o) :
    o.term = .uncaught .out_of_range ∧ (∀ e ∈ o.trace, isDiag e = true) ∧
      ∃ e ∈ entries, e.isRegularFile = true ∧ extensionCompare e.name r.fileExtension = none := by
  have hrule := forEach_rule (stereoScanBody r) (fun s => ∀ e ∈ s.trace, isDiag e = true)
    (fun o => o.term = .uncaught .out_of_range ∧ (∀ e ∈ o.trace, isDiag e = true) ∧
      ∃ e ∈ entries, e.isRegularFile = true ∧ extensionCompare e.name r.fileExtension = none)
    entries
    (fun a _ t t1 hP hb => by
      rcases stereoScanBody_cases r a t with ⟨_, _, h2⟩ | h2
      · rw [h2] at hb; simp at hb
      · rw [h2] at hb
        simp only [Except.ok.injEq] at hb
        subst hb
        exact diag_append hP
          (fun e he => isDiag_of_isAddingLine (stereoAddingLines_adding r [a] e he)))
    (fun a ha t e hP hb => by
      rcases stereoScanBody_cases r a t with ⟨h1, h3, h2⟩ | h2
      · rw [h2] at hb
        simp only [Except.error.injEq] at hb
        subst hb
        exact ⟨rfl, hP, a, ha, h1, h3⟩
      · rw [h2] at hb; simp at hb)
    s hd
  exact hrule.2 o h

/-- How the stereo discovery can fail. -/
theorem stereoDiscovery_error {w : World} {r : StereoRequest} {o : Outcome}
    (h : stereoDiscovery w r = .error o) :
    (w.input = .missing ∧ o = ⟨.failure .InputDirectoryNotFound,
      [.stderr ("# ERROR: Cannot find input directory ".toList ++ r.inputDir ++ ".".toList)]⟩) ∨
    (w.input ≠ .missing ∧ selectModel r.cameraModel = none ∧
      o = ⟨.failure .UnknownCameraModel,
        [.stderr ("# ERROR: Unknown camera model: ".toList ++ r.cameraModel)]⟩) ∨
    (∃ m, w.input = .notDirectory ∧ selectModel r.cameraModel = some m ∧
      o = ⟨.uncaught .filesystem_error, [modelInfo m]⟩) ∨
    (∃ m entries, w.input = .directory entries ∧ selectModel r.cameraModel = some m ∧
      o.term = .uncaught .out_of_range ∧ (∀ e ∈ o.trace, isDiag e = true) ∧
      ∃ e ∈ entries, e.isRegularFile = true ∧ extensionCompare e.name r.fileExtension = none) := by
  cases hi : w.input with
  | missing =>
    rw [stereoDiscovery_missing w r hi] at h
    simp only [Except.error.injEq] at h
    exact Or.inl ⟨rfl, h.symm⟩
  | notDirectory =>
    cases hm : selectModel r.cameraModel with
    | none =>
      rw [stereoDiscovery_unknown w r (by simp [hi]) hm] at h
      simp only [Except.error.injEq] at h
      exact Or.inr (Or.inl ⟨by simp, rfl, h.symm⟩)
    | some m =>
      rw [stereoDiscovery_notDirectory w r m hi hm] at h
      simp only [Except.error.injEq] at h
      exact Or.inr (Or.inr (Or.inl ⟨m, rfl, rfl, h.symm⟩))
  | directory entries =>
    cases hm : selectModel r.cameraModel with
    | none =>
      rw [stereoDiscovery_unknown w r (by simp [hi]) hm] at h
      simp only [Except.error.injEq] at h
      exact Or.inr (Or.inl ⟨by simp, rfl, h.symm⟩)
    | some m =>
      rw [stereoDiscovery_directory w r m entries hi hm] at h
      obtain ⟨h1, h2, h3⟩ := stereoScan_error r entries _ o (diag_head m r.inputDir) h
      exact Or.inr (Or.inr (Or.inr ⟨m, entries, rfl, rfl, h1, h2, h3⟩))

theorem stereoDiscovery_diag {w : World} {r : StereoRequest} {s : StereoState}
    (h : stereoDiscovery w r = .ok s) : ∀ e ∈ s.trace, isDiag e = true := by
  obtain ⟨entries, m, _, _, hs⟩ := stereoDiscovery_ok h
  rw [hs]
  exact diag_append (diag_head m r.inputDir)
    (fun e he => isDiag_of_isAddingLine (stereoAddingLines_adding r entries e he))

theorem isErrorLine_of_isAddingLine {e : Event} (h : isAddingLine e = true) :
    isErrorLine e = false := by
  cases e with
  | stderr text =>
    simp only [isAddingLine] at h
    simp only [isErrorLine]
    match text, h with
    | [], h => simp [List.isPrefixOf] at h
    | [_], h => simp [List.isPrefixOf] at h
    | [_, _], h => simp [List.isPrefixOf] at h
    | c0 :: c1 :: c2 :: rest, h =>
      simp only [List.isPrefixOf, String.toList, Bool.and_eq_true, beq_iff_eq] at h
      obtain ⟨h0, h1, h2, _⟩ := h
      subst h0 h1 h2
      rfl
  | _ => rfl

theorem stereoDiscovery_no_error_line {w : World} {r : StereoRequest} {s : StereoState}
    (h : stereoDiscovery w r = .ok s) : ∀ e ∈ s.trace, isErrorLine e = false := by
  obtain ⟨entries, m, _, _, hs⟩ := stereoDiscovery_ok h
  rw [hs]
  intro e he
  rcases List.mem_append.mp he with h1 | h1
  · simp only [List.mem_cons, List.mem_singleton, List.not_mem_nil, or_false] at h1
    rcases h1 with rfl | rfl
    · cases m <;> rfl
    · rfl
  · exact isErrorLine_of_isAddingLine (stereoAddingLines_adding r entries e h1)

/-- The state of a stereo session that completes the Detection Loop. -/
theorem stereoFront_ok {w : World} {r : StereoRequest} {s : StereoState}
    (h : stereoFront w r = .ok s) :
    ∃ s0, stereoDiscovery w r = .ok s0 ∧
      s0.imageFilenamesL ≠ [] ∧ s0.imageFilenamesR ≠ [] ∧
      s0.imageFilenamesL.length = s0.imageFilenamesR.length ∧
      s.imageFilenamesL = stdSort s0.imageFilenamesL ∧
      s.imageFilenamesR = stdSort s0.imageFilenamesR ∧
      tailsAgree r.prefixL r.prefixR s.imageFilenamesL s.imageFilenamesR
        s.imageFilenamesL.length ∧
      s.imageFilenamesL.length = s.imageFilenamesR.length ∧
      s.chessboardFoundL = s.imageFilenamesL.map w.cornersFound ∧
      s.chessboardFoundR = s.imageFilenamesR.map w.cornersFound ∧
      samplesOf s.trace =
        ((s.imageFilenamesL.zip s.imageFilenamesR).filter (bothFound w)).map
          (fun p => (p.1, some p.2)) ∧
      (∀ e ∈ s.trace, isEarly e = true) := by
  unfold stereoFront at h
  cases hd : stereoDiscovery w r with
  | error o => simp [hd] at h
  | ok s0 =>
    simp only [hd] at h
    have hdiag := stereoDiscovery_diag hd
    cases hp : stereoPairing r s0 with
    | error o => simp [hp] at h
    | ok s1 =>
      simp only [hp] at h
      obtain ⟨hneL, hneR, hlen, hL, hR, hag, ht⟩ := stereoPairing_ok hp
      have hlen1 : s1.imageFilenamesL.length = s1.imageFilenamesR.length := by
        rw [hL, hR, stdSort_length, stdSort_length, hlen]
      have hdiag1 : ∀ e ∈ s1.trace, isDiag e = true := by
        rw [ht]
        exact diag_append hdiag (fun e he => by rw [mem_whenVerbose he]; rfl)
      obtain ⟨s2, h1, h2, h3, h4, h5, h6, h7⟩ := stereoDetection_spec w r s1 hlen1
      rw [h1] at h
      simp only [Except.ok.injEq] at h
      subst h
      refine ⟨s0, rfl, hneL, hneR, hlen, by rw [h2, hL], by rw [h3, hR], ?_, by rw [h2, h3, hlen1],
        by rw [h4, h2], by rw [h5, h3], ?_, h7 (early_of_diag hdiag1)⟩
      · rw [h2, h3, hL, hR, stdSort_length]
        exact hag
      · rw [h6, samplesOf_of_diag hdiag1, h2, h3]
        rfl

/-- How a stereo session can fail before the sufficiency gate: by an uncaught
exception, by one of the first four failures with an error line as the last
event, or by a pair mismatch, which leaves an error line exactly in verbose
mode; only diagnostics were produced. -/
theorem stereoFront_error {w : World} {r : StereoRequest} {o : Outcome}
    (h : stereoFront w r = .error o) :
    (∀ e ∈ o.trace, isDiag e = true) ∧
    ((∃ x, o.term = .uncaught x) ∨
      ((o.term = .failure .InputDirectoryNotFound ∨ o.term = .failure .UnknownCameraModel ∨
          o.term = .failure .NoImagesFound ∨ o.term = .failure .PairCountMismatch) ∧
        ∃ e ∈ o.trace, isErrorLine e = true) ∨
      (o.term = .failure .StereoPairMismatch ∧
        (r.verbose = true → ∃ e ∈ o.trace, isErrorLine e = true) ∧
        (r.verbose = false → ∀ e ∈ o.trace, isErrorLine e = false))) := by
  have hsingle : ∀ text : Str, ∀ e ∈ [Event.stderr text], isDiag e = true := by
    intro text e he
    simp only [List.mem_singleton] at he
    rw [he]; rfl
  unfold stereoFront at h
  cases hd : stereoDiscovery w r with
  | error o1 =>
    simp only [hd, Except.error.injEq] at h
    subst h
    rcases stereoDiscovery_error hd with ⟨_, rfl⟩ | ⟨_, _, rfl⟩ | ⟨m, _, _, rfl⟩ |
      ⟨m, entries, _, _, h1, h2, _⟩
    · exact ⟨hsingle _, Or.inr (Or.inl ⟨Or.inl rfl, _, List.mem_singleton_self _,
        by simp [isErrorLine, List.isPrefixOf]⟩)⟩
    · exact ⟨hsingle _, Or.inr (Or.inl ⟨Or.inr (Or.inl rfl), _, List.mem_singleton_self _,
        by simp [isErrorLine, List.isPrefixOf]⟩)⟩
    · refine ⟨?_, Or.inl ⟨_, rfl⟩⟩
      intro e he
      simp only [List.mem_singleton] at he
      rw [he]; exact isDiag_modelInfo m
    · exact ⟨h2, Or.inl ⟨_, h1⟩⟩
  | ok s0 =>
    simp only [hd] at h
    have hdiag := stereoDiscovery_diag hd
    cases hp : stereoPairing r s0 with
    | error o1 =>
      simp only [hp, Except.error.injEq] at h
      subst h
      rcases stereoPairing_error hp with ⟨_, rfl⟩ | ⟨_, _, _, rfl⟩ | ⟨_, _, _, hcase, hdg⟩
      · exact ⟨diag_append hdiag (hsingle _), Or.inr (Or.inl ⟨Or.inr (Or.inr (Or.inl rfl)), _,
          List.mem_append_right _ (List.mem_singleton_self _),
          by simp [isErrorLine, List.isPrefixOf]⟩)⟩
      · exact ⟨diag_append hdiag (hsingle _), Or.inr (Or.inl ⟨Or.inr (Or.inr (Or.inr rfl)), _,
          List.mem_append_right _ (List.mem_singleton_self _),
          by simp [isErrorLine, List.isPrefixOf]⟩)⟩
      · refine ⟨hdg hdiag, ?_⟩
        rcases hcase with ⟨ht, _, hv, hq⟩ | ht
        · refine Or.inr (Or.inr ⟨ht, hv, fun hverb => ?_⟩)
          rw [hq hverb]
          exact stereoDiscovery_no_error_line hd
        · exact Or.inl ⟨_, ht.1⟩
    | ok s1 =>
      simp only [hp] at h
      obtain ⟨_, _, hlen, hL, hR, _, _⟩ := stereoPairing_ok hp
      have hlen1 : s1.imageFilenamesL.length = s1.imageFilenamesR.length := by
        rw [hL, hR, stdSort_length, stdSort_length, hlen]
      obtain ⟨s2, h1, _⟩ := stereoDetection_spec w r s1 hlen1
      rw [h1] at h
      simp at h

/-! ## Sessions that complete the Detection Loop -/

theorem intrinsicSession_of_front {w : World} {r : Request} {s : MonoState}
    (h : monoFront w r = .ok s) :
    intrinsicSession w r =
      if sampleCount s.trace < 10 then
        ⟨.failure .InsufficientSamples,
          s.trace ++ [.stderr "# ERROR: Insufficient number of detected chessboards.".toList]⟩
      else
        ⟨.success,
          s.trace ++ monoCalibEvents w r ++
            (if r.viewResults then
              [.drawResults (s.imageFilenames.filter w.cornersFound) none]
            else [])⟩ := by
  obtain ⟨_, _, _, _, _, _, hf, _, _⟩ := monoFront_ok h
  have hb : intrinsicSession w r = monoBack w r s := by
    unfold intrinsicSession
    rw [h]
  rw [hb]
  by_cases hc : sampleCount s.trace < 10
  · rw [if_pos hc]
    exact monoBack_insufficient w r s hc
  · rw [if_neg hc]
    exact monoBack_sufficient w r s hc hf

theorem stereoSession_of_front {w : World} {r : StereoRequest} {s : StereoState}
    (h : stereoFront w r = .ok s) :
    stereoSession w r =
      if sampleCount s.trace < 10 then
        ⟨.failure .InsufficientSamples,
          s.trace ++ [.stderr "# ERROR: Insufficient number of detected chessboards.".toList]⟩
      else if absoluteThrows w r then
        ⟨.uncaught .filesystem_error, s.trace ++ stereoCalibEvents w r⟩
      else
        ⟨.success,
          s.trace ++ stereoCalibEvents w r ++
            (if r.viewResults then
              [.drawResults
                (((s.imageFilenamesL.zip s.imageFilenamesR).filter (bothFound w)).map Prod.fst)
                (some (((s.imageFilenamesL.zip s.imageFilenamesR).filter (bothFound w)).map
                  Prod.snd))]
            else [])⟩ := by
  obtain ⟨_, _, _, _, _, _, _, _, hlen, hfL, hfR, _, _⟩ := stereoFront_ok h
  have hb : stereoSession w r = stereoBack w r s := by
    unfold stereoSession
    rw [h]
  rw [hb]
  by_cases hc : sampleCount s.trace < 10
  · rw [if_pos hc]
    exact stereoBack_insufficient w r s hc
  · rw [if_neg hc]
    by_cases ha : absoluteThrows w r = true
    · rw [if_pos ha]
      exact stereoBack_throws w r s hc ha
    · rw [if_neg ha]
      exact stereoBack_sufficient w r s hc (by simpa using ha) hlen hfL hfR

theorem intrinsicSession_of_error {w : World} {r : Request} {o : Outcome}
    (h : monoFront w r = .error o) : intrinsicSession w r = o := by
  unfold intrinsicSession
  rw [h]

theorem stereoSession_of_error {w : World} {r : StereoRequest} {o : Outcome}
    (h : stereoFront w r = .error o) : stereoSession w r = o := by
  unfold stereoSession
  rw [h]

/-! ## Resolved names carry their prefix -/

theorem mem_matchingPaths {dir pre ext : Str} {entries : List DirEntry} {p : Str}
    (h : p ∈ matchingPaths dir pre ext entries) :
    ∃ e ∈ entries, e.isRegularFile = true ∧ pre <+: e.name ∧ ext <:+ e.name ∧
      p = pathAppend dir e.name := by
  simp only [matchingPaths, matchingEntries, List.mem_map, List.mem_filter, Bool.and_eq_true,
    decide_eq_true_eq] at h
  obtain ⟨e, ⟨he, ⟨h1, h2⟩, h3⟩, rfl⟩ := h
  exact ⟨e, he, h1, h2, h3, rfl⟩

/-- Every resolved path has a file name at least as long as the prefix. -/
theorem matchingPaths_prefix_le {dir pre ext : Str} {entries : List DirEntry}
    (hsep : ∀ e ∈ entries, '/' ∉ e.name) :
    ∀ p ∈ matchingPaths dir pre ext entries, pre.length ≤ (pathFilename p).length := by
  intro p hp
  obtain ⟨e, he, _, hpre, _, rfl⟩ := mem_matchingPaths hp
  rw [pathFilename_pathAppend dir (hsep e he)]
  exact hpre.length_le

theorem mem_stdSort {v : List Str} {p : Str} : p ∈ stdSort v ↔ p ∈ v :=
  (stdSort_perm v).mem_iff

/-- Index form and list form of the agreement of tails. -/
theorem tailsAgree_iff_map_eq (pL pR : Str) (L R : List Str) (hlen : L.length = R.length) :
    tailsAgree pL pR L R L.length ↔ L.map (tailOf pL) = R.map (tailOf pR) := by
  constructor
  · intro h
    apply List.ext_getElem?
    intro i
    rw [List.getElem?_map, List.getElem?_map]
    by_cases hi : i < L.length
    · exact h i hi
    · rw [List.getElem?_eq_none (by omega), List.getElem?_eq_none (by omega)]
      rfl
  · intro h i _
    rw [← List.getElem?_map, ← List.getElem?_map, h]

/-- Under the separator precondition the Pair Matcher does not throw. -/
theorem stereoPairing_no_throw {w : World} {r : StereoRequest} {entries : List DirEntry}
    {s : StereoState} (hin : w.input = .directory entries)
    (hsep : ∀ e ∈ entries, '/' ∉ e.name) (hs : stereoDiscovery w r = .ok s)
    (hlen : s.imageFilenamesL.length = s.imageFilenamesR.length) :
    ∃ s1, forLoop (stereoMatchBody r) s.imageFilenamesL.length 0 (sortedState s) = .ok s1 := by
  obtain ⟨entries1, m, hin1, _, hs0⟩ := stereoDiscovery_ok hs
  rw [hin] at hin1
  cases hin1
  have hL : ∀ p ∈ (sortedState s).imageFilenamesL,
      r.prefixL.length ≤ (pathFilename p).length := by
    intro p hp
    have hp1 : p ∈ s.imageFilenamesL := mem_stdSort.mp hp
    rw [hs0] at hp1
    exact matchingPaths_prefix_le hsep p hp1
  have hR : ∀ p ∈ (sortedState s).imageFilenamesR,
      r.prefixR.length ≤ (pathFilename p).length := by
    intro p hp
    have hp1 : p ∈ s.imageFilenamesR := mem_stdSort.mp hp
    rw [hs0] at hp1
    exact matchingPaths_prefix_le hsep p hp1
  have hlen1 : (sortedState s).imageFilenamesL.length =
      (sortedState s).imageFilenamesR.length := by
    simp [sortedState, stdSort_length, hlen]
  have h := matchLoop_returns r (sortedState s) hlen1 hL hR
  simpa [sortedState, stdSort_length] using h

/-! ## C2 -/

theorem stereoSession_term_of_pairing_ok {w : World} {r : StereoRequest} {s s1 : StereoState}
    (hs : stereoDiscovery w r = .ok s) (hp : stereoPairing r s = .ok s1) :
    (stereoSession w r).term = .failure .InsufficientSamples ∨
      (stereoSession w r).term = .success ∨
      (stereoSession w r).term = .uncaught .filesystem_error := by
  obtain ⟨_, _, hlen, hL, hR, _, _⟩ := stereoPairing_ok hp
  have hlen1 : s1.imageFilenamesL.length = s1.imageFilenamesR.length := by
    rw [hL, hR, stdSort_length, stdSort_length, hlen]
  obtain ⟨s2, h2, _⟩ := stereoDetection_spec w r s1 hlen1
  have hf : stereoFront w r = .ok s2 := by
    simp only [stereoFront, hs, hp, h2]
  rw [stereoSession_of_front hf]
  by_cases hc : sampleCount s2.trace < 10
  · rw [if_pos hc]
    exact Or.inl rfl
  · rw [if_neg hc]
    by_cases ha : absoluteThrows w r = true
    · rw [if_pos ha]
      exact Or.inr (Or.inr rfl)
    · rw [if_neg ha]
      exact Or.inr (Or.inl rfl)

theorem stereoSession_of_pairing_error {w : World} {r : StereoRequest} {s : StereoState}
    {o : Outcome} (hs : stereoDiscovery w r = .ok s) (hp : stereoPairing r s = .error o) :
    stereoSession w r = o := by
  apply stereoSession_of_error
  simp only [stereoFront, hs, hp]

/-- The verdict of the Pair Matcher on resolved lists; shared by C2 and C8. -/
theorem stereoPairing_verdict (w : World) (r : StereoRequest) (entries : List DirEntry)
    (s : StereoState) (hin : w.input = .directory entries)
    (hsep : ∀ e ∈ entries, '/' ∉ e.name) (hs : stereoDiscovery w r = .ok s)
    (hneL : s.imageFilenamesL ≠ []) (hneR : s.imageFilenamesR ≠ [])
    (hlen : s.imageFilenamesL.length = s.imageFilenamesR.length) :
    ((∃ s1, stereoPairing r s = .ok s1) ↔
      ∀ i, i < s.imageFilenamesL.length →
        ((stdSort s.imageFilenamesL)[i]?).map (tailOf r.prefixL) =
          ((stdSort s.imageFilenamesR)[i]?).map (tailOf r.prefixR)) ∧
    ((stereoSession w r).term = .failure .StereoPairMismatch ↔
      ¬ ∀ i, i < s.imageFilenamesL.length →
        ((stdSort s.imageFilenamesL)[i]?).map (tailOf r.prefixL) =
          ((stdSort s.imageFilenamesR)[i]?).map (tailOf r.prefixR)) ∧
    ((¬ ∀ i, i < s.imageFilenamesL.length →
        ((stdSort s.imageFilenamesL)[i]?).map (tailOf r.prefixL) =
          ((stdSort s.imageFilenamesR)[i]?).map (tailOf r.prefixR)) →
      (stereoSession w r).term.exitCode = some 1) := by
  obtain ⟨s2, hret⟩ := stereoPairing_no_throw hin hsep hs hlen
  cases hp : stereoPairing r s with
  | ok s1 =>
    obtain ⟨_, _, _, _, _, hag, _⟩ := stereoPairing_ok hp
    have hagree : ∀ i, i < s.imageFilenamesL.length →
        ((stdSort s.imageFilenamesL)[i]?).map (tailOf r.prefixL) =
          ((stdSort s.imageFilenamesR)[i]?).map (tailOf r.prefixR) := hag
    have hterm := stereoSession_term_of_pairing_ok hs hp
    refine ⟨⟨fun _ => hagree, fun _ => ⟨s1, rfl⟩⟩, ⟨fun h => ?_, fun h => absurd hagree h⟩,
      fun h => absurd hagree h⟩
    rcases hterm with h1 | h1 | h1 <;> rw [h1] at h <;> simp at h
  | error o =>
    rcases stereoPairing_error hp with ⟨h1 | h1, _⟩ | ⟨_, _, h1, _⟩ | ⟨_, _, _, hcase, _⟩
    · exact absurd h1 hneL
    · exact absurd h1 hneR
    · exact absurd hlen h1
    · rcases hcase with ⟨ht, hnag, _, _⟩ | ⟨_, hloop⟩
      · have hnot : ¬ ∀ i, i < s.imageFilenamesL.length →
            ((stdSort s.imageFilenamesL)[i]?).map (tailOf r.prefixL) =
              ((stdSort s.imageFilenamesR)[i]?).map (tailOf r.prefixR) := hnag
        have hso := stereoSession_of_pairing_error hs hp
        refine ⟨⟨fun ⟨s1, h1⟩ => by simp at h1, fun h => absurd h hnot⟩,
          ⟨fun _ => hnot, fun _ => by rw [hso, ht]⟩, fun _ => by rw [hso, ht]; rfl⟩
      · rw [hret] at hloop
        simp at hloop

/-- C2. Pair Matcher verdict. For resolved left and right lists that are
non-empty and of equal length (the listing being one of file names, without a
separator), the stereo session passes the Pair Matcher if and only if, after
each list is sorted, at every index the file name of the left entry without its
first `|prefixL|` characters equals the file name of the right entry without its
first `|prefixR|` characters; and the session terminates with
`StereoPairMismatch`, exit code 1, exactly when some index mismatches. -/
theorem C2_pair_matcher_verdict (w : World) (r : StereoRequest) (entries : List DirEntry)
    (s : StereoState) (hin : w.input = .directory entries)
    (hsep : ∀ e ∈ entries, '/' ∉ e.name) (hs : stereoDiscovery w r = .ok s)
    (hneL : s.imageFilenamesL ≠ []) (hneR : s.imageFilenamesR ≠ [])
    (hlen : s.imageFilenamesL.length = s.imageFilenamesR.length) :
    ((∃ s1, stereoPairing r s = .ok s1) ↔
      ∀ i, i < s.imageFilenamesL.length →
        ((stdSort s.imageFilenamesL)[i]?).map (tailOf r.prefixL) =
          ((stdSort s.imageFilenamesR)[i]?).map (tailOf r.prefixR)) ∧
    ((stereoSession w r).term = .failure .StereoPairMismatch ↔
      ¬ ∀ i, i < s.imageFilenamesL.length →
        ((stdSort s.imageFilenamesL)[i]?).map (tailOf r.prefixL) =
          ((stdSort s.imageFilenamesR)[i]?).map (tailOf r.prefixR)) ∧
    ((¬ ∀ i, i < s.imageFilenamesL.length →
        ((stdSort s.imageFilenamesL)[i]?).map (tailOf r.prefixL) =
          ((stdSort s.imageFilenamesR)[i]?).map (tailOf r.prefixR)) →
      (stereoSession w r).term.exitCode = some 1) :=
  stereoPairing_verdict w r entries s hin hsep hs hneL hneR hlen

/-- Witness of C2: one left and one right image of the example listing. -/
theorem C2_pair_matcher_verdict_witness :
    (exWorld.input = .directory exEntries ∧ (∀ e ∈ exEntries, '/' ∉ e.name) ∧
      stereoDiscovery exWorld exStereoRequest = .ok exStereoState ∧
      exStereoState.imageFilenamesL ≠ [] ∧ exStereoState.imageFilenamesR ≠ [] ∧
      exStereoState.imageFilenamesL.length = exStereoState.imageFilenamesR.length) ∧
    ((∃ s1, stereoPairing exStereoRequest exStereoState = .ok s1) ↔
      ∀ i, i < exStereoState.imageFilenamesL.length →
        ((stdSort exStereoState.imageFilenamesL)[i]?).map (tailOf exStereoRequest.prefixL) =
          ((stdSort exStereoState.imageFilenamesR)[i]?).map (tailOf exStereoRequest.prefixR)) :=
  ⟨⟨rfl, by decide, rfl, by decide, by decide, by decide⟩,
    (C2_pair_matcher_verdict exWorld exStereoRequest exEntries exStereoState rfl (by decide)
      rfl (by decide) (by decide) (by decide)).1⟩

/-! ## C3 -/

theorem sampleCount_of_samples {t t0 : List Event} {l : List (Str × Option Str)}
    (h : samplesOf t = samplesOf t0 ++ l) : sampleCount t = sampleCount t0 + l.length := by
  rw [sampleCount_eq, sampleCount_eq, h, List.length_append]

/-- C3. Accumulation count, with `sampleCount` the number of `add_sample` calls.
Mono: the detection loop returns and raises the sample count by the number of
candidates on which detection succeeded. Stereo (lists of equal length): the
detection loop returns and raises the sample count by the number of indices at
which detection succeeded on both images, so that indices where at most one
camera succeeded add nothing. In a session the count after the loop is exactly
that number. The count does not change under a permutation of the candidates
(mono) or of the pairs (stereo). -/
theorem C3_accumulation_count (w : World) :
    (∀ (r : Request) (s : MonoState), s.imageFilenames ≠ [] →
      ∃ s1, monoDetection w r s = .ok s1 ∧
        sampleCount s1.trace =
          sampleCount s.trace + (s.imageFilenames.filter w.cornersFound).length) ∧
    (∀ (r : StereoRequest) (s : StereoState),
      s.imageFilenamesL.length = s.imageFilenamesR.length →
      ∃ s1, stereoDetection w r s = .ok s1 ∧
        sampleCount s1.trace = sampleCount s.trace +
          ((s.imageFilenamesL.zip s.imageFilenamesR).filter
            (fun p => w.cornersFound p.1 && w.cornersFound p.2)).length ∧
        ((∀ p ∈ s.imageFilenamesL.zip s.imageFilenamesR,
            ¬ (w.cornersFound p.1 = true ∧ w.cornersFound p.2 = true)) →
          sampleCount s1.trace = sampleCount s.trace)) ∧
    (∀ (r : Request) (s : MonoState), monoFront w r = .ok s →
      sampleCount s.trace = (s.imageFilenames.filter w.cornersFound).length) ∧
    (∀ (r : StereoRequest) (s : StereoState), stereoFront w r = .ok s →
      sampleCount s.trace =
        ((s.imageFilenamesL.zip s.imageFilenamesR).filter
          (fun p => w.cornersFound p.1 && w.cornersFound p.2)).length) ∧
    (∀ (r : Request) (s t s1 t1 : MonoState), s.imageFilenames.Perm t.imageFilenames →
      sampleCount s.trace = sampleCount t.trace →
      monoDetection w r s = .ok s1 → monoDetection w r t = .ok t1 →
      sampleCount s1.trace = sampleCount t1.trace) ∧
    (∀ (r : StereoRequest) (s t s1 t1 : StereoState),
      s.imageFilenamesL.length = s.imageFilenamesR.length →
      t.imageFilenamesL.length = t.imageFilenamesR.length →
      (s.imageFilenamesL.zip s.imageFilenamesR).Perm (t.imageFilenamesL.zip t.imageFilenamesR) →
      sampleCount s.trace = sampleCount t.trace →
      stereoDetection w r s = .ok s1 → stereoDetection w r t = .ok t1 →
      sampleCount s1.trace = sampleCount t1.trace) := by
  have hmono : ∀ (r : Request) (s : MonoState), s.imageFilenames ≠ [] →
      ∃ s1, monoDetection w r s = .ok s1 ∧
        sampleCount s1.trace =
          sampleCount s.trace + (s.imageFilenames.filter w.cornersFound).length := by
    intro r s hne
    obtain ⟨s1, h1, _, _, h4, _⟩ := monoDetection_spec w r s hne
    exact ⟨s1, h1, by rw [sampleCount_of_samples h4, List.length_map]⟩
  have hstereo : ∀ (r : StereoRequest) (s : StereoState),
      s.imageFilenamesL.length = s.imageFilenamesR.length →
      ∃ s1, stereoDetection w r s = .ok s1 ∧
        sampleCount s1.trace = sampleCount s.trace +
          ((s.imageFilenamesL.zip s.imageFilenamesR).filter (bothFound w)).length := by
    intro r s hlen
    obtain ⟨s1, h1, _, _, _, _, h6, _⟩ := stereoDetection_spec w r s hlen
    exact ⟨s1, h1, by rw [sampleCount_of_samples h6, List.length_map]⟩
  refine ⟨hmono, ?_, ?_, ?_, ?_, ?_⟩
  · intro r s hlen
    obtain ⟨s1, h1, h2⟩ := hstereo r s hlen
    refine ⟨s1, h1, h2, ?_⟩
    intro hnone
    rw [h2, List.filter_eq_nil_iff.mpr]
    · rfl
    · intro p hp hb
      simp only [bothFound, Bool.and_eq_true] at hb
      exact hnone p hp hb
  · intro r s h
    obtain ⟨_, _, _, _, _, _, _, h6, _⟩ := monoFront_ok h
    rw [sampleCount_eq, h6, List.length_map]
  · intro r s h
    obtain ⟨_, _, _, _, _, _, _, _, _, _, _, h11, _⟩ := stereoFront_ok h
    rw [sampleCount_eq, h11, List.length_map]
    rfl
  · intro r s t s1 t1 hperm hcount hs ht
    have hne : s.imageFilenames ≠ [] := by
      intro he
      rw [monoDetection_empty w r s he] at hs
      simp at hs
    have hne1 : t.imageFilenames ≠ [] := by
      intro he
      rw [monoDetection_empty w r t he] at ht
      simp at ht
    obtain ⟨s2, h1, h2⟩ := hmono r s hne
    obtain ⟨t2, h3, h4⟩ := hmono r t hne1
    rw [hs] at h1
    rw [ht] at h3
    simp only [Except.ok.injEq] at h1 h3
    subst h1 h3
    rw [h2, h4, hcount, (hperm.filter w.cornersFound).length_eq]
  · intro r s t s1 t1 hlen hlen1 hperm hcount hs ht
    obtain ⟨s2, h1, h2⟩ := hstereo r s hlen
    obtain ⟨t2, h3, h4⟩ := hstereo r t hlen1
    rw [hs] at h1
    rw [ht] at h3
    simp only [Except.ok.injEq] at h1 h3
    subst h1 h3
    rw [h2, h4, hcount, (hperm.filter (bothFound w)).length_eq]

/-- Witness of C3: two detected candidates give two samples, and a pair of which
only the left image is detected gives none. -/
theorem C3_accumulation_count_witness :
    (exMonoState.imageFilenames ≠ [] ∧
      ∃ s1, monoDetection exWorld exRequest exMonoState = .ok s1 ∧
        sampleCount s1.trace = sampleCount exMonoState.trace +
          (exMonoState.imageFilenames.filter exWorld.cornersFound).length) ∧
    (exStereoState.imageFilenamesL.length = exStereoState.imageFilenamesR.length ∧
      ∃ s1, stereoDetection exLeftOnlyWorld exStereoRequest exStereoState = .ok s1 ∧
        sampleCount s1.trace = sampleCount exStereoState.trace) := by
  refine ⟨⟨by decide, (C3_accumulation_count exWorld).1 exRequest exMonoState (by decide)⟩,
    by decide, ?_⟩
  obtain ⟨s1, h1, _, h3⟩ :=
    (C3_accumulation_count exLeftOnlyWorld).2.1 exStereoRequest exStereoState (by decide)
  exact ⟨s1, h1, h3 (by decide)⟩

/-! ## C4 -/

theorem calibrate_not_early {t : List Event} (h : ∀ e ∈ t, isEarly e = true) :
    Event.calibrate ∉ t := by
  intro hc
  have := h _ hc
  simp [isEarly] at this

theorem calibrate_mem_monoCalibEvents (w : World) (r : Request) :
    Event.calibrate ∈ monoCalibEvents w r := by
  simp [monoCalibEvents]

theorem calibrate_mem_stereoCalibEvents (w : World) (r : StereoRequest) :
    Event.calibrate ∈ stereoCalibEvents w r := by
  simp [stereoCalibEvents]

/-- C4. Sufficiency Gate. A session of either driver that completes the
Detection Loop terminates with `InsufficientSamples` (exit code 1, without
calibrating) if and only if the sample count is below 10, and otherwise
calibrates; it then succeeds, except for the stereo session in which
`fs::absolute` throws on the verbose line that follows the writes. The sample
count being the number of successful detections, exactly 9 of them fail and
exactly 10 proceed to calibration, whatever the board geometry and for one
camera as for two. Ten candidates with nine detections end with
`InsufficientSamples`, ten candidates with ten detections succeed. -/
theorem C4_sufficiency_gate (w : World) :
    (∀ (r : Request) (s : MonoState), monoFront w r = .ok s →
      ((intrinsicSession w r).term = .failure .InsufficientSamples ↔
        sampleCount s.trace < 10) ∧
      (sampleCount s.trace < 10 →
        (intrinsicSession w r).term.exitCode = some 1 ∧
          Event.calibrate ∉ (intrinsicSession w r).trace) ∧
      (¬ sampleCount s.trace < 10 →
        (intrinsicSession w r).term = .success ∧
          Event.calibrate ∈ (intrinsicSession w r).trace) ∧
      ((s.imageFilenames.filter w.cornersFound).length = 9 →
        (intrinsicSession w r).term = .failure .InsufficientSamples) ∧
      ((s.imageFilenames.filter w.cornersFound).length = 10 →
        (intrinsicSession w r).term = .success)) ∧
    (∀ (r : StereoRequest) (s : StereoState), stereoFront w r = .ok s →
      ((stereoSession w r).term = .failure .InsufficientSamples ↔
        sampleCount s.trace < 10) ∧
      (sampleCount s.trace < 10 →
        (stereoSession w r).term.exitCode = some 1 ∧
          Event.calibrate ∉ (stereoSession w r).trace) ∧
      (¬ sampleCount s.trace < 10 →
        Event.calibrate ∈ (stereoSession w r).trace ∧
          (absoluteThrows w r = false → (stereoSession w r).term = .success) ∧
          (absoluteThrows w r = true →
            (stereoSession w r).term = .uncaught .filesystem_error)) ∧
      (((s.imageFilenamesL.zip s.imageFilenamesR).filter
          (fun p => w.cornersFound p.1 && w.cornersFound p.2)).length = 9 →
        (stereoSession w r).term = .failure .InsufficientSamples) ∧
      (((s.imageFilenamesL.zip s.imageFilenamesR).filter
          (fun p => w.cornersFound p.1 && w.cornersFound p.2)).length = 10 →
        Event.calibrate ∈ (stereoSession w r).trace ∧
          (absoluteThrows w r = false → (stereoSession w r).term = .success))) ∧
    ((intrinsicSession exNineWorld exReviewRequest).term = .failure .InsufficientSamples ∧
      (intrinsicSession exTenWorld exReviewRequest).term = .success) := by
  refine ⟨?_, ?_, by decide⟩
  · intro r s h
    have hcount : sampleCount s.trace = (s.imageFilenames.filter w.cornersFound).length := by
      obtain ⟨_, _, _, _, _, _, _, h6, _⟩ := monoFront_ok h
      rw [sampleCount_eq, h6, List.length_map]
    have hearly : ∀ e ∈ s.trace, isEarly e = true := by
      obtain ⟨_, _, _, _, _, _, _, _, h7⟩ := monoFront_ok h
      exact h7
    have hses := intrinsicSession_of_front h
    have hlt : sampleCount s.trace < 10 →
        (intrinsicSession w r).term = .failure .InsufficientSamples ∧
          Event.calibrate ∉ (intrinsicSession w r).trace := by
      intro hc
      rw [hses, if_pos hc]
      refine ⟨rfl, ?_⟩
      intro hm
      rcases List.mem_append.mp hm with h1 | h1
      · exact calibrate_not_early hearly h1
      · simp at h1
    have hge : ¬ sampleCount s.trace < 10 →
        (intrinsicSession w r).term = .success ∧
          Event.calibrate ∈ (intrinsicSession w r).trace := by
      intro hc
      rw [hses, if_neg hc]
      exact ⟨rfl, List.mem_append_left _
        (List.mem_append_right _ (calibrate_mem_monoCalibEvents w r))⟩
    refine ⟨⟨fun ht => ?_, fun hc => (hlt hc).1⟩, fun hc => ?_, hge, fun h9 => ?_, fun h10 => ?_⟩
    · by_contra hc
      rw [(hge hc).1] at ht
      simp at ht
    · refine ⟨?_, (hlt hc).2⟩
      rw [(hlt hc).1]; rfl
    · exact (hlt (by omega)).1
    · exact (hge (by omega)).1
  · intro r s h
    have hcount : sampleCount s.trace =
        ((s.imageFilenamesL.zip s.imageFilenamesR).filter
          (fun p => w.cornersFound p.1 && w.cornersFound p.2)).length := by
      obtain ⟨_, _, _, _, _, _, _, _, _, _, _, h11, _⟩ := stereoFront_ok h
      rw [sampleCount_eq, h11, List.length_map]
      rfl
    have hearly : ∀ e ∈ s.trace, isEarly e = true := by
      obtain ⟨_, _, _, _, _, _, _, _, _, _, _, _, h12⟩ := stereoFront_ok h
      exact h12
    have hses := stereoSession_of_front h
    have hlt : sampleCount s.trace < 10 →
        (stereoSession w r).term = .failure .InsufficientSamples ∧
          Event.calibrate ∉ (stereoSession w r).trace := by
      intro hc
      rw [hses, if_pos hc]
      refine ⟨rfl, ?_⟩
      intro hm
      rcases List.mem_append.mp hm with h1 | h1
      · exact calibrate_not_early hearly h1
      · simp at h1
    have hge : ¬ sampleCount s.trace < 10 →
        Event.calibrate ∈ (stereoSession w r).trace ∧
          (absoluteThrows w r = false → (stereoSession w r).term = .success) ∧
          (absoluteThrows w r = true →
            (stereoSession w r).term = .uncaught .filesystem_error) := by
      intro hc
      rw [hses, if_neg hc]
      by_cases ha : absoluteThrows w r = true
      · rw [if_pos ha]
        exact ⟨List.mem_append_right _ (calibrate_mem_stereoCalibEvents w r),
          fun hf => by rw [ha] at hf; simp at hf, fun _ => rfl⟩
      · rw [if_neg ha]
        exact ⟨List.mem_append_left _
          (List.mem_append_right _ (calibrate_mem_stereoCalibEvents w r)),
          fun _ => rfl, fun ht => absurd ht ha⟩
    refine ⟨⟨fun ht => ?_, fun hc => (hlt hc).1⟩, fun hc => ?_, hge, fun h9 => ?_, fun h10 => ?_⟩
    · by_contra hc
      obtain ⟨_, h1, h2⟩ := hge hc
      by_cases ha : absoluteThrows w r = true
      · rw [h2 ha] at ht
        simp at ht
      · rw [h1 (by simpa using ha)] at ht
        simp at ht
    · refine ⟨?_, (hlt hc).2⟩
      rw [(hlt hc).1]; rfl
    · exact (hlt (by omega)).1
    · exact ⟨(hge (by omega)).1, (hge (by omega)).2.1⟩

/-- Witness of C4: the example session accumulates 2 samples and is stopped by
the gate. -/
theorem C4_sufficiency_gate_witness :
    monoFront exWorld exRequest = .ok exMonoFrontState ∧
    ((intrinsicSession exWorld exRequest).term = .failure .InsufficientSamples ↔
      sampleCount exMonoFrontState.trace < 10) :=
  ⟨rfl, ((C4_sufficiency_gate exWorld).1 exRequest exMonoFrontState rfl).1⟩

/-! ## C5 -/

/-- C6 at the failing input: a left and a right image whose tails differ,
`verbose` off. The stereo session ends with `StereoPairMismatch`, exit code 1,
and has emitted no line prefixed `# ERROR:`, where the claim requires one. -/
theorem C6_pair_mismatch_unreported :
    (stereoSession exMismatchWorld exQuietStereoRequest).term = .failure .StereoPairMismatch ∧
    (stereoSession exMismatchWorld exQuietStereoRequest).term.exitCode = some 1 ∧
    ¬ ∃ e ∈ (stereoSession exMismatchWorld exQuietStereoRequest).trace,
      isErrorLine e = true := by
  decide

theorem error_line_last (t : List Event) (text : Str)
    (h : "# ERROR:".toList.isPrefixOf text = true) :
    ∃ e ∈ t ++ [Event.stderr text], isErrorLine e = true :=
  ⟨_, List.mem_append_right _ (List.mem_singleton_self _), h⟩

/-- The sibling exits: every terminal failure of the mono session has emitted a
line prefixed `# ERROR:`; so has every terminal failure of the stereo session
other than `StereoPairMismatch`, and `StereoPairMismatch` in verbose mode. -/
theorem failures_reported_elsewhere (w : World) :
    (∀ (r : Request) (f : Failure), (intrinsicSession w r).term = .failure f →
      ∃ e ∈ (intrinsicSession w r).trace, isErrorLine e = true) ∧
    (∀ (r : StereoRequest) (f : Failure), (stereoSession w r).term = .failure f →
      (f ≠ .StereoPairMismatch ∨ r.verbose = true) →
      ∃ e ∈ (stereoSession w r).trace, isErrorLine e = true) := by
  refine ⟨fun r f ht => ?_, fun r f ht hcond => ?_⟩
  · cases hf : monoFront w r with
    | error o =>
      rw [intrinsicSession_of_error hf] at ht ⊢
      obtain ⟨_, hcase⟩ := monoFront_error hf
      rcases hcase with ⟨x, hx⟩ | ⟨_, he⟩
      · rw [hx] at ht; simp at ht
      · exact he
    | ok s =>
      rw [intrinsicSession_of_front hf] at ht ⊢
      by_cases hc : sampleCount s.trace < 10
      · rw [if_pos hc]
        exact error_line_last _ _ (by decide)
      · rw [if_neg hc] at ht
        simp at ht
  · cases hf : stereoFront w r with
    | error o =>
      rw [stereoSession_of_error hf] at ht ⊢
      obtain ⟨_, hcase⟩ := stereoFront_error hf
      rcases hcase with ⟨x, hx⟩ | ⟨_, he⟩ | ⟨hspm, hv, _⟩
      · rw [hx] at ht; simp at ht
      · exact he
      · rcases hcond with hne | hverb
        · rw [hspm] at ht
          simp only [Termination.failure.injEq] at ht
          exact absurd ht.symm hne
        · exact hv hverb
    | ok s =>
      rw [stereoSession_of_front hf] at ht ⊢
      by_cases hc : sampleCount s.trace < 10
      · rw [if_pos hc]
        exact error_line_last _ _ (by decide)
      · rw [if_neg hc] at ht
        by_cases ha : absoluteThrows w r = true
        · rw [if_pos ha] at ht
          simp at ht
        · rw [if_neg ha] at ht
          simp at ht

/-! ## C7 -/

/-- Counterexample to C7 as stated: with the model `fisheye` and a missing input
directory, both sessions terminate with `InputDirectoryNotFound`: the directory
is checked before the model. -/
theorem C7_counterexample :
    intrinsicSession exMissingWorld exFisheyeRequest =
      ⟨.failure .InputDirectoryNotFound,
        [.stderr "# ERROR: Cannot find input directory images.".toList]⟩ ∧
    stereoSession exMissingWorld exFisheyeStereoRequest =
      ⟨.failure .InputDirectoryNotFound,
        [.stderr "# ERROR: Cannot find input directory images.".toList]⟩ ∧
    (intrinsicSession exMissingWorld exFisheyeRequest).term ≠ .failure .UnknownCameraModel ∧
    (stereoSession exMissingWorld exFisheyeStereoRequest).term ≠
      .failure .UnknownCameraModel := by
  decide

theorem selectModel_none {cameraModel : Str} (h1 : cameraModel ≠ "kannala-brandt".toList)
    (h2 : cameraModel ≠ "mei".toList) (h3 : cameraModel ≠ "pinhole".toList) :
    selectModel cameraModel = none := by
  unfold selectModel
  rw [if_neg (fun h => h1 ((strCompare_eq_zero_iff _ _).mp h)),
    if_neg (fun h => h2 ((strCompare_eq_zero_iff _ _).mp h)),
    if_neg (fun h => h3 ((strCompare_eq_zero_iff _ _).mp h))]

/-- C7, amended. When the input path exists (as a directory or not) and the
camera-model name is none of `kannala-brandt`, `mei`, `pinhole`, the session of
either driver terminates with `UnknownCameraModel`, exit code 1, and its whole
trace is the one error line: the directory is not scanned and no other
diagnostic precedes it. -/
theorem C7_unknown_model_rejected (w : World) :
    (∀ r : Request, w.input ≠ .missing → r.cameraModel ≠ "kannala-brandt".toList →
      r.cameraModel ≠ "mei".toList → r.cameraModel ≠ "pinhole".toList →
      intrinsicSession w r = ⟨.failure .UnknownCameraModel,
        [.stderr ("# ERROR: Unknown camera model: ".toList ++ r.cameraModel)]⟩ ∧
      (intrinsicSession w r).term.exitCode = some 1) ∧
    (∀ r : StereoRequest, w.input ≠ .missing → r.cameraModel ≠ "kannala-brandt".toList →
      r.cameraModel ≠ "mei".toList → r.cameraModel ≠ "pinhole".toList →
      stereoSession w r = ⟨.failure .UnknownCameraModel,
        [.stderr ("# ERROR: Unknown camera model: ".toList ++ r.cameraModel)]⟩ ∧
      (stereoSession w r).term.exitCode = some 1) := by
  refine ⟨fun r hw h1 h2 h3 => ?_, fun r hw h1 h2 h3 => ?_⟩
  · have hd := monoDiscovery_unknown w r hw (selectModel_none h1 h2 h3)
    have hs : intrinsicSession w r = ⟨.failure .UnknownCameraModel,
        [.stderr ("# ERROR: Unknown camera model: ".toList ++ r.cameraModel)]⟩ := by
      apply intrinsicSession_of_error
      simp only [monoFront, hd]
    exact ⟨hs, by rw [hs]; rfl⟩
  · have hd := stereoDiscovery_unknown w r hw (selectModel_none h1 h2 h3)
    have hs : stereoSession w r = ⟨.failure .UnknownCameraModel,
        [.stderr ("# ERROR: Unknown camera model: ".toList ++ r.cameraModel)]⟩ := by
      apply stereoSession_of_error
      simp only [stereoFront, hd]
    exact ⟨hs, by rw [hs]; rfl⟩

/-- Witness of C7, amended: `fisheye` on the example directory. -/
theorem C7_unknown_model_rejected_witness :
    (exWorld.input ≠ .missing ∧ exFisheyeRequest.cameraModel ≠ "kannala-brandt".toList ∧
      exFisheyeRequest.cameraModel ≠ "mei".toList ∧
      exFisheyeRequest.cameraModel ≠ "pinhole".toList) ∧
    intrinsicSession exWorld exFisheyeRequest = ⟨.failure .UnknownCameraModel,
      [.stderr ("# ERROR: Unknown camera model: ".toList ++ exFisheyeRequest.cameraModel)]⟩ :=
  ⟨⟨by decide, by decide, by decide, by decide⟩,
    ((C7_unknown_model_rejected exWorld).1 exFisheyeRequest (by decide) (by decide)
      (by decide) (by decide)).1⟩

/-! ## C8 -/

theorem mem_matchingEntries {pre ext : Str} {entries : List DirEntry} {e : DirEntry}
    (h : e ∈ matchingEntries pre ext entries) : e ∈ entries ∧ pre <+: e.name := by
  simp only [matchingEntries, List.mem_filter, Bool.and_eq_true, decide_eq_true_eq] at h
  exact ⟨h.1, h.2.1.2⟩

theorem prefix_append_drop {pre name : Str} (h : pre <+: name) :
    pre ++ name.drop pre.length = name :=
  List.prefix_iff_eq_append.mp h

theorem matchingPaths_eq_tails (dir pre ext : Str) (entries : List DirEntry) :
    matchingPaths dir pre ext entries =
      ((tailsOf pre ext entries).map (fun t => pre ++ t)).map (fun a => dirPart dir ++ a) := by
  unfold matchingPaths tailsOf
  rw [List.map_map, List.map_map]
  apply List.map_congr_left
  intro e he
  simp only [Function.comp_apply]
  rw [pathAppend_eq, prefix_append_drop (mem_matchingEntries he).2]

theorem tailsOf_no_separator {pre ext : Str} {entries : List DirEntry}
    (hsep : ∀ e ∈ entries, '/' ∉ e.name) :
    ∀ t ∈ tailsOf pre ext entries, '/' ∉ pre ++ t := by
  intro t ht
  simp only [tailsOf, List.mem_map] at ht
  obtain ⟨e, he, rfl⟩ := ht
  rw [prefix_append_drop (mem_matchingEntries he).2]
  exact hsep e (mem_matchingEntries he).1

theorem tailsOf_nodup {pre ext : Str} {entries : List DirEntry}
    (hnodup : (entries.map DirEntry.name).Nodup) : (tailsOf pre ext entries).Nodup := by
  have hnames : ((matchingEntries pre ext entries).map DirEntry.name).Nodup :=
    hnodup.sublist (List.Sublist.map _ (List.filter_sublist _))
  have heq : (matchingEntries pre ext entries).map DirEntry.name =
      (tailsOf pre ext entries).map (fun t => pre ++ t) := by
    unfold tailsOf
    rw [List.map_map]
    apply List.map_congr_left
    intro e he
    simp only [Function.comp_apply]
    rw [prefix_append_drop (mem_matchingEntries he).2]
  rw [heq] at hnames
  exact List.Nodup.of_map _ hnames

theorem tailOf_resolved (dir pre t : Str) (h : '/' ∉ pre ++ t) :
    tailOf pre (dirPart dir ++ (pre ++ t)) = t := by
  unfold tailOf
  rw [pathFilename_append (dirPart_getLast dir) h, List.drop_left]

theorem map_tailOf_resolved (dir pre : Str) (T : List Str) (h : ∀ t ∈ T, '/' ∉ pre ++ t) :
    ((T.map (fun t => pre ++ t)).map (fun a => dirPart dir ++ a)).map (tailOf pre) = T := by
  rw [List.map_map, List.map_map]
  conv_rhs => rw [← List.map_id T]
  apply List.map_congr_left
  intro t ht
  simp only [Function.comp_apply, id_eq]
  exact tailOf_resolved dir pre t (h t ht)

/-- The tails of the resolved paths are the tails of the matching entries. -/
theorem matchingPaths_tails {dir pre ext : Str} {entries : List DirEntry}
    (hsep : ∀ e ∈ entries, '/' ∉ e.name) :
    (matchingPaths dir pre ext entries).map (tailOf pre) = tailsOf pre ext entries := by
  rw [matchingPaths_eq_tails]
  exact map_tailOf_resolved dir pre _ (tailsOf_no_separator hsep)

/-- Sorting the resolved paths sorts their tails. -/
theorem stdSort_matchingPaths_tails {dir pre ext : Str} {entries : List DirEntry}
    (hsep : ∀ e ∈ entries, '/' ∉ e.name) :
    (stdSort (matchingPaths dir pre ext entries)).map (tailOf pre) =
      stdSort (tailsOf pre ext entries) := by
  rw [matchingPaths_eq_tails, stdSort_map_append, stdSort_map_append]
  apply map_tailOf_resolved
  intro t ht
  exact tailsOf_no_separator hsep t (mem_stdSort.mp ht)

theorem stdSort_eq_iff_perm (u v : List Str) : stdSort u = stdSort v ↔ u.Perm v := by
  constructor
  · intro h
    exact (stdSort_perm u).symm.trans (h ▸ stdSort_perm v)
  · exact stdSort_eq_of_perm

theorem matchingPaths_perm (dir pre ext : Str) {entries entries1 : List DirEntry}
    (h : entries1.Perm entries) :
    (matchingPaths dir pre ext entries1).Perm (matchingPaths dir pre ext entries) :=
  (h.filter _).map _

/-- C8. Independent sorting is a correct pairing. For a listing of pairwise
distinct file names (without a separator) whose resolved left and right lists
are non-empty and of equal length, the Pair Matcher passes if and only if the
set of left tails equals the set of right tails; and for every other
enumeration order of the same listing the discovery returns, the verdict is
the same and, when the matcher passes, so are the sorted left and right lists
and hence the list of pairs. -/
theorem C8_independent_sorting (w : World) (r : StereoRequest) (entries : List DirEntry)
    (s : StereoState) (hin : w.input = .directory entries)
    (hext : ∀ e ∈ entries, e.isRegularFile = true → r.fileExtension.length ≤ e.name.length)
    (hsep : ∀ e ∈ entries, '/' ∉ e.name) (hnodup : (entries.map DirEntry.name).Nodup)
    (hs : stereoDiscovery w r = .ok s)
    (hneL : s.imageFilenamesL ≠ []) (hneR : s.imageFilenamesR ≠ [])
    (hlen : s.imageFilenamesL.length = s.imageFilenamesR.length) :
    ((∃ s1, stereoPairing r s = .ok s1) ↔
      ∀ t, t ∈ s.imageFilenamesL.map (tailOf r.prefixL) ↔
        t ∈ s.imageFilenamesR.map (tailOf r.prefixR)) ∧
    (∀ (w1 : World) (entries1 : List DirEntry), w1.input = .directory entries1 →
      entries1.Perm entries →
      ∃ t, stereoDiscovery w1 r = .ok t ∧
        ((∃ t1, stereoPairing r t = .ok t1) ↔ (∃ s1, stereoPairing r s = .ok s1)) ∧
        ∀ s1 t1, stereoPairing r s = .ok s1 → stereoPairing r t = .ok t1 →
          t1.imageFilenamesL = s1.imageFilenamesL ∧ t1.imageFilenamesR = s1.imageFilenamesR ∧
          t1.imageFilenamesL.zip t1.imageFilenamesR =
            s1.imageFilenamesL.zip s1.imageFilenamesR) := by
  obtain ⟨entries0, m, hin0, hm, hs0⟩ := stereoDiscovery_ok hs
  rw [hin] at hin0
  cases hin0
  have hL : s.imageFilenamesL = matchingPaths r.inputDir r.prefixL r.fileExtension entries := by
    rw [hs0]
  have hR : s.imageFilenamesR = matchingPaths r.inputDir r.prefixR r.fileExtension entries := by
    rw [hs0]
  have hverdict := (stereoPairing_verdict w r entries s hin hsep hs hneL hneR hlen).1
  constructor
  · rw [hverdict]
    have hag : (∀ i, i < s.imageFilenamesL.length →
        ((stdSort s.imageFilenamesL)[i]?).map (tailOf r.prefixL) =
          ((stdSort s.imageFilenamesR)[i]?).map (tailOf r.prefixR)) ↔
        (stdSort s.imageFilenamesL).map (tailOf r.prefixL) =
          (stdSort s.imageFilenamesR).map (tailOf r.prefixR) := by
      have h := tailsAgree_iff_map_eq r.prefixL r.prefixR (stdSort s.imageFilenamesL)
        (stdSort s.imageFilenamesR) (by rw [stdSort_length, stdSort_length, hlen])
      rw [stdSort_length] at h
      exact h
    rw [hag, hL, hR, stdSort_matchingPaths_tails hsep, stdSort_matchingPaths_tails hsep,
      matchingPaths_tails hsep, matchingPaths_tails hsep, stdSort_eq_iff_perm]
    exact List.perm_ext_iff_of_nodup (tailsOf_nodup hnodup) (tailsOf_nodup hnodup)
  · intro w1 entries1 hin1 hperm
    have hext1 : ∀ e ∈ entries1, e.isRegularFile = true →
        r.fileExtension.length ≤ e.name.length := fun e he => hext e (hperm.mem_iff.mp he)
    have hsep1 : ∀ e ∈ entries1, '/' ∉ e.name := fun e he => hsep e (hperm.mem_iff.mp he)
    have hd := stereoDiscovery_directory w1 r m entries1 hin1 hm
    rw [stereoScan_returns r entries1 _ hext1] at hd
    obtain ⟨entries2, _, hin2, _, ht0⟩ := stereoDiscovery_ok hd
    rw [hin1] at hin2
    cases hin2
    refine ⟨_, hd, ?_⟩
    generalize entries1.foldl (stereoStep r)
      ⟨[modelInfo m, .directory_iterator r.inputDir], [], [], true, [], [], [], [], [], []⟩ = t
      at hd ht0 ⊢
    have hpL : t.imageFilenamesL.Perm s.imageFilenamesL := by
      rw [ht0, hL]
      exact matchingPaths_perm _ _ _ hperm
    have hpR : t.imageFilenamesR.Perm s.imageFilenamesR := by
      rw [ht0, hR]
      exact matchingPaths_perm _ _ _ hperm
    have hsL : stdSort t.imageFilenamesL = stdSort s.imageFilenamesL := stdSort_eq_of_perm hpL
    have hsR : stdSort t.imageFilenamesR = stdSort s.imageFilenamesR := stdSort_eq_of_perm hpR
    have hneL1 : t.imageFilenamesL ≠ [] := fun h => hneL (by
      have := hpL.length_eq
      rw [h] at this
      exact List.length_eq_zero.mp this.symm)
    have hneR1 : t.imageFilenamesR ≠ [] := fun h => hneR (by
      have := hpR.length_eq
      rw [h] at this
      exact List.length_eq_zero.mp this.symm)
    have hlen1 : t.imageFilenamesL.length = t.imageFilenamesR.length := by
      rw [hpL.length_eq, hpR.length_eq, hlen]
    have hverdict1 := (stereoPairing_verdict w1 r entries1 t hin1 hsep1 hd hneL1 hneR1 hlen1).1
    refine ⟨?_, ?_⟩
    · rw [hverdict, hverdict1, hsL, hsR, hpL.length_eq]
    · intro s1 t1 hp hp1
      obtain ⟨_, _, _, h4, h5, _⟩ := stereoPairing_ok hp
      obtain ⟨_, _, _, h6, h7, _⟩ := stereoPairing_ok hp1
      have e1 : t1.imageFilenamesL = s1.imageFilenamesL := by rw [h6, h4, hsL]
      have e2 : t1.imageFilenamesR = s1.imageFilenamesR := by rw [h7, h5, hsR]
      exact ⟨e1, e2, by rw [e1, e2]⟩

/-- Witness of C8: one left and one right image of the example listing. -/
theorem C8_independent_sorting_witness :
    (exWorld.input = .directory exEntries ∧
      (∀ e ∈ exEntries, e.isRegularFile = true →
        exStereoRequest.fileExtension.length ≤ e.name.length) ∧
      (∀ e ∈ exEntries, '/' ∉ e.name) ∧ (exEntries.map DirEntry.name).Nodup ∧
      stereoDiscovery exWorld exStereoRequest = .ok exStereoState ∧
      exStereoState.imageFilenamesL ≠ [] ∧ exStereoState.imageFilenamesR ≠ [] ∧
      exStereoState.imageFilenamesL.length = exStereoState.imageFilenamesR.length) ∧
    ((∃ s1, stereoPairing exStereoRequest exStereoState = .ok s1) ↔
      ∀ t, t ∈ exStereoState.imageFilenamesL.map (tailOf exStereoRequest.prefixL) ↔
        t ∈ exStereoState.imageFilenamesR.map (tailOf exStereoRequest.prefixR)) :=
  ⟨⟨rfl, by decide, by decide, by decide, rfl, by decide, by decide, by decide⟩,
    (C8_independent_sorting exWorld exStereoRequest exEntries exStereoState rfl (by decide)
      (by decide) (by decide) rfl (by decide) (by decide) (by decide)).1⟩

/-! ## C9 -/

theorem pathAppend_injective (dir : Str) {a b : Str} (h : pathAppend dir a = pathAppend dir b) :
    a = b := by
  rw [pathAppend_eq, pathAppend_eq] at h
  exact List.append_cancel_left h

/-- Under the extension precondition a mono session does not end with an
uncaught `std::out_of_range`. -/
theorem intrinsicSession_no_out_of_range (w : World) (r : Request) (entries : List DirEntry)
    (hin : w.input = .directory entries)
    (hext : ∀ e ∈ entries, e.isRegularFile = true → r.fileExtension.length ≤ e.name.length) :
    (intrinsicSession w r).term ≠ .uncaught .out_of_range := by
  cases hm : selectModel r.cameraModel with
  | none =>
    have hd := monoDiscovery_unknown w r (by simp [hin]) hm
    have hf : monoFront w r = .error ⟨.failure .UnknownCameraModel,
        [.stderr ("# ERROR: Unknown camera model: ".toList ++ r.cameraModel)]⟩ := by
      simp only [monoFront, hd]
    rw [intrinsicSession_of_error hf]
    simp
  | some m =>
    have hd := monoDiscovery_directory w r m entries hin hm
    rw [monoScan_returns r entries _ hext] at hd
    by_cases hne : (entries.foldl (monoStep r)
        ⟨[modelInfo m, .directory_iterator r.inputDir], [], [], [], []⟩).imageFilenames = []
    · have hf : monoFront w r = monoDetection w r (entries.foldl (monoStep r)
          ⟨[modelInfo m, .directory_iterator r.inputDir], [], [], [], []⟩) := by
        simp only [monoFront, hd]
      rw [monoDetection_empty w r _ hne] at hf
      rw [intrinsicSession_of_error hf]
      simp
    · obtain ⟨s1, h1, _⟩ := monoDetection_spec w r _ hne
      have hf : monoFront w r = .ok s1 := by
        simp only [monoFront, hd]
        exact h1
      rw [intrinsicSession_of_front hf]
      by_cases hc : sampleCount s1.trace < 10
      · rw [if_pos hc]; simp
      · rw [if_neg hc]; simp

/-- Under the extension and separator preconditions a stereo session does not
end with an uncaught `std::out_of_range`. -/
theorem stereoSession_no_out_of_range (w : World) (r : StereoRequest)
    (entries : List DirEntry) (hin : w.input = .directory entries)
    (hext : ∀ e ∈ entries, e.isRegularFile = true → r.fileExtension.length ≤ e.name.length)
    (hsep : ∀ e ∈ entries, '/' ∉ e.name) :
    (stereoSession w r).term ≠ .uncaught .out_of_range := by
  cases hm : selectModel r.cameraModel with
  | none =>
    have hd := stereoDiscovery_unknown w r (by simp [hin]) hm
    have hf : stereoFront w r = .error ⟨.failure .UnknownCameraModel,
        [.stderr ("# ERROR: Unknown camera model: ".toList ++ r.cameraModel)]⟩ := by
      simp only [stereoFront, hd]
    rw [stereoSession_of_error hf]
    simp
  | some m =>
    have hd := stereoDiscovery_directory w r m entries hin hm
    rw [stereoScan_returns r entries _ hext] at hd
    cases hp : stereoPairing r (entries.foldl (stereoStep r)
        ⟨[modelInfo m, .directory_iterator r.inputDir], [], [], true, [], [], [], [], [], []⟩) with
    | error o =>
      rw [stereoSession_of_pairing_error hd hp]
      rcases stereoPairing_error hp with ⟨_, rfl⟩ | ⟨_, _, _, rfl⟩ | ⟨_, _, hlen, hcase, _⟩
      · simp
      · simp
      · rcases hcase with ⟨ht, _⟩ | ⟨_, hloop⟩
        · rw [ht]; simp
        · obtain ⟨s2, hret⟩ := stereoPairing_no_throw hin hsep hd hlen
          rw [hret] at hloop
          simp at hloop
    | ok s1 =>
      rcases stereoSession_term_of_pairing_ok hd hp with h | h | h <;> rw [h] <;> simp

/-- C9. No out-of-range string access under the extension precondition. When
every regular file of the listing has a name at least as long as the extension
(the names being file names, without a separator), then for prefixes of any
length: the prefix test at offset 0 never throws and gives a non-zero result on
a name shorter than the prefix; the discovery of either driver returns, and a
name shorter than the prefix is not among the candidates; every file name that
reaches the Pair Matcher is at least as long as its camera's prefix, so that
the tail comparison of any left with any right candidate is in range; and
neither session ends with an uncaught `std::out_of_range`. -/
theorem C9_no_out_of_range (w : World) (entries : List DirEntry) (m : ModelType) (ext : Str)
    (hin : w.input = .directory entries)
    (hext : ∀ e ∈ entries, e.isRegularFile = true → ext.length ≤ e.name.length)
    (hsep : ∀ e ∈ entries, '/' ∉ e.name) :
    (∀ name pre : Str, ∃ c, compare3 name 0 pre.length pre = some c ∧
      (name.length < pre.length → c ≠ 0)) ∧
    (∀ r : Request, r.fileExtension = ext →
      (intrinsicSession w r).term ≠ .uncaught .out_of_range ∧
      (selectModel r.cameraModel = some m →
        ∃ s, monoDiscovery w r = .ok s ∧
          ∀ e ∈ entries, e.name.length < r.prefixM.length →
            pathAppend r.inputDir e.name ∉ s.imageFilenames)) ∧
    (∀ r : StereoRequest, r.fileExtension = ext →
      (stereoSession w r).term ≠ .uncaught .out_of_range ∧
      (selectModel r.cameraModel = some m →
        ∃ s, stereoDiscovery w r = .ok s ∧
          (∀ p ∈ s.imageFilenamesL, r.prefixL.length ≤ (pathFilename p).length) ∧
          (∀ p ∈ s.imageFilenamesR, r.prefixR.length ≤ (pathFilename p).length) ∧
          (∀ pathL ∈ stdSort s.imageFilenamesL, ∀ pathR ∈ stdSort s.imageFilenamesR,
            ∃ c, compare5 (pathFilename pathL) r.prefixL.length
              (sizeSub (pathFilename pathL).length r.prefixL.length) (pathFilename pathR)
              r.prefixR.length (sizeSub (pathFilename pathR).length r.prefixR.length) =
                some c) ∧
          ∀ o, stereoPairing r s = .error o → o.term ≠ .uncaught .out_of_range)) := by
  refine ⟨fun name pre => ?_, fun r hr => ?_, fun r hr => ?_⟩
  · obtain ⟨c, hc, hiff⟩ := compare3_prefix name pre
    refine ⟨c, hc, fun hlt h0 => ?_⟩
    have := (hiff.mp h0).length_le
    omega
  · subst hr
    refine ⟨intrinsicSession_no_out_of_range w r entries hin hext, fun hm => ?_⟩
    have hd := monoDiscovery_directory w r m entries hin hm
    rw [monoScan_returns r entries _ hext] at hd
    refine ⟨_, hd, ?_⟩
    intro e _ hlt hmem
    obtain ⟨_, _, hin1, _, hs⟩ := monoDiscovery_ok hd
    rw [hs] at hmem
    obtain ⟨e1, _, _, hpre, _, hpath⟩ := mem_matchingPaths hmem
    have hname := pathAppend_injective r.inputDir hpath
    have := hpre.length_le
    rw [← hname] at this
    omega
  · subst hr
    refine ⟨stereoSession_no_out_of_range w r entries hin hext hsep, fun hm => ?_⟩
    have hd := stereoDiscovery_directory w r m entries hin hm
    rw [stereoScan_returns r entries _ hext] at hd
    obtain ⟨entries1, _, hin1, _, hs⟩ := stereoDiscovery_ok hd
    rw [hin] at hin1
    cases hin1
    have hL : ∀ p ∈ (entries.foldl (stereoStep r)
        ⟨[modelInfo m, .directory_iterator r.inputDir], [], [], true, [], [], [], [], [],
          []⟩).imageFilenamesL, r.prefixL.length ≤ (pathFilename p).length := by
      rw [hs]
      exact matchingPaths_prefix_le hsep
    have hR : ∀ p ∈ (entries.foldl (stereoStep r)
        ⟨[modelInfo m, .directory_iterator r.inputDir], [], [], true, [], [], [], [], [],
          []⟩).imageFilenamesR, r.prefixR.length ≤ (pathFilename p).length := by
      rw [hs]
      exact matchingPaths_prefix_le hsep
    refine ⟨_, hd, hL, hR, ?_, ?_⟩
    · intro pathL hpL pathR hpR
      obtain ⟨c, hc, _⟩ := compare5_tails (hL pathL (mem_stdSort.mp hpL))
        (hR pathR (mem_stdSort.mp hpR))
      exact ⟨c, hc⟩
    · intro o hp
      rcases stereoPairing_error hp with ⟨_, rfl⟩ | ⟨_, _, _, rfl⟩ | ⟨_, _, hlen, hcase, _⟩
      · simp
      · simp
      · rcases hcase with ⟨ht, _⟩ | ⟨_, hloop⟩
        · rw [ht]; simp
        · obtain ⟨s2, hret⟩ := stereoPairing_no_throw hin hsep hd hlen
          rw [hret] at hloop
          simp at hloop

/-- Witness of C9 on the example listing, with a prefix longer than every
name. -/
theorem C9_no_out_of_range_witness :
    (exWorld.input = .directory exEntries ∧
      (∀ e ∈ exEntries, e.isRegularFile = true → ".bmp".toList.length ≤ e.name.length) ∧
      (∀ e ∈ exEntries, '/' ∉ e.name)) ∧
    (intrinsicSession exWorld
      { exRequest with prefixM := "a_prefix_longer_than_every_name".toList }).term ≠
        .uncaught .out_of_range :=
  ⟨⟨rfl, by decide, by decide⟩,
    ((C9_no_out_of_range exWorld exEntries .MEI ".bmp".toList rfl (by decide) (by decide)).2.1
      { exRequest with prefixM := "a_prefix_longer_than_every_name".toList } rfl).1⟩

/-! ## C10 -/

theorem select_by_flags (f : Str → Bool) (L : List Str) :
    ((L.zip (L.map f)).filter (fun q => q.2)).map Prod.fst = L.filter f := by
  induction L with
  | nil => rfl
  | cons a l ih =>
    simp only [List.map_cons, List.zip_cons_cons, List.filter_cons]
    cases hf : f a <;> simp [ih]

theorem select_by_flag_pairs (f : Str → Bool) (L R : List Str) :
    (((L.zip R).zip ((L.map f).zip (R.map f))).filter (fun q => q.2.1 && q.2.2)).map Prod.fst =
      (L.zip R).filter (fun p => f p.1 && f p.2) := by
  induction L generalizing R with
  | nil => rfl
  | cons a l ih =>
    cases R with
    | nil => rfl
    | cons b rs =>
      simp only [List.map_cons, List.zip_cons_cons, List.filter_cons]
      cases hf : (f a && f b) <;> simp [ih, hf]

theorem samplesOf_monoCalibEvents (w : World) (r : Request) :
    samplesOf (monoCalibEvents w r) = [] := by
  cases hv : r.verbose <;> simp [monoCalibEvents, samplesOf, whenVerbose, hv]

theorem samplesOf_stereoCalibEvents (w : World) (r : StereoRequest) :
    samplesOf (stereoCalibEvents w r) = [] := by
  cases hv : r.verbose <;> simp [stereoCalibEvents, samplesOf, whenVerbose, hv]

theorem reviewsOf_monoCalibEvents (w : World) (r : Request) :
    reviewsOf (monoCalibEvents w r) = [] := by
  cases hv : r.verbose <;> simp [monoCalibEvents, reviewsOf, whenVerbose, hv]

theorem reviewsOf_stereoCalibEvents (w : World) (r : StereoRequest) :
    reviewsOf (stereoCalibEvents w r) = [] := by
  cases hv : r.verbose <;> simp [stereoCalibEvents, reviewsOf, whenVerbose, hv]

theorem monoFront_of_success {w : World} {r : Request}
    (h : (intrinsicSession w r).term = .success) :
    ∃ s, monoFront w r = .ok s ∧ ¬ sampleCount s.trace < 10 := by
  cases hf : monoFront w r with
  | error o =>
    rw [intrinsicSession_of_error hf] at h
    obtain ⟨_, hcase⟩ := monoFront_error hf
    rcases hcase with ⟨x, hx⟩ | ⟨h1 | h1 | h1, _⟩ <;> simp_all
  | ok s =>
    refine ⟨s, rfl, fun hc => ?_⟩
    rw [intrinsicSession_of_front hf, if_pos hc] at h
    simp at h

theorem stereoFront_of_success {w : World} {r : StereoRequest}
    (h : (stereoSession w r).term = .success) :
    ∃ s, stereoFront w r = .ok s ∧ ¬ sampleCount s.trace < 10 ∧
      ¬ absoluteThrows w r = true := by
  cases hf : stereoFront w r with
  | error o =>
    rw [stereoSession_of_error hf] at h
    obtain ⟨_, hcase⟩ := stereoFront_error hf
    rcases hcase with ⟨x, hx⟩ | ⟨h1 | h1 | h1 | h1, _⟩ | ⟨h1, _⟩ <;> simp_all
  | ok s =>
    refine ⟨s, rfl, fun hc => ?_, fun ha => ?_⟩
    · rw [stereoSession_of_front hf, if_pos hc] at h
      simp at h
    · by_cases hc : sampleCount s.trace < 10
      · rw [stereoSession_of_front hf, if_pos hc] at h
        simp at h
      · rw [stereoSession_of_front hf, if_neg hc, if_pos ha] at h
        simp at h

/-- C10. Review selection is aligned with the accumulated samples. A session
with `view-results` that ends successfully has completed the Detection Loop and
has called `drawResults` once. Mono: with the candidates at the indices whose
found flag is set, in order; these are the images of the accumulated samples,
in order, and their number is the sample count. Stereo: with the left and the
right candidates at the indices at which both found flags are set, in order;
these are the left and right images of the accumulated samples, in order, and
both lists have the length of the sample count. -/
theorem C10_review_alignment (w : World) :
    (∀ r : Request, r.viewResults = true → (intrinsicSession w r).term = .success →
      ∃ s, monoFront w r = .ok s ∧
        s.chessboardFound = s.imageFilenames.map w.cornersFound ∧
        reviewsOf (intrinsicSession w r).trace =
          [(((s.imageFilenames.zip s.chessboardFound).filter (fun q => q.2)).map Prod.fst,
            none)] ∧
        samplesOf (intrinsicSession w r).trace =
          (((s.imageFilenames.zip s.chessboardFound).filter (fun q => q.2)).map Prod.fst).map
            (fun p => (p, none)) ∧
        (((s.imageFilenames.zip s.chessboardFound).filter (fun q => q.2)).map Prod.fst).length =
          sampleCount (intrinsicSession w r).trace) ∧
    (∀ r : StereoRequest, r.viewResults = true → (stereoSession w r).term = .success →
      ∃ s, stereoFront w r = .ok s ∧
        s.chessboardFoundL = s.imageFilenamesL.map w.cornersFound ∧
        s.chessboardFoundR = s.imageFilenamesR.map w.cornersFound ∧
        reviewsOf (stereoSession w r).trace =
          [(((((s.imageFilenamesL.zip s.imageFilenamesR).zip
                (s.chessboardFoundL.zip s.chessboardFoundR)).filter
                  (fun q => q.2.1 && q.2.2)).map Prod.fst).map Prod.fst,
            some (((((s.imageFilenamesL.zip s.imageFilenamesR).zip
                (s.chessboardFoundL.zip s.chessboardFoundR)).filter
                  (fun q => q.2.1 && q.2.2)).map Prod.fst).map Prod.snd))] ∧
        samplesOf (stereoSession w r).trace =
          ((((s.imageFilenamesL.zip s.imageFilenamesR).zip
              (s.chessboardFoundL.zip s.chessboardFoundR)).filter
                (fun q => q.2.1 && q.2.2)).map Prod.fst).map (fun p => (p.1, some p.2)) ∧
        ((((s.imageFilenamesL.zip s.imageFilenamesR).zip
              (s.chessboardFoundL.zip s.chessboardFoundR)).filter
                (fun q => q.2.1 && q.2.2)).map Prod.fst).length =
          sampleCount (stereoSession w r).trace) := by
  constructor
  · intro r hv ht
    obtain ⟨s, hf, hc⟩ := monoFront_of_success ht
    obtain ⟨_, _, _, _, _, _, hflags, hsamples, hearly⟩ := monoFront_ok hf
    have hsel : ((s.imageFilenames.zip s.chessboardFound).filter (fun q => q.2)).map Prod.fst =
        s.imageFilenames.filter w.cornersFound := by
      rw [hflags]
      exact select_by_flags w.cornersFound s.imageFilenames
    have hsam : samplesOf (intrinsicSession w r).trace =
        (s.imageFilenames.filter w.cornersFound).map (fun p => (p, none)) := by
      rw [intrinsicSession_of_front hf, if_neg hc, hv]
      simp [samplesOf_append, hsamples, samplesOf_monoCalibEvents, samplesOf]
    refine ⟨s, hf, hflags, ?_, ?_, ?_⟩
    · rw [hsel, intrinsicSession_of_front hf, if_neg hc, hv]
      simp [reviewsOf_append, reviewsOf_of_early hearly, reviewsOf_monoCalibEvents, reviewsOf]
    · rw [hsel, hsam]
    · rw [hsel, sampleCount_eq, hsam, List.length_map]
  · intro r hv ht
    obtain ⟨s, hf, hc, ha⟩ := stereoFront_of_success ht
    obtain ⟨_, _, _, _, _, _, _, _, _, hfL, hfR, hsamples, hearly⟩ := stereoFront_ok hf
    have hsel : (((s.imageFilenamesL.zip s.imageFilenamesR).zip
        (s.chessboardFoundL.zip s.chessboardFoundR)).filter
          (fun q => q.2.1 && q.2.2)).map Prod.fst =
        (s.imageFilenamesL.zip s.imageFilenamesR).filter (bothFound w) := by
      rw [hfL, hfR]
      exact select_by_flag_pairs w.cornersFound s.imageFilenamesL s.imageFilenamesR
    have hsam : samplesOf (stereoSession w r).trace =
        ((s.imageFilenamesL.zip s.imageFilenamesR).filter (bothFound w)).map
          (fun p => (p.1, some p.2)) := by
      rw [stereoSession_of_front hf, if_neg hc, if_neg ha, hv]
      simp [samplesOf_append, hsamples, samplesOf_stereoCalibEvents, samplesOf]
    refine ⟨s, hf, hfL, hfR, ?_, ?_, ?_⟩
    · rw [hsel, stereoSession_of_front hf, if_neg hc, if_neg ha, hv]
      simp [reviewsOf_append, reviewsOf_of_early hearly, reviewsOf_stereoCalibEvents, reviewsOf]
    · rw [hsel, hsam]
    · rw [hsel, sampleCount_eq, hsam, List.length_map]

/-- Witness of C10: ten detected images, reviewed. -/
theorem C10_review_alignment_witness :
    (exReviewRequest.viewResults = true ∧
      (intrinsicSession exTenWorld exReviewRequest).term = .success) ∧
    ∃ s, monoFront exTenWorld exReviewRequest = .ok s ∧
      reviewsOf (intrinsicSession exTenWorld exReviewRequest).trace =
        [(((s.imageFilenames.zip s.chessboardFound).filter (fun q => q.2)).map Prod.fst,
          none)] := by
  have ht : (intrinsicSession exTenWorld exReviewRequest).term = .success := by decide
  obtain ⟨s, h1, _, h3, _⟩ := (C10_review_alignment exTenWorld).1 exReviewRequest rfl ht
  exact ⟨⟨rfl, ht⟩, s, h1, h3⟩

end Camodocal
